import Mathlib

/-!
# WKT encoding of flat-coordinate geometries (go-geom)

A shallow embedding of `point.go`, `encoding/wkt/wkt.go` and
`encoding/wkt/encode.go`, followed by theorems about the encoder.

Conventions of the embedding:

* a Go `float64` is its IEEE-754 bit pattern (`Float64`), so that the empty-point
  sentinel and `math.IsNaN` are exact;
* a Go `int` is an `Int`; a `[]float64` handed to the writers is a `Slice`
  (backing array from the first element to the capacity, plus a length), so that
  re-slicing is checked against the capacity as in Go;
* `strings.Builder` is the text written so far (`Builder`); its write methods
  never fail, so a write is an append;
* a writer returns the builder together with an `Outcome`: the `error` it
  returned (`nil` or a `GeomError`), a run-time panic, or non-termination;
* `strconv.FormatFloat(x, 'f', prec, 64)` belongs to the Go standard library and
  is a parameter `fmt` of every writer; `FormatFloat` below is a reference
  model of it, used to evaluate the writers on concrete inputs.
-/

namespace geom

/-- Dimensionality tag (`type Layout int`): the five named tags, and `other` for
any further value of the underlying integer. -/
inductive Layout
  | NoLayout
  | XY
  | XYZ
  | XYM
  | XYZM
  | other (code : Nat)
deriving DecidableEq, Repr

/-- Modelled from the spec: `Layout.Stride` (declared outside the shown files).
`XY` gives 2, `XYZ` and `XYM` give 3, `XYZM` gives 4. The spec fixes no stride
for `NoLayout` and for tags outside the closed set; the encoder rejects those
layouts before asking for a stride. -/
def Layout.Stride : Layout → Int
  | .NoLayout => 0
  | .XY => 2
  | .XYZ => 3
  | .XYM => 3
  | .XYZM => 4
  | .other c => c

/-- Modelled from the spec: `Layout.ZIndex` (declared outside the shown files):
Z sits at slot 2 of `XYZ` and `XYZM`; `-1` when the layout has no Z axis. -/
def Layout.ZIndex : Layout → Int
  | .XYZ => 2
  | .XYZM => 2
  | _ => -1

/-- Modelled from the spec: `Layout.MIndex` (declared outside the shown files):
M sits at slot 2 of `XYM` and slot 3 of `XYZM`; `-1` when the layout has no M
axis. -/
def Layout.MIndex : Layout → Int
  | .XYM => 2
  | .XYZM => 3
  | _ => -1

/-- The four layouts the encoder writes: `XY`, `XYZ`, `XYM`, `XYZM`. -/
def Layout.supported : Layout → Bool
  | .XY => true
  | .XYZ => true
  | .XYM => true
  | .XYZM => true
  | _ => false

/-- A `float64`, given by its IEEE-754 binary64 bit pattern. -/
structure Float64 where
  bits : Nat
deriving DecidableEq, Repr

/-- The `math.Float64frombits` conversion of a `uint64`. -/
def Float64frombits (b : Nat) : Float64 := ⟨b % 2 ^ 64⟩

/-- Biased exponent field (11 bits). -/
def Float64.expField (x : Float64) : Nat := x.bits / 2 ^ 52 % 2 ^ 11

/-- Fraction field (52 bits). -/
def Float64.frac (x : Float64) : Nat := x.bits % 2 ^ 52

/-- Sign bit. -/
def Float64.neg (x : Float64) : Bool := x.bits / 2 ^ 63 % 2 == 1

/-- The `math.IsNaN` test (`f != f`): all exponent bits set and a non-zero
fraction. -/
def IsNaN (x : Float64) : Bool := x.expField == 2047 && x.frac != 0

/-- The zero value of `float64`, as left by `make([]float64, n)`. -/
def zeroFloat64 : Float64 := ⟨0⟩

/-- Value signifying whether a Point is actually POINT EMPTY:
`math.Float64frombits(0x7FF8000000000000)`. -/
def emptyPointFloat64 : Float64 := Float64frombits 0x7FF8000000000000

/-- Modelled from the spec: the flat geometry record `geom0` (declared outside
the shown files; `point.go` uses its fields `layout`, `stride`, `flatCoords` and
`srid`). The flat buffer is a sequence of numbers; its capacity is taken equal
to its length. -/
structure geom0 where
  layout : Layout
  stride : Int
  flatCoords : List Float64
  srid : Int
deriving DecidableEq, Repr

/-- Modelled from the spec: a sequence-of-sequences geometry carries one `ends`
array of end offsets into the flat buffer. -/
structure geom2 extends geom0 where
  ends : List Int
deriving DecidableEq, Repr

/-- Modelled from the spec: a sequence-of-sequences-of-sequences geometry carries
one `ends` array per member (`endss`). -/
structure geom3 extends geom0 where
  endss : List (List Int)
deriving DecidableEq, Repr

/-- A Point represents a single point (`type Point struct { geom0 }`). -/
abbrev Point := geom0

/-- The interface `geom.T`, as a tagged union of the kinds the encoder switches
on. `GeometryCollection` holds the value of its `Layout()` accessor, its members
and its SRID; `other` is any implementation of the interface outside the closed
set, with the values of its `Layout()` and `Empty()` accessors. -/
inductive T
  | Point (g : Point)
  | LineString (g : geom0)
  | LinearRing (g : geom0)
  | Polygon (g : geom2)
  | MultiPoint (g : geom0)
  | MultiLineString (g : geom2)
  | MultiPolygon (g : geom3)
  | GeometryCollection (layout : Layout) (geoms : List T) (srid : Int)
  | other (layout : Layout) (empty : Bool)

/-- Errors of package `geom` returned by the encoder. -/
inductive GeomError
  | ErrUnsupportedType (value : T)
  | ErrUnsupportedLayout (layout : Layout)

/-- How a call ended: it returned the `nil` error, returned an error, panicked
(index or slice out of range), or never returns. -/
inductive Outcome
  | nil
  | err (e : GeomError)
  | panic
  | diverge

/-- What a function with Go results `(string, error)` does: it returns, panics or
never returns. -/
inductive Result
  | ret (text : String) (err : Option GeomError)
  | panic
  | diverge

/-! ## point.go -/

/-- NewPointFlat allocates a new Point with layout l and flat coordinates
flatCoords. -/
def NewPointFlat (l : Layout) (flatCoords : List Float64) : Point :=
  { layout := l, stride := l.Stride, flatCoords := flatCoords, srid := 0 }

/-- NewPoint allocates a new Point with layout l and all values zero. -/
def NewPoint (l : Layout) : Point :=
  NewPointFlat l (List.replicate l.Stride.toNat zeroFloat64)

/-- NewPointEmpty allocates a new Point representing an empty Point: the buffer
of `l.Stride()` zeros is overwritten slot by slot with `emptyPointFloat64`. -/
def NewPointEmpty (l : Layout) : Point :=
  let coords := List.replicate l.Stride.toNat zeroFloat64
  let coords := (List.range l.Stride.toNat).foldl
    (fun c i => c.set i emptyPointFloat64) coords
  NewPointFlat l coords

/-- The loop of `Point.Empty`: `k` iterations are left, the index is `i`.
`none` is the index-out-of-range panic of `g.flatCoords[i]`. -/
def Point.EmptyLoop (flatCoords : List Float64) : Nat → Nat → Option Bool
  | 0, _ => some true
  | k + 1, i =>
    match flatCoords.get? i with
    | none => none
    | some x => if !IsNaN x then some false else Point.EmptyLoop flatCoords k (i + 1)

/-- Empty returns whether g is empty: every one of the first `g.Stride()` slots
is NaN. -/
def Point.Empty (g : Point) : Option Bool :=
  Point.EmptyLoop g.flatCoords g.stride.toNat 0

/-- SetSRID sets the SRID of g. -/
def Point.SetSRID (g : Point) (srid : Int) : Point := { g with srid := srid }

/-- Indexing `flatCoords[i]` with a Go `int`; `none` is the panic. -/
def index (xs : List Float64) (i : Int) : Option Float64 :=
  if 0 ≤ i then xs.get? i.toNat else none

/-- X returns g's X-coordinate. -/
def Point.X (g : Point) : Option Float64 := index g.flatCoords 0

/-- Y returns g's Y-coordinate. -/
def Point.Y (g : Point) : Option Float64 := index g.flatCoords 1

/-- Z returns g's Z-coordinate, or zero if g has no Z-coordinate. -/
def Point.Z (g : Point) : Option Float64 :=
  let zIndex := g.layout.ZIndex
  if zIndex = -1 then some zeroFloat64 else index g.flatCoords zIndex

/-- M returns g's M-coordinate, or zero if g has no M-coordinate. -/
def Point.M (g : Point) : Option Float64 :=
  let mIndex := g.layout.MIndex
  if mIndex = -1 then some zeroFloat64 else index g.flatCoords mIndex

/-! ## Accessors of the other kinds -/

/-- Modelled from the spec: `Empty()` of a non-Point, non-collection geometry
(declared outside the shown files): a zero-length flat buffer. -/
def geom0.Empty (g : geom0) : Bool := g.flatCoords.isEmpty

/-- Modelled from the spec: `Empty()` of a GeometryCollection (declared outside
the shown files): zero members. -/
def GeometryCollection.Empty (geoms : List T) : Bool := geoms.isEmpty

/-- Modelled from the spec: the `Layout()` accessor of the interface. -/
def T.Layout : T → Layout
  | .Point g => g.layout
  | .LineString g => g.layout
  | .LinearRing g => g.layout
  | .Polygon g => g.layout
  | .MultiPoint g => g.layout
  | .MultiLineString g => g.layout
  | .MultiPolygon g => g.layout
  | .GeometryCollection l _ _ => l
  | .other l _ => l

/-- The kinds of the closed set the encoder supports: every kind but `other`. -/
def T.supported : T → Bool
  | .other _ _ => false
  | _ => true

/-- The `Empty()` method of the interface, per kind (`none`: `Point.Empty`
panicked). -/
def T.Empty : T → Option Bool
  | .Point g => Point.Empty g
  | .LineString g => some g.Empty
  | .LinearRing g => some g.Empty
  | .Polygon g => some g.togeom0.Empty
  | .MultiPoint g => some g.Empty
  | .MultiLineString g => some g.togeom0.Empty
  | .MultiPolygon g => some g.togeom0.Empty
  | .GeometryCollection _ geoms _ => some (GeometryCollection.Empty geoms)
  | .other _ e => some e

end geom

namespace wkt

open geom

/-! ## encoding/wkt/wkt.go -/

def tPoint : String := "POINT "

def tMultiPoint : String := "MULTIPOINT "

def tLineString : String := "LINESTRING "

def tMultiLineString : String := "MULTILINESTRING "

def tPolygon : String := "POLYGON "

def tMultiPolygon : String := "MULTIPOLYGON "

def tGeometryCollection : String := "GEOMETRYCOLLECTION "

def tZ : String := "Z "

def tM : String := "M "

def tZm : String := "ZM "

def tEmpty : String := "EMPTY"

/-- The value defaultMaxDecimalDigits ensures printing as many decimal digits as
possible. -/
def defaultMaxDecimalDigits : Int := -1

/-! ## Go run-time and library operations used by encode.go -/

/-- Contents of a `strings.Builder`. `WriteString` and `WriteRune` append to it
and always return a `nil` error. -/
abbrev Builder := String

/-- The type of `strconv.FormatFloat(x, 'f', prec, 64)` as a function of `x` and
`prec`. -/
abbrev Formatter := Float64 → Int → String

/-- The `strings.TrimRight(s, cutset)` function: `s` without its trailing
characters that occur in `cutset`. -/
def TrimRight (s cutset : String) : String :=
  ⟨s.data.rdropWhile (fun c => cutset.data.contains c)⟩

/-- A `[]float64` value: `arr` holds the backing array from the slice's first
element up to its capacity, `len` is the slice's length. -/
structure Slice where
  arr : List Float64
  len : Nat
deriving DecidableEq, Repr

/-- The slice a geometry returns from `FlatCoords()`: the whole buffer. -/
def Slice.ofList (xs : List Float64) : Slice := ⟨xs, xs.length⟩

/-- The elements a `range` over the slice visits. -/
def Slice.elems (s : Slice) : List Float64 := s.arr.take s.len

/-- The slice expression `s[lo:hi]`: Go requires `0 ≤ lo ≤ hi ≤ cap(s)`, else it panics
(`none`). -/
def Slice.reslice (s : Slice) (lo hi : Int) : Option Slice :=
  if 0 ≤ lo ∧ lo ≤ hi ∧ hi ≤ (s.arr.length : Int) then
    some ⟨s.arr.drop lo.toNat, (hi - lo).toNat⟩
  else none

/-! ## encoding/wkt/encode.go -/

/-- The text `writeCoord` writes for one value: `FormatFloat`, then, unless
`maxDecimalDigits` is `-1`, the two `TrimRight` calls. -/
def coordStr (fmt : Formatter) (x : Float64) (maxDecimalDigits : Int) : String :=
  let coordStr := fmt x maxDecimalDigits
  if maxDecimalDigits ≠ -1 then
    TrimRight (TrimRight coordStr "0") "."
  else coordStr

/-- The `range` loop of `writeCoord`, at index `i` with `coord[i:]` left. -/
def writeCoordLoop (fmt : Formatter) (maxDecimalDigits : Int) :
    Builder → Nat → List Float64 → Builder
  | sb, _, [] => sb
  | sb, i, x :: rest =>
    let sb := if i ≠ 0 then sb ++ " " else sb
    writeCoordLoop fmt maxDecimalDigits (sb ++ coordStr fmt x maxDecimalDigits) (i + 1) rest

def writeCoord (fmt : Formatter) (sb : Builder) (coord : Slice) (maxDecimalDigits : Int) :
    Builder × Outcome :=
  (writeCoordLoop fmt maxDecimalDigits sb 0 coord.elems, .nil)

def writeEMPTY (sb : Builder) : Builder × Outcome :=
  (sb ++ tEmpty, .nil)

def writeFlatCoords0 (fmt : Formatter) (sb : Builder) (flatCoords : Slice)
    (stride maxDecimalDigits : Int) : Builder × Outcome :=
  let sb := sb ++ "("
  match flatCoords.reslice 0 stride with
  | none => (sb, .panic)
  | some coord =>
    match writeCoord fmt sb coord maxDecimalDigits with
    | (sb, .nil) => (sb ++ ")", .nil)
    | r => r

/-- The `for i, n := 0, len(flatCoords); i < n; i += stride` loop of
`writeFlatCoords1`, entered at index `i`. The first argument bounds the number
of iterations still allowed; running out of it stands for a loop that never
ends (`stride = 0`). -/
def writeFlatCoords1Loop (fmt : Formatter) (flatCoords : Slice)
    (stride maxDecimalDigits : Int) : Nat → Builder → Int → Builder × Outcome
  | 0, sb, i => if i < (flatCoords.len : Int) then (sb, .diverge) else (sb, .nil)
  | fuel + 1, sb, i =>
    if i < (flatCoords.len : Int) then
      let sb := if i ≠ 0 then sb ++ ", " else sb
      match flatCoords.reslice i (i + stride) with
      | none => (sb, .panic)
      | some coord =>
        match writeCoord fmt sb coord maxDecimalDigits with
        | (sb, .nil) =>
          writeFlatCoords1Loop fmt flatCoords stride maxDecimalDigits fuel sb (i + stride)
        | r => r
    else (sb, .nil)

/-- The depth-1 writer. With `stride ≥ 1` the loop ends within `len(flatCoords)`
iterations, which is the bound given to the loop. -/
def writeFlatCoords1 (fmt : Formatter) (sb : Builder) (flatCoords : Slice)
    (stride maxDecimalDigits : Int) : Builder × Outcome :=
  let sb := sb ++ "("
  match writeFlatCoords1Loop fmt flatCoords stride maxDecimalDigits flatCoords.len sb 0 with
  | (sb, .nil) => (sb ++ ")", .nil)
  | r => r

/-- The `for i, end := range ends` loop of `writeFlatCoords2`, at index `i` with
`ends[i:]` left. -/
def writeFlatCoords2Loop (fmt : Formatter) (flatCoords : Slice)
    (stride maxDecimalDigits : Int) : Builder → Nat → Int → List Int → Builder × Outcome
  | sb, _, _, [] => (sb, .nil)
  | sb, i, start, e :: rest =>
    let sb := if i ≠ 0 then sb ++ ", " else sb
    match flatCoords.reslice start e with
    | none => (sb, .panic)
    | some ring =>
      match writeFlatCoords1 fmt sb ring stride maxDecimalDigits with
      | (sb, .nil) =>
        writeFlatCoords2Loop fmt flatCoords stride maxDecimalDigits sb (i + 1) e rest
      | r => r

def writeFlatCoords2 (fmt : Formatter) (sb : Builder) (flatCoords : Slice) (start : Int)
    (ends : List Int) (stride maxDecimalDigits : Int) : Builder × Outcome :=
  let sb := sb ++ "("
  match writeFlatCoords2Loop fmt flatCoords stride maxDecimalDigits sb 0 start ends with
  | (sb, .nil) => (sb ++ ")", .nil)
  | r => r

/-- The `for i, ends := range endss` loop of `writeFlatCoords3`, at index `i`
with `endss[i:]` left. `ends[len(ends)-1]` panics on an empty `ends`. -/
def writeFlatCoords3Loop (fmt : Formatter) (flatCoords : Slice)
    (stride maxDecimalDigits : Int) : Builder → Nat → Int → List (List Int) → Builder × Outcome
  | sb, _, _, [] => (sb, .nil)
  | sb, i, start, ends :: rest =>
    let sb := if i ≠ 0 then sb ++ ", " else sb
    match writeFlatCoords2 fmt sb flatCoords start ends stride maxDecimalDigits with
    | (sb, .nil) =>
      match ends.getLast? with
      | none => (sb, .panic)
      | some last =>
        writeFlatCoords3Loop fmt flatCoords stride maxDecimalDigits sb (i + 1) last rest
    | r => r

def writeFlatCoords3 (fmt : Formatter) (sb : Builder) (flatCoords : Slice)
    (endss : List (List Int)) (stride maxDecimalDigits : Int) : Builder × Outcome :=
  let sb := sb ++ "("
  match writeFlatCoords3Loop fmt flatCoords stride maxDecimalDigits sb 0 0 endss with
  | (sb, .nil) => (sb ++ ")", .nil)
  | r => r

/-- The first type switch of `write`: the keyword of a supported kind, `none` in
the `default` case. -/
def typeKeyword : T → Option String
  | .Point _ => some tPoint
  | .LineString _ => some tLineString
  | .LinearRing _ => some tLineString
  | .Polygon _ => some tPolygon
  | .MultiPoint _ => some tMultiPoint
  | .MultiLineString _ => some tMultiLineString
  | .MultiPolygon _ => some tMultiPolygon
  | .GeometryCollection _ _ _ => some tGeometryCollection
  | .other _ _ => none

/-- The layout switch of `write`: the type string with the dimensionality
suffix appended, or the error returned. -/
def layoutSwitch (g : T) (typeString : String) : Except GeomError String :=
  match g.Layout with
  | .NoLayout =>
    match g with
    | .GeometryCollection _ geoms _ =>
      if !GeometryCollection.Empty geoms then .error (.ErrUnsupportedLayout g.Layout)
      else .ok typeString
    | _ => .error (.ErrUnsupportedLayout g.Layout)
  | .XY => .ok typeString
  | .XYZ => .ok (typeString ++ tZ)
  | .XYM => .ok (typeString ++ tM)
  | .XYZM => .ok (typeString ++ tZm)
  | .other _ => .error (.ErrUnsupportedLayout g.Layout)

mutual
/-- The recursive writer. -/
def write (fmt : Formatter) (sb : Builder) (g : T) (maxDecimalDigits : Int) :
    Builder × Outcome :=
  match typeKeyword g with
  | none => (sb, .err (.ErrUnsupportedType g))
  | some typeString =>
    match layoutSwitch g typeString with
    | .error e => (sb, .err e)
    | .ok typeString =>
      let sb := sb ++ typeString
      let layout := g.Layout
      match g with
      | .Point g =>
        match Point.Empty g with
        | none => (sb, .panic)
        | some true => writeEMPTY sb
        | some false =>
          writeFlatCoords0 fmt sb (Slice.ofList g.flatCoords) layout.Stride maxDecimalDigits
      | .LineString g =>
        if g.Empty then writeEMPTY sb
        else writeFlatCoords1 fmt sb (Slice.ofList g.flatCoords) layout.Stride maxDecimalDigits
      | .LinearRing g =>
        if g.Empty then writeEMPTY sb
        else writeFlatCoords1 fmt sb (Slice.ofList g.flatCoords) layout.Stride maxDecimalDigits
      | .Polygon g =>
        if g.togeom0.Empty then writeEMPTY sb
        else writeFlatCoords2 fmt sb (Slice.ofList g.flatCoords) 0 g.ends layout.Stride
          maxDecimalDigits
      | .MultiPoint g =>
        if g.Empty then writeEMPTY sb
        else writeFlatCoords1 fmt sb (Slice.ofList g.flatCoords) layout.Stride maxDecimalDigits
      | .MultiLineString g =>
        if g.togeom0.Empty then writeEMPTY sb
        else writeFlatCoords2 fmt sb (Slice.ofList g.flatCoords) 0 g.ends layout.Stride
          maxDecimalDigits
      | .MultiPolygon g =>
        if g.togeom0.Empty then writeEMPTY sb
        else writeFlatCoords3 fmt sb (Slice.ofList g.flatCoords) g.endss layout.Stride
          maxDecimalDigits
      | .GeometryCollection _ geoms _ =>
        if GeometryCollection.Empty geoms then writeEMPTY sb
        else
          let sb := sb ++ "("
          match writeGeoms fmt sb 0 geoms maxDecimalDigits with
          | (sb, .nil) => (sb ++ ")", .nil)
          | r => r
      | .other _ _ => (sb, .nil)
/-- The `for i, g := range g.Geoms()` loop of `write`, at index `i` with
`Geoms()[i:]` left. -/
def writeGeoms (fmt : Formatter) (sb : Builder) (i : Nat) (geoms : List T)
    (maxDecimalDigits : Int) : Builder × Outcome :=
  match geoms with
  | [] => (sb, .nil)
  | g :: rest =>
    let sb := if i ≠ 0 then sb ++ ", " else sb
    match write fmt sb g maxDecimalDigits with
    | (sb, .nil) => writeGeoms fmt sb (i + 1) rest maxDecimalDigits
    | r => r
end

/-- The function encode translates a geometry to the corresponding WKT. -/
def encode (fmt : Formatter) (g : T) (maxDecimalDigits : Int) : Result :=
  match write fmt "" g maxDecimalDigits with
  | (sb, .nil) => .ret sb none
  | (_, .err e) => .ret "" (some e)
  | (_, .panic) => .panic
  | (_, .diverge) => .diverge

/-- Marshal translates a geometry to the corresponding WKT. -/
def Marshal (fmt : Formatter) (g : T) : Result :=
  encode fmt g defaultMaxDecimalDigits

/-- This variant of Marshal only prints up to the maximum decimal digits for each
coord. -/
def MarshalWithMaxDecimalDigits (fmt : Formatter) (g : T) (maxDecimalDigits : Int) : Result :=
  encode fmt g maxDecimalDigits

end wkt

namespace strconv

open geom

/-! ## Reference model of `strconv.FormatFloat(x, 'f', prec, 64)`

The function is part of the Go standard library. The writers take it as a
parameter; this model instantiates the parameter when a writer is evaluated on
a concrete input. A finite `x` has the exact value `± num / den`. -/

/-- Significand of a finite value, with the implicit leading bit of a normal
number. -/
def mant (x : Float64) : Nat := if x.expField = 0 then x.frac else x.frac + 2 ^ 52

/-- Binary exponent of the last bit of the significand. -/
def exp2 (x : Float64) : Int := (max x.expField 1 : Nat) - 1075

/-- Numerator of the exact value. -/
def num (x : Float64) : Nat := mant x * 2 ^ (exp2 x).toNat

/-- Denominator of the exact value (`1` for a zero). -/
def den (x : Float64) : Nat := if mant x = 0 then 1 else 2 ^ (-(exp2 x)).toNat

/-- The integer nearest to `a / b`, ties to the even one. -/
def roundHalfEven (a b : Nat) : Nat :=
  let q := a / b
  let r := a % b
  if 2 * r < b then q else if b < 2 * r then q + 1 else if q % 2 = 0 then q else q + 1

def padLeft (p : Nat) (ds : List Char) : List Char :=
  List.replicate (p - ds.length) '0' ++ ds

/-- The decimal text of `± q / 10 ^ p` with exactly `p` digits after the point
(no point when `p = 0`). -/
def fmtDecimal (neg : Bool) (q p : Nat) : String :=
  ⟨(if neg then ['-'] else []) ++ Nat.toDigits 10 (q / 10 ^ p) ++
    (if p = 0 then [] else '.' :: padLeft p (Nat.toDigits 10 (q % 10 ^ p)))⟩

/-- Precision `p ≥ 0`: the exact value rounded to `p` fractional digits. -/
def formatFixed (x : Float64) (p : Nat) : String :=
  fmtDecimal x.neg (roundHalfEven (num x * 10 ^ p) (den x)) p

/-- The multiple of `10 ^ q` nearest to `x` among those that round back to `x`,
if there is one. Bounds are taken in units of `1 / (4 * den x)`; the ends of
the rounding interval belong to it when the significand is even. -/
def shortestAt (x : Float64) (q : Int) : Option Nat :=
  let u := 2 ^ (exp2 x).toNat
  let v := 4 * num x
  let hi := v + 2 * u
  let lo := if x.frac = 0 ∧ 1 < x.expField then v - u else v - 2 * u
  let step := 4 * den x * 10 ^ q.toNat
  let sc := 10 ^ (-q).toNat
  let incl := mant x % 2 = 0
  let cmin := if incl then (lo * sc + step - 1) / step else lo * sc / step + 1
  let cmax := if incl then hi * sc / step else (hi * sc + step - 1) / step - 1
  if cmin ≤ cmax then some (max cmin (min cmax (roundHalfEven (v * sc) step))) else none

/-- Search of the coarsest decimal grid `10 ^ q` holding a value that rounds
back to `x`, from `q` downwards; `""` when the search gives up. -/
def shortestSearch (x : Float64) : Nat → Int → String
  | 0, _ => ""
  | fuel + 1, q =>
    match shortestAt x q with
    | some c => fmtDecimal x.neg (c * 10 ^ q.toNat) (-q).toNat
    | none => shortestSearch x fuel (q - 1)

/-- Negative precision: the fewest digits that identify `x` uniquely. The search
starts at the grid one decade above the integer part of `x`. -/
def formatShortest (x : Float64) : String :=
  if mant x = 0 then (if x.neg then "-0" else "0")
  else shortestSearch x 1400 (Nat.toDigits 10 (num x / den x)).length

def FormatFloat : wkt.Formatter := fun x prec =>
  if x.expField = 2047 then
    (if x.frac ≠ 0 then "NaN" else if x.neg then "-Inf" else "+Inf")
  else if prec < 0 then formatShortest x
  else formatFixed x prec.toNat

/-! ## Reference model of `strconv.ParseFloat(s, 64)`

The function is part of the Go standard library. The decoder takes it as a
parameter; this model instantiates the parameter when the decoder is evaluated
on a concrete input. It covers `NaN`, `+Inf`, `-Inf` and the decimal literals
`[+-]digits[.digits]` whose nearest `float64` is a normal number or a zero;
`none` stands for the error of `ParseFloat` and for every input outside the
model. -/

/-- Value of a run of decimal digits; `none` when a character is not a digit. -/
def digitsValue (cs : List Char) : Option Nat :=
  cs.foldl (fun acc c => acc.bind (fun n =>
    if c.isDigit then some (10 * n + (c.toNat - 48)) else none)) (some 0)

/-- Number of binary digits of `n`. -/
def bitLen (n : Nat) : Nat := if n = 0 then 0 else (Nat.toDigits 2 n).length

/-- The normal `float64` nearest to `± a / b`, ties to the even significand; a
zero when `a = 0`. -/
def nearest (neg : Bool) (a b : Nat) : Option Float64 :=
  let sign := if neg then 2 ^ 63 else 0
  if a = 0 then some ⟨sign⟩
  else
    let e1 : Int := (bitLen a : Int) - (bitLen b : Int) - 53
    let e : Int :=
      if 2 ^ 53 * (b * 2 ^ e1.toNat) ≤ a * 2 ^ (-e1).toNat then e1 + 1 else e1
    let m := roundHalfEven (a * 2 ^ (-e).toNat) (b * 2 ^ e.toNat)
    let e := if m = 2 ^ 53 then e + 1 else e
    let m := if m = 2 ^ 53 then 2 ^ 52 else m
    let field := e + 1075
    if 1 ≤ field ∧ field ≤ 2046 then some ⟨sign + field.toNat * 2 ^ 52 + (m - 2 ^ 52)⟩
    else none

def ParseFloat (s : String) : Option Float64 :=
  if s = "NaN" then some ⟨0x7FF8000000000001⟩
  else if s = "+Inf" then some ⟨0x7FF0000000000000⟩
  else if s = "-Inf" then some ⟨0xFFF0000000000000⟩
  else
    let neg := s.data.head? = some '-'
    let cs := if s.data.head? = some '-' ∨ s.data.head? = some '+' then s.data.drop 1 else s.data
    let ip := cs.takeWhile (fun c => c != '.')
    let fp := (cs.dropWhile (fun c => c != '.')).drop 1
    if ip.isEmpty && fp.isEmpty then none
    else
      match digitsValue (ip ++ fp) with
      | none => none
      | some n => nearest neg n (10 ^ fp.length)

end strconv

namespace wkt

open geom strconv

/-! ## Vocabulary of the specification -/

/-- Text that follows the first item of a separated list: every item preceded
by the separator. -/
def sepTail (sep : String) : List String → String
  | [] => ""
  | a :: l => sep ++ a ++ sepTail sep l

/-- Text of a loop that writes the separator before every item but the one at
index 0, when it is entered at index `i`. -/
def joined (i : Nat) (sep : String) (l : List String) : String :=
  if i = 0 then String.intercalate sep l else sepTail sep l

/-- Text of one coordinate tuple: its formatted values joined by one space. -/
def tupleText (fmt : Formatter) (n : Int) (coord : List Float64) : String :=
  String.intercalate " " (coord.map (fun x => coordStr fmt x n))

/-- The coordinate tuples of a flat buffer: tuple `j` is `xs[j*k : (j+1)*k]`. -/
def tuples (k : Nat) (xs : List Float64) : List (List Float64) :=
  (List.range (xs.length / k)).map (fun j => (xs.drop (j * k)).take k)

/-- Text of a depth-1 group: the tuples joined by `", "`, in parentheses. -/
def ringText (fmt : Formatter) (n : Int) (k : Nat) (xs : List Float64) : String :=
  "(" ++ String.intercalate ", " ((tuples k xs).map (tupleText fmt n)) ++ ")"

/-- The Go slice expression `xs[lo:hi]` on a sequence, for `0 ≤ lo ≤ hi ≤ len(xs)`. -/
def sub (xs : List Float64) (lo hi : Int) : List Float64 :=
  (xs.take hi.toNat).drop lo.toNat

/-- The runs that an `ends` array cuts out of the flat buffer, the first one
starting at `start`: `flat[start:e₁]`, `flat[e₁:e₂]`, and so on. -/
def runs (flat : List Float64) : Int → List Int → List (List Float64)
  | _, [] => []
  | start, e :: rest => sub flat start e :: runs flat e rest

/-- Text of a depth-2 group: the depth-1 groups of its runs joined by `", "`, in
parentheses. -/
def polygonText (fmt : Formatter) (n : Int) (k : Nat) (flat : List Float64) (start : Int)
    (ends : List Int) : String :=
  "(" ++ String.intercalate ", " ((runs flat start ends).map (ringText fmt n k)) ++ ")"

/-- End offsets usable from `start` in a buffer of `cap` slots: every run
`flat[start:e]` is in range and holds a whole number of tuples of `k` slots. -/
def EndsOK (cap k : Nat) : Int → List Int → Prop
  | _, [] => True
  | start, e :: rest =>
    0 ≤ start ∧ start ≤ e ∧ e ≤ (cap : Int) ∧ (k : Int) ∣ (e - start) ∧ EndsOK cap k e rest

/-- Per-member end arrays usable from `start`: every member has a final end, which
lies after the member's start, and its ends are usable from that start; the next
member starts at that final end. -/
def EndssOK (cap k : Nat) : Int → List (List Int) → Prop
  | _, [] => True
  | start, ends :: rest =>
    ∃ last, ends.getLast? = some last ∧ start < last ∧ EndsOK cap k start ends ∧
      EndssOK cap k last rest

/-- Texts of the depth-2 groups of a depth-3 geometry, the first member starting at
`start` and every other one at the final end of the member before it. -/
def polygonTexts (fmt : Formatter) (n : Int) (k : Nat) (flat : List Float64) :
    Int → List (List Int) → List String
  | _, [] => []
  | start, ends :: rest =>
    polygonText fmt n k flat start ends ::
      polygonTexts fmt n k flat (ends.getLast?.getD start) rest

/-- The members of a MultiPolygon, each as a Polygon on its own: the member that
starts at `start` owns the flat sub-range from `start` to its final end, and its
ends are rebased to that start. -/
def membersFrom (g : geom0) : Int → List (List Int) → List geom2
  | _, [] => []
  | start, ends :: rest =>
    { g with flatCoords := sub g.flatCoords start (ends.getLast?.getD start),
             ends := ends.map (fun e => e - start) } ::
      membersFrom g (ends.getLast?.getD start) rest

/-- The member Polygons of a MultiPolygon; the first one starts at offset 0. -/
def memberPolygons (g : geom3) : List geom2 := membersFrom g.togeom0 0 g.endss

/-- The WKT keyword of a kind, as the specification lists them. -/
def specKeyword : T → String
  | .Point _ => "POINT"
  | .LineString _ => "LINESTRING"
  | .LinearRing _ => "LINESTRING"
  | .Polygon _ => "POLYGON"
  | .MultiPoint _ => "MULTIPOINT"
  | .MultiLineString _ => "MULTILINESTRING"
  | .MultiPolygon _ => "MULTIPOLYGON"
  | .GeometryCollection _ _ _ => "GEOMETRYCOLLECTION"
  | .other _ _ => ""

/-- The dimensionality suffix of a layout, as the specification lists them:
nothing for `XY`, `Z`, `M`, `ZM`. -/
def specDim : Layout → String
  | .XYZ => "Z"
  | .XYM => "M"
  | .XYZM => "ZM"
  | _ => ""

/-- The head of an encoding: the keyword and one space, then the dimensionality
suffix and one space when the layout has a suffix. -/
def specHeader (g : T) : String :=
  specKeyword g ++ " " ++ (if specDim g.Layout = "" then "" else specDim g.Layout ++ " ")

/-- Number of characters after the first decimal point; 0 when there is none. -/
def fracLen : List Char → Nat
  | [] => 0
  | c :: cs => if c = '.' then cs.length else fracLen cs

/-- The shape of a fixed-point rendering with at most `n` fractional digits: at
most one decimal point, and at most `n` characters after it. -/
abbrev FixedShape (n : Nat) (s : String) : Prop :=
  s.data.count '.' ≤ 1 ∧ fracLen s.data ≤ n

/-- What is asked of a coordinate token: at most `n` digits after its decimal
point, no `.` at its end, and no `0` at its end when it has a decimal point. -/
abbrev TokenOK (n : Nat) (s : String) : Prop :=
  fracLen s.data ≤ n ∧ s.data.getLast? ≠ some '.' ∧
    ('.' ∈ s.data → s.data.getLast? ≠ some '0')

/-- The fixed pieces of text the writers emit besides coordinate values. -/
def literals : List String :=
  [tPoint, tMultiPoint, tLineString, tMultiLineString, tPolygon, tMultiPolygon,
    tGeometryCollection, tZ, tM, tZm, tEmpty, "(", ")", ", ", " "]

/-- A text put together, left to right, from the fixed pieces of the writers and
from coordinate tokens that satisfy `tok`. -/
inductive Assembled (tok : String → Prop) : String → Prop
  | empty : Assembled tok ""
  | lit (s t : String) : Assembled tok s → t ∈ literals → Assembled tok (s ++ t)
  | coord (s t : String) : Assembled tok s → tok t → Assembled tok (s ++ t)

mutual
/-- All coordinate values a geometry holds, those of the members of a collection
included. -/
def coordsOf : T → List Float64
  | .Point g => g.flatCoords
  | .LineString g => g.flatCoords
  | .LinearRing g => g.flatCoords
  | .Polygon g => g.flatCoords
  | .MultiPoint g => g.flatCoords
  | .MultiLineString g => g.flatCoords
  | .MultiPolygon g => g.flatCoords
  | .GeometryCollection _ geoms _ => coordsOfAll geoms
  | .other _ _ => []
/-- The coordinate values of a list of geometries. -/
def coordsOfAll : List T → List Float64
  | [] => []
  | g :: rest => coordsOf g ++ coordsOfAll rest
end

mutual
/-- The geometry `v` is a member of the collection `g`, directly or through nested
collections. -/
def nestedIn (v : T) : T → Prop
  | .GeometryCollection _ geoms _ => nestedInAny v geoms
  | _ => False
/-- The geometry `v` is one of the listed geometries or nested in one of them. -/
def nestedInAny (v : T) : List T → Prop
  | [] => False
  | g :: rest => v = g ∨ nestedIn v g ∨ nestedInAny v rest
end

/-- The kinds a WKT keyword tells apart: LinearRing counts as LineString. -/
inductive Kind
  | Point
  | LineString
  | Polygon
  | MultiPoint
  | MultiLineString
  | MultiPolygon
  | GeometryCollection
  | other
deriving DecidableEq, Repr

/-- The kind of a geometry, LineString and LinearRing being identified. -/
def kindOf : T → Kind
  | .Point _ => .Point
  | .LineString _ => .LineString
  | .LinearRing _ => .LineString
  | .Polygon _ => .Polygon
  | .MultiPoint _ => .MultiPoint
  | .MultiLineString _ => .MultiLineString
  | .MultiPolygon _ => .MultiPolygon
  | .GeometryCollection _ _ _ => .GeometryCollection
  | .other _ _ => .other

/-- The layout a header tells: `NoLayout` (legal on an empty collection only) is
not told apart from `XY`. -/
def layoutOf : Layout → Layout
  | .NoLayout => .XY
  | l => l

/-- The first word of a text and the run of `Z` and `M` that follows the blank
after it. -/
def headerKey (s : String) : List Char × List Char :=
  (s.data.takeWhile (fun c => c != ' '),
    (((s.data.dropWhile (fun c => c != ' ')).drop 1).takeWhile
      (fun c => c == 'Z' || c == 'M')))

/-- Balanced parentheses: as many `(` as `)`, and no prefix with more `)` than `(`. -/
def Balanced (cs : List Char) : Prop :=
  cs.count '(' = cs.count ')' ∧ ∀ k, (cs.take k).count ')' ≤ (cs.take k).count '('

/-- A text without any parenthesis. -/
def NoParen (cs : List Char) : Prop := ∀ c ∈ cs, c ≠ '(' ∧ c ≠ ')'

/-- Modelled from the spec: the `ends` invariant of the data model, for a buffer of
`len` slots and tuples of `stride` slots: strictly increasing offsets after 0,
each a multiple of the stride, the last one equal to the length of the buffer. -/
def endsInvariant (stride : Int) (len : Nat) (ends : List Int) : Prop :=
  (0 :: ends).Pairwise (· < ·) ∧ (∀ e ∈ ends, stride ∣ e) ∧ ends.getLast? = some (len : Int)

/-- Modelled from the spec: the `endss` invariant of the data model: every member has
a final end, and the end offsets of all members, taken together, satisfy the
`ends` invariant. -/
def endssInvariant (stride : Int) (len : Nat) (endss : List (List Int)) : Prop :=
  (∀ ends ∈ endss, ends ≠ []) ∧ endsInvariant stride len endss.flatten

mutual
/-- Modelled from the spec: the data-model invariants of a geometry of a supported
kind. A Point has a layout among XY, XYZ, XYM, XYZM, the stride of its layout and
a full buffer; a sequence has a flat length that is a multiple of the stride; a
sequence of sequences is empty or satisfies the `ends` invariant; a MultiPolygon
is empty or satisfies the `endss` invariant; a collection has such a layout, or
`NoLayout` and no member, and its members satisfy the invariants. -/
def WellFormed : T → Prop
  | .Point p => p.layout.supported = true ∧ p.stride = p.layout.Stride ∧
      p.flatCoords ≠ [] ∧ p.flatCoords.length % p.layout.Stride.toNat = 0
  | .LineString p => p.layout.supported = true ∧
      p.flatCoords.length % p.layout.Stride.toNat = 0
  | .LinearRing p => p.layout.supported = true ∧
      p.flatCoords.length % p.layout.Stride.toNat = 0
  | .MultiPoint p => p.layout.supported = true ∧
      p.flatCoords.length % p.layout.Stride.toNat = 0
  | .Polygon p => p.layout.supported = true ∧
      (p.flatCoords = [] ∨ endsInvariant p.layout.Stride p.flatCoords.length p.ends)
  | .MultiLineString p => p.layout.supported = true ∧
      (p.flatCoords = [] ∨ endsInvariant p.layout.Stride p.flatCoords.length p.ends)
  | .MultiPolygon p => p.layout.supported = true ∧
      (p.flatCoords = [] ∨ endssInvariant p.layout.Stride p.flatCoords.length p.endss)
  | .GeometryCollection l geoms _ =>
      (l.supported = true ∨ (l = .NoLayout ∧ geoms = [])) ∧ WellFormedAll geoms
  | .other _ _ => False
/-- Every listed geometry satisfies the data-model invariants. -/
def WellFormedAll : List T → Prop
  | [] => True
  | g :: rest => WellFormed g ∧ WellFormedAll rest
end

/-! ## Decoder of the specification -/

/-- Modelled from the spec: a token of the stream the decoder reads. The text is
split on whitespace and on the grammar punctuation `(`, `)`, `,`; the
punctuation characters are tokens of their own, every other maximal run of
characters is a word. -/
inductive Token
  | lparen
  | rparen
  | comma
  | word (w : List Char)
deriving DecidableEq, Repr

/-- Modelled from the spec: the error taxonomy of the decoder. `fuel` is not an
error of the decoder: it marks a run that used up the bound on nested calls. -/
inductive DecodeError
  | UnsupportedType (value : List Char)
  | UnsupportedLayout (value : List Char)
  | BraceMismatch
  | MalformedCoordinates
  | UnexpectedToken (t : Token)
  | fuel
deriving DecidableEq, Repr

/-- The type of `strconv.ParseFloat(s, 64)` as a function of `s`; `none` is its
error. -/
abbrev FloatReader := String → Option Float64

/-- Modelled from the spec: the characters the text is split on. -/
def isSep (c : Char) : Bool :=
  c == ' ' || c == '\t' || c == '\n' || c == '\r' || c == '(' || c == ')' || c == ','

/-- The token a separator character stands for: none for whitespace. -/
def punct (c : Char) : List Token :=
  if c == '(' then [.lparen] else if c == ')' then [.rparen]
  else if c == ',' then [.comma] else []

/-- The word read so far, as a token; nothing when no character was read. -/
def flushWord (acc : List Char) : List Token :=
  if acc.isEmpty then [] else [.word acc]

/-- Modelled from the spec: the token stream of the characters `cs`, `acc`
being the characters of the word read so far. -/
def tokenizeFrom : List Char → List Char → List Token
  | acc, [] => flushWord acc
  | acc, c :: cs =>
    if isSep c then flushWord acc ++ punct c ++ tokenizeFrom [] cs
    else tokenizeFrom (acc ++ [c]) cs

/-- Modelled from the spec: the token stream of a text. -/
def tokenize (s : String) : List Token := tokenizeFrom [] s.data

/-- Modelled from the spec: step 1 of the decoder, the kind a type keyword
names; `none` for an unrecognized keyword. -/
def keywordKind (w : List Char) : Option Kind :=
  if w = "POINT".data then some .Point
  else if w = "LINESTRING".data then some .LineString
  else if w = "POLYGON".data then some .Polygon
  else if w = "MULTIPOINT".data then some .MultiPoint
  else if w = "MULTILINESTRING".data then some .MultiLineString
  else if w = "MULTIPOLYGON".data then some .MultiPolygon
  else if w = "GEOMETRYCOLLECTION".data then some .GeometryCollection
  else none

/-- Modelled from the spec: step 2 of the decoder, the optional dimensionality
suffix. The word `Z`, `M` or `ZM` gives the layout and is consumed; `EMPTY` or
anything but a word leaves `XY`; any other word is an unknown suffix. -/
def parseDim : List Token → Except DecodeError (Layout × List Token)
  | .word w :: ts =>
    if w = "EMPTY".data then .ok (.XY, .word w :: ts)
    else if w = "Z".data then .ok (.XYZ, ts)
    else if w = "M".data then .ok (.XYM, ts)
    else if w = "ZM".data then .ok (.XYZM, ts)
    else .error (.UnsupportedLayout w)
  | ts => .ok (.XY, ts)

/-- Modelled from the spec: the numbers of one tuple, the maximal run of words,
each parsed as a floating-point value. -/
def parseTuple (parse : FloatReader) : List Token → Except DecodeError (List Float64 × List Token)
  | .word w :: ts =>
    match parse ⟨w⟩ with
    | none => .error .MalformedCoordinates
    | some x =>
      match parseTuple parse ts with
      | .ok (xs, r) => .ok (x :: xs, r)
      | .error e => .error e
  | ts => .ok ([], ts)

/-- Modelled from the spec: one tuple of the grammar, its count of numbers being
the stride of the layout. -/
def tupleItem (parse : FloatReader) (stride : Nat) (ts : List Token) :
    Except DecodeError (List Float64 × List Token) :=
  match parseTuple parse ts with
  | .error e => .error e
  | .ok (xs, r) => if xs.length = stride then .ok (xs, r) else .error .MalformedCoordinates

/-- Modelled from the spec: the items of a group after its opening parenthesis,
`item ("," item)* ")"`. The end of the input inside the group is a brace
mismatch; any other token in the place of `,` or `)` is unexpected. The first
argument bounds the number of items. -/
def parseList {α : Type} (item : List Token → Except DecodeError (α × List Token)) :
    Nat → List Token → Except DecodeError (List α × List Token)
  | 0, _ => .error .fuel
  | fuel + 1, ts =>
    match item ts with
    | .error e => .error e
    | .ok (a, .comma :: r) =>
      match parseList item fuel r with
      | .ok (as, r) => .ok (a :: as, r)
      | .error e => .error e
    | .ok (a, .rparen :: r) => .ok ([a], r)
    | .ok (_, []) => .error .BraceMismatch
    | .ok (_, t :: _) => .error (.UnexpectedToken t)

/-- Modelled from the spec: a parenthesized group of items. -/
def parseGroup {α : Type} (item : List Token → Except DecodeError (α × List Token))
    (fuel : Nat) : List Token → Except DecodeError (List α × List Token)
  | .lparen :: ts => parseList item fuel ts
  | [] => .error .BraceMismatch
  | t :: _ => .error (.UnexpectedToken t)

/-- Modelled from the spec: a depth-1 group, as the flat run of its tuples. -/
def ringItem (parse : FloatReader) (stride fuel : Nat) (ts : List Token) :
    Except DecodeError (List Float64 × List Token) :=
  match parseGroup (tupleItem parse stride) fuel ts with
  | .error e => .error e
  | .ok (tuples, r) => .ok (tuples.flatten, r)

/-- Modelled from the spec: the `ends` array of runs of the given lengths, the
first of which starts at `start`: every boundary is the offset reached. -/
def endsFrom : Int → List Nat → List Int
  | _, [] => []
  | start, n :: ns => (start + n) :: endsFrom (start + n) ns

/-- Modelled from the spec: the `endss` array of members whose runs have the
given lengths, the first member starting at `start`. -/
def endssFrom : Int → List (List Nat) → List (List Int)
  | _, [] => []
  | start, ns :: rest => endsFrom start ns :: endssFrom (start + ns.sum) rest

/-- Modelled from the spec: the geometry construction API for a flat geometry of
layout `l` (SRID 0, the stride of the layout). -/
def newFlat (l : Layout) (flatCoords : List Float64) : geom0 :=
  { layout := l, stride := l.Stride, flatCoords := flatCoords, srid := 0 }

/-- Modelled from the spec: the empty geometry of a kind and layout. An empty
Point is `NewPointEmpty`; the other kinds have no coordinates and no ends. -/
def emptyGeom (k : Kind) (l : Layout) : Except DecodeError T :=
  match k with
  | .Point => .ok (.Point (NewPointEmpty l))
  | .LineString => .ok (.LineString (newFlat l []))
  | .Polygon => .ok (.Polygon { newFlat l [] with ends := [] })
  | .MultiPoint => .ok (.MultiPoint (newFlat l []))
  | .MultiLineString => .ok (.MultiLineString { newFlat l [] with ends := [] })
  | .MultiPolygon => .ok (.MultiPolygon { newFlat l [] with endss := [] })
  | .GeometryCollection => .ok (.GeometryCollection l [] 0)
  | .other => .error (.UnsupportedType [])

/-- Modelled from the spec: step 3 of the decoder for the kinds with a
coordinate body, after the opening parenthesis: one tuple for a Point, a depth-1
group for LineString and MultiPoint, depth 2 for Polygon and MultiLineString,
depth 3 for MultiPolygon. The boundaries of the groups become `ends` and
`endss`. -/
def parseBody (parse : FloatReader) (fuel : Nat) (k : Kind) (l : Layout) (ts : List Token) :
    Except DecodeError (T × List Token) :=
  let stride := l.Stride.toNat
  match k with
  | .Point =>
    match tupleItem parse stride ts with
    | .error e => .error e
    | .ok (xs, .rparen :: r) => .ok (.Point (NewPointFlat l xs), r)
    | .ok (_, []) => .error .BraceMismatch
    | .ok (_, t :: _) => .error (.UnexpectedToken t)
  | .LineString =>
    match parseList (tupleItem parse stride) fuel ts with
    | .error e => .error e
    | .ok (tuples, r) => .ok (.LineString (newFlat l tuples.flatten), r)
  | .MultiPoint =>
    match parseList (tupleItem parse stride) fuel ts with
    | .error e => .error e
    | .ok (tuples, r) => .ok (.MultiPoint (newFlat l tuples.flatten), r)
  | .Polygon =>
    match parseList (ringItem parse stride fuel) fuel ts with
    | .error e => .error e
    | .ok (rings, r) =>
      .ok (.Polygon { newFlat l rings.flatten with
        ends := endsFrom 0 (rings.map List.length) }, r)
  | .MultiLineString =>
    match parseList (ringItem parse stride fuel) fuel ts with
    | .error e => .error e
    | .ok (rings, r) =>
      .ok (.MultiLineString { newFlat l rings.flatten with
        ends := endsFrom 0 (rings.map List.length) }, r)
  | .MultiPolygon =>
    match parseList (parseGroup (ringItem parse stride fuel) fuel) fuel ts with
    | .error e => .error e
    | .ok (polys, r) =>
      .ok (.MultiPolygon { newFlat l polys.flatten.flatten with
        endss := endssFrom 0 (polys.map (fun rings => rings.map List.length)) }, r)
  | _ => .error (.UnsupportedType [])

/-- Modelled from the spec: the recursive-descent decoder of one geometry, from
its keyword on; it returns the geometry and the tokens left. The members of a
GeometryCollection are decoded by the decoder itself (step 5). The first
argument bounds the depth of the calls. -/
def parseGeom (parse : FloatReader) : Nat → List Token → Except DecodeError (T × List Token)
  | 0, _ => .error .fuel
  | _ + 1, [] => .error .BraceMismatch
  | fuel + 1, .word kw :: ts =>
    match keywordKind kw with
    | none => .error (.UnsupportedType kw)
    | some k =>
      match parseDim ts with
      | .error e => .error e
      | .ok (l, .word w :: r) =>
        if w = "EMPTY".data then
          match emptyGeom k l with
          | .ok g => .ok (g, r)
          | .error e => .error e
        else .error (.UnexpectedToken (.word w))
      | .ok (l, .lparen :: r) =>
        match k with
        | .GeometryCollection =>
          match parseList (parseGeom parse fuel) fuel r with
          | .error e => .error e
          | .ok (geoms, r) => .ok (.GeometryCollection l geoms 0, r)
        | k => parseBody parse fuel k l r
      | .ok (_, []) => .error .BraceMismatch
      | .ok (_, t :: _) => .error (.UnexpectedToken t)
  | _ + 1, t :: _ => .error (.UnexpectedToken t)

/-- Modelled from the spec: `decode(text) -> geometry | error`. The whole token
stream is one geometry: a closing parenthesis left over is a brace mismatch, any
other token left over is unexpected. Every call of the decoder consumes a token,
so the number of tokens bounds the depth of the calls. -/
def decode (parse : FloatReader) (wkt : String) : Except DecodeError T :=
  let ts := tokenize wkt
  match parseGeom parse (ts.length + 1) ts with
  | .error e => .error e
  | .ok (g, []) => .ok g
  | .ok (_, .rparen :: _) => .error .BraceMismatch
  | .ok (_, t :: _) => .error (.UnexpectedToken t)

/-- Unmarshal translates a WKT to the corresponding geometry. -/
def Unmarshal (parse : FloatReader) (wkt : String) : Except DecodeError T :=
  decode parse wkt

/-! ## Vocabulary of the round trip -/

mutual
/-- The coordinate values the encoder prints for a geometry: all of them, but
none for an empty Point. -/
def printedCoords : T → List Float64
  | .Point g => if Point.Empty g = some true then [] else g.flatCoords
  | .LineString g => g.flatCoords
  | .LinearRing g => g.flatCoords
  | .Polygon g => g.flatCoords
  | .MultiPoint g => g.flatCoords
  | .MultiLineString g => g.flatCoords
  | .MultiPolygon g => g.flatCoords
  | .GeometryCollection _ geoms _ => printedCoordsAll geoms
  | .other _ _ => []
/-- The coordinate values the encoder prints for a list of geometries. -/
def printedCoordsAll : List T → List Float64
  | [] => []
  | g :: rest => printedCoords g ++ printedCoordsAll rest
end

/-- The value `x` is printed exactly at full precision: its text is a token (not
empty, free of whitespace, parentheses and commas) that the number reader maps
back to `x`. -/
def ExactToken (parse : FloatReader) (fmt : Formatter) (x : Float64) : Prop :=
  (fmt x (-1)).data ≠ [] ∧ (∀ c ∈ (fmt x (-1)).data, isSep c = false) ∧
    parse (fmt x (-1)) = some x

mutual
/-- A geometry whose text tells all of it: a Point holds the values of one tuple
and, when it is empty, the sentinel of `NewPointEmpty` in every slot; a geometry
without coordinates has no ends; a collection has a layout among XY, XYZ, XYM,
XYZM, and its members are of this sort. -/
def NonDegenerate : T → Prop
  | .Point p => (p.flatCoords.length : Int) = p.layout.Stride ∧
      (Point.Empty p = some true → ∀ x ∈ p.flatCoords, x = emptyPointFloat64)
  | .Polygon p => p.flatCoords = [] → p.ends = []
  | .MultiLineString p => p.flatCoords = [] → p.ends = []
  | .MultiPolygon p => p.flatCoords = [] → p.endss = []
  | .GeometryCollection l geoms _ => l.supported = true ∧ NonDegenerateAll geoms
  | _ => True
/-- Every listed geometry is non-degenerate. -/
def NonDegenerateAll : List T → Prop
  | [] => True
  | g :: rest => NonDegenerate g ∧ NonDegenerateAll rest
end

mutual
/-- The geometry `d` has the kind, the layout, the flat coordinates and the
ends/endss of `g`, a LinearRing `g` being matched by a LineString; for a
collection, the same layout and members that match one by one. -/
def SameShape : T → T → Prop
  | .Point a, d => ∃ b, d = .Point b ∧ b.layout = a.layout ∧ b.flatCoords = a.flatCoords
  | .LineString a, d =>
      ∃ b, d = .LineString b ∧ b.layout = a.layout ∧ b.flatCoords = a.flatCoords
  | .LinearRing a, d =>
      ∃ b, d = .LineString b ∧ b.layout = a.layout ∧ b.flatCoords = a.flatCoords
  | .MultiPoint a, d =>
      ∃ b, d = .MultiPoint b ∧ b.layout = a.layout ∧ b.flatCoords = a.flatCoords
  | .Polygon a, d => ∃ b, d = .Polygon b ∧ b.layout = a.layout ∧
      b.flatCoords = a.flatCoords ∧ b.ends = a.ends
  | .MultiLineString a, d => ∃ b, d = .MultiLineString b ∧ b.layout = a.layout ∧
      b.flatCoords = a.flatCoords ∧ b.ends = a.ends
  | .MultiPolygon a, d => ∃ b, d = .MultiPolygon b ∧ b.layout = a.layout ∧
      b.flatCoords = a.flatCoords ∧ b.endss = a.endss
  | .GeometryCollection l geoms _, d =>
      ∃ ds srid, d = .GeometryCollection l ds srid ∧ SameShapes geoms ds
  | .other _ _, _ => False
/-- The listed geometries match one by one. -/
def SameShapes : List T → List T → Prop
  | [], ds => ds = []
  | g :: rest, ds => ∃ d ds', ds = d :: ds' ∧ SameShape g d ∧ SameShapes rest ds'
end

/-- What is left of a text starts with a separator, or nothing is left. -/
def startsSep : List Char → Bool
  | [] => true
  | c :: _ => isSep c

/-- The text `s` reads as the tokens `ts` when a separator or the end of the
text follows it. -/
def TokAs (s : List Char) (ts : List Token) : Prop :=
  ∀ rest, startsSep rest = true → tokenizeFrom [] (s ++ rest) = ts ++ tokenizeFrom [] rest

/-- The text `s` reads as the tokens `ts` whatever follows it. -/
def TokCl (s : List Char) (ts : List Token) : Prop :=
  ∀ rest, tokenizeFrom [] (s ++ rest) = ts ++ tokenizeFrom [] rest

/-- Tokens that follow the first item of a group: every item preceded by a
comma. -/
def sepToks : List (List Token) → List Token
  | [] => []
  | t :: rest => .comma :: t ++ sepToks rest

/-- Tokens of a group: the tokens of its items, separated by commas, in
parentheses. -/
def groupToks : List (List Token) → List Token
  | [] => [.lparen, .rparen]
  | t :: rest => .lparen :: t ++ sepToks rest ++ [.rparen]

/-- The tokens left start with a comma or a closing parenthesis. -/
def follows : List Token → Bool
  | .comma :: _ => true
  | .rparen :: _ => true
  | _ => false

/-- The tokens of one coordinate tuple: one word per value. -/
def tupleToks (fmt : Formatter) (coord : List Float64) : List Token :=
  coord.map (fun x => Token.word (fmt x (-1)).data)

/-- The tokens of a depth-1 group. -/
def ringToks (fmt : Formatter) (k : Nat) (xs : List Float64) : List Token :=
  groupToks ((tuples k xs).map (tupleToks fmt))

/-- The runs of the members of a depth-3 geometry, the first member starting at
`start` and every other one at the final end of the member before it. -/
def runss (flat : List Float64) : Int → List (List Int) → List (List (List Float64))
  | _, [] => []
  | start, ends :: rest => runs flat start ends :: runss flat (ends.getLast?.getD start) rest

/-- The tokens of the dimensionality suffix of a layout. -/
def dimToks : Layout → List Token
  | .XYZ => [.word "Z".data]
  | .XYM => [.word "M".data]
  | .XYZM => [.word "ZM".data]
  | _ => []

/-- The tokens of the head of an encoding: the keyword, then the suffix. -/
def headerToks (g : T) : List Token := .word (specKeyword g).data :: dimToks g.Layout

/-- The round trip of `g`, step by step: the encoder writes the text `s` at full
precision, `s` reads as the tokens `ts`, and from these tokens, whatever tokens
follow them, the decoder returns `d` and the tokens that follow, `d` having the
shape of `g`. -/
def Decodes (parse : FloatReader) (fmt : Formatter) (g : T) (s : String) (ts : List Token)
    (d : T) : Prop :=
  write fmt "" g (-1) = (s, .nil) ∧ TokAs s.data ts ∧ SameShape g d ∧
    ∀ (fuel : Nat) (R : List Token), (ts ++ R).length ≤ fuel →
      parseGeom parse fuel (ts ++ R) = .ok (d, R)

/-! ## Tokens of an encoding -/

/-- The words of the fixed pieces of text the writers emit: the keywords, the
dimensionality suffixes and `EMPTY`. -/
def fixedWords : List (List Char) :=
  ["POINT".data, "MULTIPOINT".data, "LINESTRING".data, "MULTILINESTRING".data,
    "POLYGON".data, "MULTIPOLYGON".data, "GEOMETRYCOLLECTION".data, "Z".data, "M".data,
    "ZM".data, "EMPTY".data]

/-- Every word among the tokens satisfies `ok`. -/
def WordsOK (ok : List Char → Prop) (ts : List Token) : Prop :=
  ∀ w, Token.word w ∈ ts → ok w

/-- A text at a token boundary: it reads as tokens whose words satisfy `ok`,
whatever follows it. -/
def OpenText (ok : List Char → Prop) (s : String) : Prop :=
  ∃ ts, TokCl s.data ts ∧ WordsOK ok ts

/-- A text that may end inside a word: it reads as tokens whose words satisfy
`ok` when a separator or the end of the text follows it. -/
def PendingText (ok : List Char → Prop) (s : String) : Prop :=
  ∃ ts, TokAs s.data ts ∧ WordsOK ok ts

/-- What the token reading asks of the text written for one coordinate: it is
free of whitespace, parentheses and commas, and it is empty or satisfies `ok`. -/
def CoordText (ok : List Char → Prop) (t : String) : Prop :=
  (∀ c ∈ t.data, isSep c = false) ∧ (t.data = [] ∨ ok t.data)

/-! ## Sample values -/

/-- The `float64` 0. -/
def f0 : Float64 := ⟨0⟩

/-- The `float64` 1. -/
def f1 : Float64 := ⟨0x3FF0000000000000⟩

/-- The `float64` 2. -/
def f2 : Float64 := ⟨0x4000000000000000⟩

/-- The `float64` 100. -/
def f100 : Float64 := ⟨0x4059000000000000⟩

/-- A 3D point with coordinates 1, 2 and 100. -/
def pointZ : Point :=
  { layout := .XYZ, stride := 3, flatCoords := [f1, f2, f100], srid := 0 }

/-- An empty 3D polygon: no coordinates and no rings. -/
def emptyPolygonZ : geom2 :=
  { layout := .XYZ, stride := 3, flatCoords := [], srid := 0, ends := [] }

/-- A 2D polygon of two rings of four tuples each: `ends = [8, 16]`. -/
def polygon44 : geom2 :=
  { layout := .XY, stride := 2,
    flatCoords := [f0, f0, f100, f0, f100, f100, f0, f0, f1, f1, f2, f1, f2, f2, f1, f1],
    srid := 0, ends := [8, 16] }

/-- A 2D MultiPolygon of two members: rings of two tuples ending at 4 and 8, then
one ring ending at 12. -/
def multiPolygon3 : geom3 :=
  { layout := .XY, stride := 2,
    flatCoords := [f0, f0, f1, f1, f2, f2, f0, f0, f100, f100, f1, f1],
    srid := 0, endss := [[4, 8], [12]] }

/-- The `float64` 1.2 (the double nearest to it). -/
def f1_2 : Float64 := ⟨0x3FF3333333333333⟩

/-- The 2D point (100, 0). -/
def point100 : Point :=
  { layout := .XY, stride := 2, flatCoords := [f100, f0], srid := 0 }

/-- The 2D point (1.2, 100). -/
def point1_2 : Point :=
  { layout := .XY, stride := 2, flatCoords := [f1_2, f100], srid := 0 }

/-- The 2D line of the literal example: flat coordinates `[0,0,1,1,2,2]`. -/
def line012 : geom0 :=
  { layout := .XY, stride := 2, flatCoords := [f0, f0, f1, f1, f2, f2], srid := 0 }

/-- A collection whose second member is of an unsupported kind. -/
def collectionBad : T :=
  .GeometryCollection .XY [.Point pointZ, .other .XY false] 0

/-- A 2D MultiPolygon whose first member has an empty `ends` array; the second
member is one ring of four tuples. -/
def multiPolygonGap : geom3 :=
  { layout := .XY, stride := 2,
    flatCoords := [f0, f0, f1, f0, f1, f1, f0, f0],
    srid := 0, endss := [[], [8]] }

/-- A 2D point built by `NewPointFlat` on a buffer of two tuples. -/
def pointLong : Point := NewPointFlat .XY [f1, f2, f100, f0]

/-- The 2D point (1, 2). -/
def point12 : Point := NewPointFlat .XY [f1, f2]

/-- A 3D collection of a Point, a LineString, a Polygon, a MultiPolygon, an
empty Point and an empty collection. -/
def collectionAll : T :=
  .GeometryCollection .XYZ
    [.Point pointZ, .LineString line012, .Polygon polygon44, .MultiPolygon multiPolygon3,
      .Point (NewPointEmpty .XYM), .GeometryCollection .XY [] 0] 4326

end wkt

/-! # Theorems -/

namespace wkt

open geom strconv

theorem intercalate_go_eq (sep : String) (l : List String) (acc : String) :
    String.intercalate.go acc sep l = acc ++ sepTail sep l := by
  induction l generalizing acc with
  | nil => simp [String.intercalate.go, sepTail]
  | cons a l ih => simp [String.intercalate.go, sepTail, ih, String.append_assoc]

theorem intercalate_cons (sep a : String) (l : List String) :
    String.intercalate sep (a :: l) = a ++ sepTail sep l := by
  simp [String.intercalate, intercalate_go_eq]

theorem joined_nil (i : Nat) (sep : String) : joined i sep [] = "" := by
  unfold joined; split <;> rfl

theorem joined_cons (i : Nat) (sep a : String) (l : List String) :
    joined i sep (a :: l) = (if i ≠ 0 then sep else "") ++ (a ++ joined (i + 1) sep l) := by
  unfold joined
  by_cases h : i = 0
  · simp [h, intercalate_cons]
  · simp [h, sepTail, String.append_assoc]

theorem joined_zero (sep : String) (l : List String) :
    joined 0 sep l = String.intercalate sep l := by simp [joined]

theorem writeCoordLoop_eq (fmt : Formatter) (n : Int) (xs : List Float64) (sb : Builder) (i : Nat) :
    writeCoordLoop fmt n sb i xs = sb ++ joined i " " (xs.map (fun x => coordStr fmt x n)) := by
  induction xs generalizing sb i with
  | nil => simp [writeCoordLoop, joined_nil]
  | cons x rest ih =>
    simp only [writeCoordLoop, List.map_cons, joined_cons, ih]
    by_cases h : i = 0 <;> simp [h, String.append_assoc]

theorem writeCoord_eq (fmt : Formatter) (sb : Builder) (coord : Slice) (n : Int) :
    writeCoord fmt sb coord n = (sb ++ tupleText fmt n coord.elems, .nil) := by
  simp [writeCoord, writeCoordLoop_eq, joined_zero, tupleText]

theorem writeFlatCoords0_eq (fmt : Formatter) (sb : Builder) (s : Slice) (k n : Int) :
    writeFlatCoords0 fmt sb s k n =
      match s.reslice 0 k with
      | none => (sb ++ "(", .panic)
      | some c => (sb ++ ("(" ++ tupleText fmt n c.elems ++ ")"), .nil) := by
  unfold writeFlatCoords0
  cases s.reslice 0 k <;> simp [writeCoord_eq, String.append_assoc]

theorem writeFlatCoords0_frame (fmt : Formatter) (sb : Builder) (s : Slice) (k n : Int) :
    writeFlatCoords0 fmt sb s k n =
      (sb ++ (writeFlatCoords0 fmt "" s k n).1, (writeFlatCoords0 fmt "" s k n).2) := by
  rw [writeFlatCoords0_eq, writeFlatCoords0_eq]
  cases s.reslice 0 k <;> simp

theorem writeFlatCoords1Loop_frame (fmt : Formatter) (s : Slice) (k n : Int) (fuel : Nat)
    (sb : Builder) (i : Int) :
    writeFlatCoords1Loop fmt s k n fuel sb i =
      (sb ++ (writeFlatCoords1Loop fmt s k n fuel "" i).1,
        (writeFlatCoords1Loop fmt s k n fuel "" i).2) := by
  induction fuel generalizing sb i with
  | zero =>
    simp only [writeFlatCoords1Loop]
    split <;> simp
  | succ fuel ih =>
    simp only [writeFlatCoords1Loop]
    split
    · cases s.reslice i (i + k) with
      | none => by_cases h : i = 0 <;> simp [h]
      | some c =>
        simp only [writeCoord_eq]
        rw [ih, ih ((if i ≠ 0 then "" ++ ", " else "") ++ _)]
        by_cases h : i = 0 <;> simp [h, String.append_assoc]
    · simp

theorem writeFlatCoords1_frame (fmt : Formatter) (sb : Builder) (s : Slice) (k n : Int) :
    writeFlatCoords1 fmt sb s k n =
      (sb ++ (writeFlatCoords1 fmt "" s k n).1, (writeFlatCoords1 fmt "" s k n).2) := by
  unfold writeFlatCoords1
  simp only []
  rw [writeFlatCoords1Loop_frame, writeFlatCoords1Loop_frame _ _ _ _ _ ("" ++ "(")]
  rcases writeFlatCoords1Loop fmt s k n s.len "" 0 with ⟨t, o⟩
  cases o <;> simp [String.append_assoc]

theorem writeFlatCoords2Loop_frame (fmt : Formatter) (s : Slice) (k n : Int) (ends : List Int)
    (sb : Builder) (i : Nat) (start : Int) :
    writeFlatCoords2Loop fmt s k n sb i start ends =
      (sb ++ (writeFlatCoords2Loop fmt s k n "" i start ends).1,
        (writeFlatCoords2Loop fmt s k n "" i start ends).2) := by
  induction ends generalizing sb i start with
  | nil => simp [writeFlatCoords2Loop]
  | cons e rest ih =>
    simp only [writeFlatCoords2Loop]
    cases s.reslice start e with
    | none => by_cases h : i = 0 <;> simp [h]
    | some ring =>
      simp only []
      rw [writeFlatCoords1_frame, writeFlatCoords1_frame _ (if i ≠ 0 then "" ++ ", " else "")]
      rcases writeFlatCoords1 fmt "" ring k n with ⟨t, o⟩
      cases o
      · simp only []
        rw [ih, ih ((if i ≠ 0 then "" ++ ", " else "") ++ _)]
        by_cases h : i = 0 <;> simp [h, String.append_assoc]
      all_goals by_cases h : i = 0 <;> simp [h, String.append_assoc]

theorem writeFlatCoords2_frame (fmt : Formatter) (sb : Builder) (s : Slice) (start : Int)
    (ends : List Int) (k n : Int) :
    writeFlatCoords2 fmt sb s start ends k n =
      (sb ++ (writeFlatCoords2 fmt "" s start ends k n).1,
        (writeFlatCoords2 fmt "" s start ends k n).2) := by
  unfold writeFlatCoords2
  simp only []
  rw [writeFlatCoords2Loop_frame, writeFlatCoords2Loop_frame _ _ _ _ _ ("" ++ "(")]
  rcases writeFlatCoords2Loop fmt s k n "" 0 start ends with ⟨t, o⟩
  cases o <;> simp [String.append_assoc]

theorem writeFlatCoords3Loop_frame (fmt : Formatter) (s : Slice) (k n : Int)
    (endss : List (List Int)) (sb : Builder) (i : Nat) (start : Int) :
    writeFlatCoords3Loop fmt s k n sb i start endss =
      (sb ++ (writeFlatCoords3Loop fmt s k n "" i start endss).1,
        (writeFlatCoords3Loop fmt s k n "" i start endss).2) := by
  induction endss generalizing sb i start with
  | nil => simp [writeFlatCoords3Loop]
  | cons ends rest ih =>
    simp only [writeFlatCoords3Loop]
    rw [writeFlatCoords2_frame, writeFlatCoords2_frame _ (if i ≠ 0 then "" ++ ", " else "")]
    rcases writeFlatCoords2 fmt "" s start ends k n with ⟨t, o⟩
    cases o
    · simp only []
      cases ends.getLast? with
      | none => by_cases h : i = 0 <;> simp [h, String.append_assoc]
      | some last =>
        simp only []
        rw [ih, ih ((if i ≠ 0 then "" ++ ", " else "") ++ _)]
        by_cases h : i = 0 <;> simp [h, String.append_assoc]
    all_goals by_cases h : i = 0 <;> simp [h, String.append_assoc]

theorem writeFlatCoords3_frame (fmt : Formatter) (sb : Builder) (s : Slice)
    (endss : List (List Int)) (k n : Int) :
    writeFlatCoords3 fmt sb s endss k n =
      (sb ++ (writeFlatCoords3 fmt "" s endss k n).1,
        (writeFlatCoords3 fmt "" s endss k n).2) := by
  unfold writeFlatCoords3
  simp only []
  rw [writeFlatCoords3Loop_frame, writeFlatCoords3Loop_frame _ _ _ _ _ ("" ++ "(")]
  rcases writeFlatCoords3Loop fmt s k n "" 0 0 endss with ⟨t, o⟩
  cases o <;> simp [String.append_assoc]

mutual
theorem write_frame (fmt : Formatter) (g : T) (sb : Builder) (n : Int) :
    write fmt sb g n = (sb ++ (write fmt "" g n).1, (write fmt "" g n).2) := by
  cases g with
  | GeometryCollection l geoms srid =>
    rw [write, write]
    simp only [typeKeyword]
    cases layoutSwitch (T.GeometryCollection l geoms srid) tGeometryCollection with
    | error e => simp
    | ok h =>
      simp only []
      by_cases he : GeometryCollection.Empty geoms = true
      · simp [he, writeEMPTY, String.append_assoc]
      · simp only [he]
        rw [writeGeoms_frame fmt geoms, writeGeoms_frame fmt geoms ("" ++ h ++ "(")]
        rcases writeGeoms fmt "" 0 geoms n with ⟨t, o⟩
        cases o <;> simp [String.append_assoc]
  | Point p =>
    rw [write, write]
    simp only [typeKeyword]
    cases layoutSwitch (T.Point p) tPoint with
    | error e => simp
    | ok h =>
      simp only []
      rcases Point.Empty p with _ | _ | _
      · simp
      · simp only []
        rw [writeFlatCoords0_frame, writeFlatCoords0_frame _ ("" ++ h)]
        simp [String.append_assoc]
      · simp [writeEMPTY, String.append_assoc]
  | LineString p =>
    rw [write, write]
    simp only [typeKeyword]
    cases layoutSwitch (T.LineString p) tLineString with
    | error e => simp
    | ok h =>
      simp only []
      by_cases he : p.Empty = true
      · simp [he, writeEMPTY, String.append_assoc]
      · simp only [he]
        rw [writeFlatCoords1_frame, writeFlatCoords1_frame _ ("" ++ h)]
        simp [String.append_assoc]
  | LinearRing p =>
    rw [write, write]
    simp only [typeKeyword]
    cases layoutSwitch (T.LinearRing p) tLineString with
    | error e => simp
    | ok h =>
      simp only []
      by_cases he : p.Empty = true
      · simp [he, writeEMPTY, String.append_assoc]
      · simp only [he]
        rw [writeFlatCoords1_frame, writeFlatCoords1_frame _ ("" ++ h)]
        simp [String.append_assoc]
  | Polygon p =>
    rw [write, write]
    simp only [typeKeyword]
    cases layoutSwitch (T.Polygon p) tPolygon with
    | error e => simp
    | ok h =>
      simp only []
      by_cases he : p.togeom0.Empty = true
      · simp [he, writeEMPTY, String.append_assoc]
      · simp only [he]
        rw [writeFlatCoords2_frame, writeFlatCoords2_frame _ ("" ++ h)]
        simp [String.append_assoc]
  | MultiPoint p =>
    rw [write, write]
    simp only [typeKeyword]
    cases layoutSwitch (T.MultiPoint p) tMultiPoint with
    | error e => simp
    | ok h =>
      simp only []
      by_cases he : p.Empty = true
      · simp [he, writeEMPTY, String.append_assoc]
      · simp only [he]
        rw [writeFlatCoords1_frame, writeFlatCoords1_frame _ ("" ++ h)]
        simp [String.append_assoc]
  | MultiLineString p =>
    rw [write, write]
    simp only [typeKeyword]
    cases layoutSwitch (T.MultiLineString p) tMultiLineString with
    | error e => simp
    | ok h =>
      simp only []
      by_cases he : p.togeom0.Empty = true
      · simp [he, writeEMPTY, String.append_assoc]
      · simp only [he]
        rw [writeFlatCoords2_frame, writeFlatCoords2_frame _ ("" ++ h)]
        simp [String.append_assoc]
  | MultiPolygon p =>
    rw [write, write]
    simp only [typeKeyword]
    cases layoutSwitch (T.MultiPolygon p) tMultiPolygon with
    | error e => simp
    | ok h =>
      simp only []
      by_cases he : p.togeom0.Empty = true
      · simp [he, writeEMPTY, String.append_assoc]
      · simp only [he]
        rw [writeFlatCoords3_frame, writeFlatCoords3_frame _ ("" ++ h)]
        simp [String.append_assoc]
  | other l e => simp [write, typeKeyword]
theorem writeGeoms_frame (fmt : Formatter) (geoms : List T) (sb : Builder) (i : Nat) (n : Int) :
    writeGeoms fmt sb i geoms n =
      (sb ++ (writeGeoms fmt "" i geoms n).1, (writeGeoms fmt "" i geoms n).2) := by
  cases geoms with
  | nil => simp [writeGeoms]
  | cons g rest =>
    rw [writeGeoms, writeGeoms]
    rw [write_frame fmt g, write_frame fmt g (if i ≠ 0 then "" ++ ", " else "")]
    rcases write fmt "" g n with ⟨t, o⟩
    cases o
    · simp only []
      rw [writeGeoms_frame fmt rest, writeGeoms_frame fmt rest ((if i ≠ 0 then "" ++ ", " else "") ++ _)]
      by_cases h : i = 0 <;> simp [h, String.append_assoc]
    all_goals by_cases h : i = 0 <;> simp [h, String.append_assoc]
end

theorem take_drop_take (l : List Float64) (n a b : Nat) (h : a + b ≤ n) :
    ((l.take n).drop a).take b = (l.drop a).take b := by
  rw [List.drop_take, List.take_take]
  congr 1
  omega

theorem reslice_ok (s : Slice) (a b : Nat) (lo hi : Int) (hlo : lo = (a : Int))
    (hhi : hi = ((a + b : Nat) : Int)) (hcap : a + b ≤ s.arr.length) :
    s.reslice lo hi = some ⟨s.arr.drop a, b⟩ := by
  subst hlo hhi
  unfold Slice.reslice
  have h1 : (0 : Int) ≤ (a : Int) := Int.ofNat_nonneg _
  have h2 : ((a + b : Nat) : Int) ≤ (s.arr.length : Int) := by exact_mod_cast hcap
  have h3 : (a : Int) ≤ ((a + b : Nat) : Int) := by push_cast; omega
  rw [if_pos ⟨h1, h3, h2⟩]
  have h4 : (((a + b : Nat) : Int) - (a : Int)).toNat = b := by push_cast; omega
  rw [h4, Int.toNat_ofNat]

theorem writeFlatCoords1Loop_wf (fmt : Formatter) (s : Slice) (n : Int) (k m : Nat)
    (hk : 0 < k) (hlen : s.len = m * k) (hcap : s.len ≤ s.arr.length) (r : Nat) :
    ∀ (j fuel : Nat) (sb : Builder) (i : Int), i = ((j * k : Nat) : Int) → j + r = m → r ≤ fuel →
      writeFlatCoords1Loop fmt s k n fuel sb i =
        (sb ++ joined j ", " ((List.range' j r).map
          (fun j => tupleText fmt n ((s.arr.drop (j * k)).take k))), .nil) := by
  induction r with
  | zero =>
    intro j fuel sb i hi hj _
    have hnot : ¬ (i < (s.len : Int)) := by
      have : s.len = j * k := by rw [hlen]; congr 1; omega
      rw [hi, this]; omega
    cases fuel <;> simp only [writeFlatCoords1Loop, if_neg hnot, joined_nil, List.range'_zero,
      List.map_nil, String.append_empty]
  | succ r ih =>
    intro j fuel sb i hi hj hfuel
    obtain ⟨fuel, rfl⟩ : ∃ f, fuel = f + 1 := ⟨fuel - 1, by omega⟩
    have hm : m * k = j * k + k + r * k := by
      have : m = j + 1 + r := by omega
      rw [this]; ring
    have hlt : i < (s.len : Int) := by
      have : j * k < s.len := by omega
      rw [hi]; exact_mod_cast this
    have hres : s.reslice i (i + (k : Int)) = some ⟨s.arr.drop (j * k), k⟩ :=
      reslice_ok s (j * k) k i (i + k) hi (by rw [hi]; push_cast; ring) (by omega)
    have hidx : i + (k : Int) = (((j + 1) * k : Nat) : Int) := by
      rw [hi]; push_cast; ring
    have hz : (i ≠ 0) ↔ j ≠ 0 := by
      rw [hi]
      constructor
      · intro h hj0; apply h; simp [hj0]
      · intro h hz
        have : j * k = 0 := by exact_mod_cast hz
        rcases Nat.mul_eq_zero.mp this with h0 | h0
        · exact h h0
        · omega
    simp only [writeFlatCoords1Loop, if_pos hlt, hres, writeCoord_eq]
    rw [ih (j + 1) fuel _ _ hidx (by omega) (by omega)]
    rw [List.range'_succ, List.map_cons, joined_cons]
    simp only [Slice.elems]
    by_cases h0 : j = 0
    · have : ¬ (i ≠ 0) := fun h => (hz.mp h) h0
      simp only [if_neg this, h0, String.append_assoc, ne_eq, not_true_eq_false, if_false,
        String.empty_append]
    · have : i ≠ 0 := hz.mpr h0
      simp only [if_pos this, if_pos h0, String.append_assoc, ne_eq, not_false_eq_true]

theorem tuples_elems (s : Slice) (k m : Nat) (hk : 0 < k) (hlen : s.len = m * k)
    (hcap : s.len ≤ s.arr.length) :
    tuples k s.elems = (List.range' 0 m).map (fun j => (s.arr.drop (j * k)).take k) := by
  have hl : s.elems.length = m * k := by
    simp only [Slice.elems, List.length_take]; omega
  unfold tuples
  rw [hl, Nat.mul_div_cancel _ hk, List.range_eq_range']
  apply List.map_congr_left
  intro j hj
  simp only [Slice.elems]
  apply take_drop_take
  have : j < m := by simpa using (List.mem_range'_1.mp hj).2
  rw [hlen]
  calc j * k + k = (j + 1) * k := by ring
    _ ≤ m * k := Nat.mul_le_mul_right k (by omega)

theorem writeFlatCoords1_wf (fmt : Formatter) (sb : Builder) (s : Slice) (stride n : Int)
    (k m : Nat) (hs : stride = (k : Int)) (hk : 0 < k) (hlen : s.len = m * k)
    (hcap : s.len ≤ s.arr.length) :
    writeFlatCoords1 fmt sb s stride n = (sb ++ ringText fmt n k s.elems, .nil) := by
  subst hs
  unfold writeFlatCoords1
  have h := writeFlatCoords1Loop_wf fmt s n k m hk hlen hcap m 0 s.len (sb ++ "(") 0
    (by simp) (by omega) (by rw [hlen]; exact Nat.le_mul_of_pos_right m hk)
  simp only [h, joined_zero, ringText, tuples_elems s k m hk hlen hcap, String.append_assoc,
    List.map_map]
  rfl

theorem stride_pos (l : Layout) (h : l.supported = true) :
    0 < l.Stride.toNat ∧ l.Stride = (l.Stride.toNat : Int) := by
  cases l <;> simp [Layout.supported] at h <;> simp [Layout.Stride]

theorem layoutSwitch_supported (g : T) (kw : String) (hk : typeKeyword g = some kw)
    (hl : g.Layout.supported = true) : layoutSwitch g kw = .ok (specHeader g) := by
  unfold layoutSwitch specHeader
  cases g <;> simp only [typeKeyword, Option.some.injEq, reduceCtorEq] at hk <;> subst hk <;>
    simp only [T.Layout] at hl ⊢ <;>
    (split <;> simp_all [Layout.supported, specDim, specKeyword, tPoint, tLineString, tPolygon,
      tMultiPoint, tMultiLineString, tMultiPolygon, tGeometryCollection, tZ, tM, tZm])

theorem write_Point (fmt : Formatter) (sb : Builder) (p : Point) (n : Int)
    (hl : p.layout.supported = true) :
    write fmt sb (.Point p) n =
      match Point.Empty p with
      | none => (sb ++ specHeader (.Point p), .panic)
      | some true => (sb ++ (specHeader (.Point p) ++ "EMPTY"), .nil)
      | some false => writeFlatCoords0 fmt (sb ++ specHeader (.Point p))
          (Slice.ofList p.flatCoords) p.layout.Stride n := by
  rw [write]
  simp only [typeKeyword, layoutSwitch_supported (.Point p) tPoint rfl hl, T.Layout]
  rcases Point.Empty p with _ | _ | _ <;> simp [writeEMPTY, tEmpty, String.append_assoc]

theorem write_LineString (fmt : Formatter) (sb : Builder) (p : geom0) (n : Int)
    (hl : p.layout.supported = true) :
    write fmt sb (.LineString p) n =
      if p.Empty then (sb ++ (specHeader (.LineString p) ++ "EMPTY"), .nil)
      else writeFlatCoords1 fmt (sb ++ specHeader (.LineString p))
          (Slice.ofList p.flatCoords) p.layout.Stride n := by
  rw [write]
  simp only [typeKeyword, layoutSwitch_supported (.LineString p) tLineString rfl hl, T.Layout]
  cases p.Empty <;> simp [writeEMPTY, tEmpty, String.append_assoc]

theorem write_LinearRing (fmt : Formatter) (sb : Builder) (p : geom0) (n : Int)
    (hl : p.layout.supported = true) :
    write fmt sb (.LinearRing p) n =
      if p.Empty then (sb ++ (specHeader (.LinearRing p) ++ "EMPTY"), .nil)
      else writeFlatCoords1 fmt (sb ++ specHeader (.LinearRing p))
          (Slice.ofList p.flatCoords) p.layout.Stride n := by
  rw [write]
  simp only [typeKeyword, layoutSwitch_supported (.LinearRing p) tLineString rfl hl, T.Layout]
  cases p.Empty <;> simp [writeEMPTY, tEmpty, String.append_assoc]

theorem write_MultiPoint (fmt : Formatter) (sb : Builder) (p : geom0) (n : Int)
    (hl : p.layout.supported = true) :
    write fmt sb (.MultiPoint p) n =
      if p.Empty then (sb ++ (specHeader (.MultiPoint p) ++ "EMPTY"), .nil)
      else writeFlatCoords1 fmt (sb ++ specHeader (.MultiPoint p))
          (Slice.ofList p.flatCoords) p.layout.Stride n := by
  rw [write]
  simp only [typeKeyword, layoutSwitch_supported (.MultiPoint p) tMultiPoint rfl hl, T.Layout]
  cases p.Empty <;> simp [writeEMPTY, tEmpty, String.append_assoc]

theorem write_Polygon (fmt : Formatter) (sb : Builder) (p : geom2) (n : Int)
    (hl : p.layout.supported = true) :
    write fmt sb (.Polygon p) n =
      if p.togeom0.Empty then (sb ++ (specHeader (.Polygon p) ++ "EMPTY"), .nil)
      else writeFlatCoords2 fmt (sb ++ specHeader (.Polygon p))
          (Slice.ofList p.flatCoords) 0 p.ends p.layout.Stride n := by
  rw [write]
  simp only [typeKeyword, layoutSwitch_supported (.Polygon p) tPolygon rfl hl, T.Layout]
  cases p.togeom0.Empty <;> simp [writeEMPTY, tEmpty, String.append_assoc]

theorem write_MultiLineString (fmt : Formatter) (sb : Builder) (p : geom2) (n : Int)
    (hl : p.layout.supported = true) :
    write fmt sb (.MultiLineString p) n =
      if p.togeom0.Empty then (sb ++ (specHeader (.MultiLineString p) ++ "EMPTY"), .nil)
      else writeFlatCoords2 fmt (sb ++ specHeader (.MultiLineString p))
          (Slice.ofList p.flatCoords) 0 p.ends p.layout.Stride n := by
  rw [write]
  simp only [typeKeyword, layoutSwitch_supported (.MultiLineString p) tMultiLineString rfl hl,
    T.Layout]
  cases p.togeom0.Empty <;> simp [writeEMPTY, tEmpty, String.append_assoc]

theorem write_MultiPolygon (fmt : Formatter) (sb : Builder) (p : geom3) (n : Int)
    (hl : p.layout.supported = true) :
    write fmt sb (.MultiPolygon p) n =
      if p.togeom0.Empty then (sb ++ (specHeader (.MultiPolygon p) ++ "EMPTY"), .nil)
      else writeFlatCoords3 fmt (sb ++ specHeader (.MultiPolygon p))
          (Slice.ofList p.flatCoords) p.endss p.layout.Stride n := by
  rw [write]
  simp only [typeKeyword, layoutSwitch_supported (.MultiPolygon p) tMultiPolygon rfl hl, T.Layout]
  cases p.togeom0.Empty <;> simp [writeEMPTY, tEmpty, String.append_assoc]

theorem write_GeometryCollection (fmt : Formatter) (sb : Builder) (l : Layout) (geoms : List T)
    (srid n : Int) (hl : l.supported = true) :
    write fmt sb (.GeometryCollection l geoms srid) n =
      if GeometryCollection.Empty geoms then
        (sb ++ (specHeader (.GeometryCollection l geoms srid) ++ "EMPTY"), .nil)
      else
        match writeGeoms fmt (sb ++ (specHeader (.GeometryCollection l geoms srid) ++ "(")) 0
          geoms n with
        | (sb, .nil) => (sb ++ ")", .nil)
        | r => r := by
  rw [write]
  simp only [typeKeyword,
    layoutSwitch_supported (.GeometryCollection l geoms srid) tGeometryCollection rfl hl]
  cases GeometryCollection.Empty geoms <;> simp [writeEMPTY, tEmpty, String.append_assoc]

theorem encode_of_write (fmt : Formatter) (g : T) (n : Int) (s : String)
    (h : write fmt "" g n = (s, .nil)) : encode fmt g n = .ret s none := by
  simp [encode, h]

theorem write_depth1_wf (fmt : Formatter) (sb : Builder) (p : geom0) (n : Int)
    (hl : p.layout.supported = true)
    (hlen : p.flatCoords.length % p.layout.Stride.toNat = 0) :
    writeFlatCoords1 fmt sb (Slice.ofList p.flatCoords) p.layout.Stride n =
      (sb ++ ringText fmt n p.layout.Stride.toNat p.flatCoords, .nil) := by
  obtain ⟨hk, hk2⟩ := stride_pos p.layout hl
  rw [writeFlatCoords1_wf fmt sb (Slice.ofList p.flatCoords) _ n _
    (p.flatCoords.length / p.layout.Stride.toNat) hk2 hk
    (by simp only [Slice.ofList]; exact (Nat.div_mul_cancel (Nat.dvd_of_mod_eq_zero hlen)).symm)
    (by simp [Slice.ofList])]
  simp [Slice.elems, Slice.ofList]

theorem coordStr_default (fmt : Formatter) (x : Float64) : coordStr fmt x (-1) = fmt x (-1) := by
  simp [coordStr]

/-- C1: for a non-empty LineString or MultiPoint with layout XY, XYZ, XYM or XYZM
whose flat length is a multiple of the stride, `Marshal` returns the header
(keyword and dimensionality suffix), then `(`, the coordinate tuples joined by
`", "` (each tuple its formatted values joined by one space) and `)`; and
`Marshal` of the 2D LineString with flat coordinates `[0,0,1,1,2,2]` returns
exactly `"LINESTRING (0 0, 1 1, 2 2)"`. -/
theorem C1_marshal_depth1 :
    (∀ (fmt : Formatter) (p : geom0), p.layout.supported = true → p.flatCoords ≠ [] →
      p.flatCoords.length % p.layout.Stride.toNat = 0 →
      Marshal fmt (.LineString p) = .ret (specHeader (.LineString p) ++ "(" ++
        String.intercalate ", " ((tuples p.layout.Stride.toNat p.flatCoords).map
          (fun t => String.intercalate " " (t.map (fun x => fmt x (-1))))) ++ ")") none ∧
      Marshal fmt (.MultiPoint p) = .ret (specHeader (.MultiPoint p) ++ "(" ++
        String.intercalate ", " ((tuples p.layout.Stride.toNat p.flatCoords).map
          (fun t => String.intercalate " " (t.map (fun x => fmt x (-1))))) ++ ")") none) ∧
    Marshal FormatFloat (.LineString line012) = .ret "LINESTRING (0 0, 1 1, 2 2)" none := by
  refine ⟨?_, by rfl⟩
  intro fmt p hl hne hlen
  have hE : p.Empty = false := by simp [geom0.Empty, hne]
  have hfun : (fun t => String.intercalate " " (t.map (fun x => fmt x (-1)))) =
      tupleText fmt (-1) := by
    funext t; simp [tupleText, coordStr_default]
  rw [hfun]
  constructor
  · apply encode_of_write
    rw [write_LineString fmt "" p _ hl, hE, write_depth1_wf fmt _ p _ hl hlen]
    simp [ringText, String.append_assoc, defaultMaxDecimalDigits]
  · apply encode_of_write
    rw [write_MultiPoint fmt "" p _ hl, hE, write_depth1_wf fmt _ p _ hl hlen]
    simp [ringText, String.append_assoc, defaultMaxDecimalDigits]

/-- Instance of C1 at the line `[0,0,1,1,2,2]` with the reference formatter. -/
theorem C1_marshal_depth1_witness :
    (line012.layout.supported = true ∧ line012.flatCoords ≠ [] ∧
      line012.flatCoords.length % line012.layout.Stride.toNat = 0) ∧
    Marshal FormatFloat (.LineString line012) = .ret (specHeader (.LineString line012) ++ "(" ++
        String.intercalate ", " ((tuples line012.layout.Stride.toNat line012.flatCoords).map
          (fun t => String.intercalate " " (t.map (fun x => FormatFloat x (-1))))) ++ ")") none :=
  ⟨⟨by decide, by decide, by decide⟩,
    (C1_marshal_depth1.1 FormatFloat line012 (by decide) (by decide) (by decide)).1⟩

theorem write_of_encode (fmt : Formatter) (g : T) (n : Int) (s : String)
    (h : encode fmt g n = .ret s none) : write fmt "" g n = (s, .nil) := by
  unfold encode at h
  rcases hw : write fmt "" g n with ⟨t, o⟩
  rw [hw] at h
  cases o <;> simp at h
  rw [h]

theorem writeFlatCoords0_open (fmt : Formatter) (sb : Builder) (s : Slice) (k n : Int) :
    ∃ t, (writeFlatCoords0 fmt sb s k n).1 = sb ++ ("(" ++ t) := by
  rw [writeFlatCoords0_eq]
  cases s.reslice 0 k with
  | none => exact ⟨"", by simp⟩
  | some c => exact ⟨tupleText fmt n c.elems ++ ")", by simp [String.append_assoc]⟩

theorem writeFlatCoords1_open (fmt : Formatter) (sb : Builder) (s : Slice) (k n : Int) :
    ∃ t, (writeFlatCoords1 fmt sb s k n).1 = sb ++ ("(" ++ t) := by
  unfold writeFlatCoords1
  simp only []
  rw [writeFlatCoords1Loop_frame]
  rcases writeFlatCoords1Loop fmt s k n s.len "" 0 with ⟨t, o⟩
  cases o
  · exact ⟨t ++ ")", by simp [String.append_assoc]⟩
  all_goals exact ⟨t, by simp [String.append_assoc]⟩

theorem writeFlatCoords2_open (fmt : Formatter) (sb : Builder) (s : Slice) (start : Int)
    (ends : List Int) (k n : Int) :
    ∃ t, (writeFlatCoords2 fmt sb s start ends k n).1 = sb ++ ("(" ++ t) := by
  unfold writeFlatCoords2
  simp only []
  rw [writeFlatCoords2Loop_frame]
  rcases writeFlatCoords2Loop fmt s k n "" 0 start ends with ⟨t, o⟩
  cases o
  · exact ⟨t ++ ")", by simp [String.append_assoc]⟩
  all_goals exact ⟨t, by simp [String.append_assoc]⟩

theorem writeFlatCoords3_open (fmt : Formatter) (sb : Builder) (s : Slice)
    (endss : List (List Int)) (k n : Int) :
    ∃ t, (writeFlatCoords3 fmt sb s endss k n).1 = sb ++ ("(" ++ t) := by
  unfold writeFlatCoords3
  simp only []
  rw [writeFlatCoords3Loop_frame]
  rcases writeFlatCoords3Loop fmt s k n "" 0 0 endss with ⟨t, o⟩
  cases o
  · exact ⟨t ++ ")", by simp [String.append_assoc]⟩
  all_goals exact ⟨t, by simp [String.append_assoc]⟩

theorem write_header (fmt : Formatter) (g : T) (n : Int) (s : String) (hk : g.supported = true)
    (hl : g.Layout.supported = true) (h : write fmt "" g n = (s, .nil)) :
    ∃ rest, s = specHeader g ++ rest ∧ (rest = "EMPTY" ∨ ∃ t, rest = "(" ++ t) := by
  have key : ∀ (r : Builder × Outcome) (hdr : String), r = (s, .nil) →
      (∃ t, r.1 = ("" ++ hdr) ++ ("(" ++ t)) →
      ∃ rest, s = hdr ++ rest ∧ (rest = "EMPTY" ∨ ∃ t, rest = "(" ++ t) := by
    intro r hdr hr ⟨t, ht⟩
    refine ⟨"(" ++ t, ?_, Or.inr ⟨t, rfl⟩⟩
    rw [hr] at ht
    simpa using ht
  have keyE : ∀ (hdr : String), (("" : String) ++ (hdr ++ "EMPTY"), Outcome.nil) = (s, .nil) →
      ∃ rest, s = hdr ++ rest ∧ (rest = "EMPTY" ∨ ∃ t, rest = "(" ++ t) := by
    intro hdr hr
    refine ⟨"EMPTY", ?_, Or.inl rfl⟩
    simpa using (congrArg Prod.fst hr).symm
  cases g with
  | Point p =>
    rw [write_Point fmt "" p n hl] at h
    rcases hE : Point.Empty p with _ | _ | _ <;> rw [hE] at h
    · simp at h
    · exact key _ _ h (writeFlatCoords0_open ..)
    · exact keyE _ h
  | LineString p =>
    rw [write_LineString fmt "" p n hl] at h
    cases hE : p.Empty <;> rw [hE] at h
    · exact key _ _ h (writeFlatCoords1_open ..)
    · exact keyE _ h
  | LinearRing p =>
    rw [write_LinearRing fmt "" p n hl] at h
    cases hE : p.Empty <;> rw [hE] at h
    · exact key _ _ h (writeFlatCoords1_open ..)
    · exact keyE _ h
  | MultiPoint p =>
    rw [write_MultiPoint fmt "" p n hl] at h
    cases hE : p.Empty <;> rw [hE] at h
    · exact key _ _ h (writeFlatCoords1_open ..)
    · exact keyE _ h
  | Polygon p =>
    rw [write_Polygon fmt "" p n hl] at h
    cases hE : p.togeom0.Empty <;> rw [hE] at h
    · exact key _ _ h (writeFlatCoords2_open ..)
    · exact keyE _ h
  | MultiLineString p =>
    rw [write_MultiLineString fmt "" p n hl] at h
    cases hE : p.togeom0.Empty <;> rw [hE] at h
    · exact key _ _ h (writeFlatCoords2_open ..)
    · exact keyE _ h
  | MultiPolygon p =>
    rw [write_MultiPolygon fmt "" p n hl] at h
    cases hE : p.togeom0.Empty <;> rw [hE] at h
    · exact key _ _ h (writeFlatCoords3_open ..)
    · exact keyE _ h
  | GeometryCollection l geoms srid =>
    rw [write_GeometryCollection fmt "" l geoms srid n hl] at h
    cases hE : GeometryCollection.Empty geoms <;> rw [hE] at h
    · simp only [Bool.false_eq_true, if_false] at h
      rw [writeGeoms_frame] at h
      refine key _ _ h ?_
      rcases writeGeoms fmt "" 0 geoms n with ⟨t, o⟩
      cases o
      · exact ⟨t ++ ")", by simp [String.append_assoc]⟩
      all_goals exact ⟨t, by simp [String.append_assoc]⟩
    · exact keyE _ h
  | other l e => simp [T.supported] at hk

/-- C2: when `encode` succeeds on a geometry of a supported kind and layout, the
text is the kind's keyword and one space, then the dimensionality suffix and one
space (nothing for XY, `Z` for XYZ, `M` for XYM, `ZM` for XYZM), and then either
`EMPTY` or a text that starts with `(`. -/
theorem C2_header (fmt : Formatter) (g : T) (n : Int) (s : String)
    (hk : g.supported = true) (hl : g.Layout.supported = true)
    (h : encode fmt g n = .ret s none) :
    ∃ rest, s = specKeyword g ++ " " ++
        (if specDim g.Layout = "" then "" else specDim g.Layout ++ " ") ++ rest ∧
      (rest = "EMPTY" ∨ ∃ t, rest = "(" ++ t) :=
  write_header fmt g n s hk hl (write_of_encode fmt g n s h)

/-- Instance of C2 at the 3D point (1, 2, 100), full precision, reference
formatter. -/
theorem C2_header_witness :
    ((T.Point pointZ).supported = true ∧ (T.Point pointZ).Layout.supported = true ∧
      encode FormatFloat (.Point pointZ) (-1) = .ret "POINT Z (1 2 100)" none) ∧
    ∃ rest, "POINT Z (1 2 100)" = specKeyword (.Point pointZ) ++ " " ++
        (if specDim (T.Point pointZ).Layout = "" then ""
          else specDim (T.Point pointZ).Layout ++ " ") ++ rest ∧
      (rest = "EMPTY" ∨ ∃ t, rest = "(" ++ t) :=
  ⟨⟨by decide, by decide, by rfl⟩,
    C2_header FormatFloat (.Point pointZ) (-1) "POINT Z (1 2 100)" (by decide) (by decide)
      (by rfl)⟩

/-- C3: on a geometry of a supported kind whose layout is `NoLayout`, `encode`
returns `"GEOMETRYCOLLECTION EMPTY"` when the geometry is an empty
GeometryCollection and fails with `ErrUnsupportedLayout(NoLayout)` otherwise; in
particular it fails so on every geometry that is not empty. -/
theorem C3_no_layout (fmt : Formatter) (g : T) (n : Int) (hk : g.supported = true)
    (hl : g.Layout = .NoLayout) :
    ((∃ geoms srid, g = .GeometryCollection .NoLayout geoms srid ∧
        GeometryCollection.Empty geoms = true) →
      encode fmt g n = .ret "GEOMETRYCOLLECTION EMPTY" none) ∧
    ((¬ ∃ geoms srid, g = .GeometryCollection .NoLayout geoms srid ∧
        GeometryCollection.Empty geoms = true) →
      encode fmt g n = .ret "" (some (.ErrUnsupportedLayout .NoLayout))) ∧
    (g.Empty ≠ some true →
      encode fmt g n = .ret "" (some (.ErrUnsupportedLayout .NoLayout))) := by
  have hrej : ∀ kw, typeKeyword g = some kw →
      layoutSwitch g kw = .error (.ErrUnsupportedLayout .NoLayout) →
      encode fmt g n = .ret "" (some (.ErrUnsupportedLayout .NoLayout)) := by
    intro kw h1 h2
    unfold encode
    rw [write]
    simp [h1, h2]
  cases g with
  | GeometryCollection l geoms srid =>
    simp only [T.Layout] at hl
    subst hl
    cases hE : GeometryCollection.Empty geoms
    · have hsw : layoutSwitch (.GeometryCollection .NoLayout geoms srid) tGeometryCollection =
          .error (.ErrUnsupportedLayout .NoLayout) := by
        simp [layoutSwitch, T.Layout, hE]
      have := hrej tGeometryCollection rfl hsw
      refine ⟨?_, fun _ => this, fun _ => this⟩
      rintro ⟨geoms2, srid2, heq, hE2⟩
      injection heq with _ h2 _
      rw [← h2, hE] at hE2
      exact absurd hE2 (by simp)
    · have hsw : layoutSwitch (.GeometryCollection .NoLayout geoms srid) tGeometryCollection =
          .ok tGeometryCollection := by
        simp [layoutSwitch, T.Layout, hE]
      have hok : encode fmt (.GeometryCollection .NoLayout geoms srid) n =
          .ret "GEOMETRYCOLLECTION EMPTY" none := by
        unfold encode
        rw [write]
        simp only [typeKeyword, hsw, hE, if_true, writeEMPTY]
        rfl
      refine ⟨fun _ => hok, ?_, ?_⟩
      · intro hne
        exact absurd ⟨geoms, srid, rfl, hE⟩ hne
      · intro hne
        simp [T.Empty, hE] at hne
  | other l e => simp [T.supported] at hk
  | _ =>
    simp only [T.Layout] at hl
    refine ⟨?_, fun _ => ?_, fun _ => ?_⟩
    · rintro ⟨geoms, srid, heq, -⟩
      cases heq
    all_goals
      apply hrej _ rfl
      simp [layoutSwitch, T.Layout, hl]

/-- Instance of C3 at the empty GeometryCollection with layout `NoLayout`. -/
theorem C3_no_layout_witness :
    ((T.GeometryCollection .NoLayout [] 0).supported = true ∧
      (T.GeometryCollection .NoLayout [] 0).Layout = .NoLayout ∧
      ∃ geoms srid, T.GeometryCollection .NoLayout [] 0 = .GeometryCollection .NoLayout geoms srid ∧
        GeometryCollection.Empty geoms = true) ∧
    encode FormatFloat (.GeometryCollection .NoLayout [] 0) 3 =
      .ret "GEOMETRYCOLLECTION EMPTY" none :=
  ⟨⟨by decide, rfl, [], 0, rfl, rfl⟩,
    (C3_no_layout FormatFloat (.GeometryCollection .NoLayout [] 0) 3 (by decide) rfl).1
      ⟨[], 0, rfl, rfl⟩⟩

theorem write_empty (fmt : Formatter) (g : T) (n : Int) (hk : g.supported = true)
    (hl : g.Layout.supported = true) (hE : g.Empty = some true) :
    write fmt "" g n = (specHeader g ++ "EMPTY", .nil) := by
  cases g with
  | Point p =>
    simp only [T.Empty] at hE
    rw [write_Point fmt "" p n hl, hE]
    simp
  | LineString p =>
    simp only [T.Empty, Option.some.injEq] at hE
    rw [write_LineString fmt "" p n hl, hE]
    simp
  | LinearRing p =>
    simp only [T.Empty, Option.some.injEq] at hE
    rw [write_LinearRing fmt "" p n hl, hE]
    simp
  | MultiPoint p =>
    simp only [T.Empty, Option.some.injEq] at hE
    rw [write_MultiPoint fmt "" p n hl, hE]
    simp
  | Polygon p =>
    simp only [T.Empty, Option.some.injEq] at hE
    rw [write_Polygon fmt "" p n hl, hE]
    simp
  | MultiLineString p =>
    simp only [T.Empty, Option.some.injEq] at hE
    rw [write_MultiLineString fmt "" p n hl, hE]
    simp
  | MultiPolygon p =>
    simp only [T.Empty, Option.some.injEq] at hE
    rw [write_MultiPolygon fmt "" p n hl, hE]
    simp
  | GeometryCollection l geoms srid =>
    simp only [T.Empty, Option.some.injEq] at hE
    rw [write_GeometryCollection fmt "" l geoms srid n hl, hE]
    simp
  | other l e => simp [T.supported] at hk

/-- C4: for every supported kind and every layout among XY, XYZ, XYM, XYZM, `encode`
of an empty geometry returns exactly the keyword, the dimensionality suffix and
`EMPTY`, with no parenthesised body, whatever `maxDecimalDigits` is; for example
`"POINT EMPTY"`, `"POLYGON Z EMPTY"` and `"GEOMETRYCOLLECTION EMPTY"`. -/
theorem C4_empty :
    (∀ (fmt : Formatter) (g : T) (n : Int), g.supported = true → g.Layout.supported = true →
      g.Empty = some true →
      encode fmt g n = .ret (specKeyword g ++ " " ++
        (if specDim g.Layout = "" then "" else specDim g.Layout ++ " ") ++ "EMPTY") none) ∧
    (∀ (fmt : Formatter) (n : Int),
      encode fmt (.Point (NewPointEmpty .XY)) n = .ret "POINT EMPTY" none ∧
      encode fmt (.Polygon emptyPolygonZ) n = .ret "POLYGON Z EMPTY" none ∧
      encode fmt (.GeometryCollection .XY [] 0) n = .ret "GEOMETRYCOLLECTION EMPTY" none) := by
  have main : ∀ (fmt : Formatter) (g : T) (n : Int), g.supported = true →
      g.Layout.supported = true → g.Empty = some true →
      encode fmt g n = .ret (specHeader g ++ "EMPTY") none := by
    intro fmt g n hk hl hE
    exact encode_of_write fmt g n _ (write_empty fmt g n hk hl hE)
  refine ⟨main, fun fmt n => ⟨?_, ?_, ?_⟩⟩
  · exact main fmt (.Point (NewPointEmpty .XY)) n (by decide) (by decide) (by decide)
  · exact main fmt (.Polygon emptyPolygonZ) n (by decide) (by decide) (by decide)
  · exact main fmt (.GeometryCollection .XY [] 0) n (by decide) (by decide) (by decide)

/-- Instance of C4 at the empty 3D polygon, zero decimal digits, reference
formatter. -/
theorem C4_empty_witness :
    ((T.Polygon emptyPolygonZ).supported = true ∧
      (T.Polygon emptyPolygonZ).Layout.supported = true ∧
      (T.Polygon emptyPolygonZ).Empty = some true) ∧
    encode FormatFloat (.Polygon emptyPolygonZ) 0 = .ret (specKeyword (.Polygon emptyPolygonZ) ++
      " " ++ (if specDim (T.Polygon emptyPolygonZ).Layout = "" then ""
        else specDim (T.Polygon emptyPolygonZ).Layout ++ " ") ++ "EMPTY") none :=
  ⟨⟨by decide, by decide, by decide⟩,
    C4_empty.1 FormatFloat (.Polygon emptyPolygonZ) 0 (by decide) (by decide) (by decide)⟩

/-- C5: for a layout `l` among XY, XYZ, XYM, XYZM, `NewPointEmpty l` is a Point of
layout `l` whose flat buffer has exactly `l.Stride()` slots (so it is not of
length zero), each slot being the quiet NaN of bit pattern `0x7FF8000000000000`;
`Empty()` is true on it and `encode` renders it as `POINT`, the suffix of the
layout and `EMPTY` (`"POINT EMPTY"`, `"POINT Z EMPTY"`, `"POINT M EMPTY"`,
`"POINT ZM EMPTY"`). -/
theorem C5_new_point_empty (l : Layout) (hl : l.supported = true) :
    (NewPointEmpty l).layout = l ∧
    ((NewPointEmpty l).flatCoords.length : Int) = l.Stride ∧
    (NewPointEmpty l).flatCoords ≠ [] ∧
    (∀ x ∈ (NewPointEmpty l).flatCoords, x.bits = 0x7FF8000000000000 ∧ IsNaN x = true) ∧
    Point.Empty (NewPointEmpty l) = some true ∧
    (∀ (fmt : Formatter) (n : Int),
      encode fmt (.Point (NewPointEmpty l)) n =
        .ret (match l with
          | .XYZ => "POINT Z EMPTY"
          | .XYM => "POINT M EMPTY"
          | .XYZM => "POINT ZM EMPTY"
          | _ => "POINT EMPTY") none) := by
  have enc : ∀ (fmt : Formatter) (n : Int),
      encode fmt (.Point (NewPointEmpty l)) n =
        .ret (specHeader (.Point (NewPointEmpty l)) ++ "EMPTY") none := by
    intro fmt n
    apply encode_of_write
    apply write_empty fmt _ n (by rfl)
    · cases l <;> simp [Layout.supported] at hl <;> rfl
    · cases l <;> simp [Layout.supported] at hl <;> decide
  cases l <;> simp [Layout.supported] at hl
  all_goals
    refine ⟨rfl, by decide, by decide, by decide, by decide, ?_⟩
    intro fmt n
    rw [enc fmt n]
    rfl

/-- Instance of C5 at the layout XYZM, reference formatter, zero decimal digits. -/
theorem C5_new_point_empty_witness :
    Layout.XYZM.supported = true ∧
    (NewPointEmpty .XYZM).flatCoords.length = 4 ∧
    Point.Empty (NewPointEmpty .XYZM) = some true ∧
    encode FormatFloat (.Point (NewPointEmpty .XYZM)) 0 = .ret "POINT ZM EMPTY" none :=
  ⟨by decide, by decide, by decide,
    (C5_new_point_empty .XYZM (by decide)).2.2.2.2.2 FormatFloat 0⟩

theorem writeFlatCoords2Loop_wf (fmt : Formatter) (s : Slice) (stride n : Int) (k : Nat)
    (hs : stride = (k : Int)) (hk : 0 < k) (ends : List Int) :
    ∀ (sb : Builder) (i : Nat) (start : Int), EndsOK s.arr.length k start ends →
      writeFlatCoords2Loop fmt s stride n sb i start ends =
        (sb ++ joined i ", " ((runs s.arr start ends).map (ringText fmt n k)), .nil) := by
  induction ends with
  | nil => intro sb i start _; simp [writeFlatCoords2Loop, runs, joined_nil]
  | cons e rest ih =>
    intro sb i start hok
    obtain ⟨h0, hle, hcap, hdvd, hrest⟩ := hok
    have hres : s.reslice start e = some ⟨s.arr.drop start.toNat, (e - start).toNat⟩ := by
      unfold Slice.reslice
      rw [if_pos ⟨h0, hle, hcap⟩]
    obtain ⟨m, hm⟩ := hdvd
    have hm0 : 0 ≤ m := by
      by_contra hneg
      have hk' : (0 : Int) < (k : Int) := by exact_mod_cast hk
      have : (k : Int) * m < 0 := Int.mul_neg_of_pos_of_neg hk' (by omega)
      omega
    have hlen : (e - start).toNat = m.toNat * k := by
      have : ((e - start).toNat : Int) = ((m.toNat * k : Nat) : Int) := by
        push_cast
        rw [Int.toNat_of_nonneg (by omega), Int.toNat_of_nonneg hm0, hm]
        ring
      exact_mod_cast this
    have hw := writeFlatCoords1_wf fmt (if i ≠ 0 then sb ++ ", " else sb)
      ⟨s.arr.drop start.toNat, (e - start).toNat⟩ stride n k m.toNat hs hk hlen
      (by simp only [List.length_drop]; omega)
    have helems : (Slice.mk (s.arr.drop start.toNat) (e - start).toNat).elems = sub s.arr start e := by
      simp only [Slice.elems, sub, List.drop_take]
      congr 1
      omega
    rw [helems] at hw
    simp only [writeFlatCoords2Loop, hres, hw]
    rw [ih _ _ _ hrest]
    simp only [runs, List.map_cons, joined_cons]
    by_cases hi : i = 0 <;> simp [hi, String.append_assoc]

theorem writeFlatCoords2_wf (fmt : Formatter) (sb : Builder) (s : Slice) (start stride n : Int)
    (k : Nat) (ends : List Int) (hs : stride = (k : Int)) (hk : 0 < k)
    (hok : EndsOK s.arr.length k start ends) :
    writeFlatCoords2 fmt sb s start ends stride n =
      (sb ++ polygonText fmt n k s.arr start ends, .nil) := by
  unfold writeFlatCoords2
  simp only [writeFlatCoords2Loop_wf fmt s stride n k hs hk ends _ _ _ hok, joined_zero,
    polygonText, String.append_assoc]

theorem endsOK_of_chain (cap k : Nat) (ends : List Int) :
    ∀ (start : Int), 0 ≤ start → (k : Int) ∣ start → List.Chain (· ≤ ·) start ends →
      (∀ e ∈ ends, (k : Int) ∣ e ∧ e ≤ (cap : Int)) → EndsOK cap k start ends := by
  induction ends with
  | nil => intro _ _ _ _ _; trivial
  | cons e rest ih =>
    intro start h0 hd hc hall
    rw [List.chain_cons] at hc
    have he := hall e (List.mem_cons_self _ _)
    exact ⟨h0, hc.1, he.2, Int.dvd_sub he.1 hd,
      ih e (le_trans h0 hc.1) he.1 hc.2 (fun x hx => hall x (List.mem_cons_of_mem _ hx))⟩

theorem chain_le_last (ends : List Int) :
    ∀ (start L : Int), List.Chain (· ≤ ·) start ends → (start :: ends).getLast? = some L →
      start ≤ L ∧ ∀ e ∈ ends, e ≤ L := by
  induction ends with
  | nil =>
    intro start L _ hL
    simp at hL
    subst hL
    simp
  | cons e rest ih =>
    intro start L hc hL
    rw [List.chain_cons] at hc
    have hL' : (e :: rest).getLast? = some L := by
      simpa [List.getLast?_cons_cons] using hL
    obtain ⟨h1, h2⟩ := ih e L hc.2 hL'
    refine ⟨le_trans hc.1 h1, ?_⟩
    intro x hx
    rcases List.mem_cons.mp hx with rfl | hx
    · exact h1
    · exact h2 x hx

theorem endsOK_of_spec (k len : Nat) (ends : List Int) (h1 : ends.Chain' (· < ·))
    (h2 : ∀ e ∈ ends, 0 ≤ e ∧ (k : Int) ∣ e) (h3 : ends.getLast? = some (len : Int)) :
    EndsOK len k 0 ends := by
  cases ends with
  | nil => trivial
  | cons e rest =>
    have hc : List.Chain (· ≤ ·) e rest :=
      List.Chain.imp (fun a b hab => le_of_lt hab) h1
    obtain ⟨hle, hall⟩ := chain_le_last rest e len hc h3
    have he := h2 e (List.mem_cons_self _ _)
    apply endsOK_of_chain len k (e :: rest) 0 (le_refl 0) (dvd_zero _)
      (List.Chain.cons he.1 hc)
    intro x hx
    refine ⟨(h2 x hx).2, ?_⟩
    rcases List.mem_cons.mp hx with rfl | hx
    · exact hle
    · exact hall x hx

theorem tuples_length (k : Nat) (xs : List Float64) : (tuples k xs).length = xs.length / k := by
  simp [tuples]

theorem runs_length (flat : List Float64) (ends : List Int) :
    ∀ start, (runs flat start ends).length = ends.length := by
  induction ends with
  | nil => intro _; rfl
  | cons e rest ih => intro start; simp [runs, ih]

theorem runs_counts (flat : List Float64) (k : Nat) (ends : List Int) :
    ∀ start, EndsOK flat.length k start ends →
      (runs flat start ends).map (fun r => ((tuples k r).length : Int)) =
        List.zipWith (fun e e0 => (e - e0) / (k : Int)) ends (start :: ends) := by
  induction ends with
  | nil => intro _ _; rfl
  | cons e rest ih =>
    intro start hok
    obtain ⟨h0, hle, hcap, _, hrest⟩ := hok
    simp only [runs, List.map_cons, List.zipWith_cons_cons, ih e hrest]
    congr 1
    rw [tuples_length]
    have hl : (sub flat start e).length = (e - start).toNat := by
      simp only [sub, List.length_drop, List.length_take]
      omega
    rw [hl, Int.natCast_div, Int.toNat_of_nonneg (by omega)]

/-- C6: for a non-empty Polygon or MultiLineString whose ends array
`e₁ < ... < eₖ` consists of offsets that are multiples of the stride, with `eₖ` the
flat length, the encoded body is `(`, then exactly `k` parenthesised depth-1
groups joined by `", "`, then `)`; group `i` is the depth-1 text of
`flatCoords[eᵢ₋₁ : eᵢ]` (with `e₀ = 0`) and holds `(eᵢ - eᵢ₋₁) / stride` tuples.
For the stride-2 Polygon with ends `[8, 16]` these are two groups of 4 tuples. -/
theorem C6_depth2 :
    (∀ (fmt : Formatter) (p : geom2) (n : Int), p.layout.supported = true →
      p.flatCoords ≠ [] → p.ends.Chain' (· < ·) →
      (∀ e ∈ p.ends, 0 ≤ e ∧ p.layout.Stride ∣ e) →
      p.ends.getLast? = some (p.flatCoords.length : Int) →
      encode fmt (.Polygon p) n = .ret (specHeader (.Polygon p) ++ "(" ++
        String.intercalate ", " ((runs p.flatCoords 0 p.ends).map
          (ringText fmt n p.layout.Stride.toNat)) ++ ")") none ∧
      encode fmt (.MultiLineString p) n = .ret (specHeader (.MultiLineString p) ++ "(" ++
        String.intercalate ", " ((runs p.flatCoords 0 p.ends).map
          (ringText fmt n p.layout.Stride.toNat)) ++ ")") none ∧
      (runs p.flatCoords 0 p.ends).length = p.ends.length ∧
      (runs p.flatCoords 0 p.ends).map
          (fun r => ((tuples p.layout.Stride.toNat r).length : Int)) =
        List.zipWith (fun e e0 => (e - e0) / p.layout.Stride) p.ends (0 :: p.ends)) ∧
    encode FormatFloat (.Polygon polygon44) (-1) =
      .ret "POLYGON ((0 0, 100 0, 100 100, 0 0), (1 1, 2 1, 2 2, 1 1))" none := by
  refine ⟨?_, by rfl⟩
  intro fmt p n hl hne h1 h2 h3
  obtain ⟨hk, hk2⟩ := stride_pos p.layout hl
  have hE : p.togeom0.Empty = false := by simp [geom0.Empty, hne]
  have hok : EndsOK p.flatCoords.length p.layout.Stride.toNat 0 p.ends :=
    endsOK_of_spec _ _ _ h1 (fun e he => by rw [← hk2]; exact h2 e he) h3
  have hw := fun sb => writeFlatCoords2_wf fmt sb (Slice.ofList p.flatCoords) 0 p.layout.Stride n
    p.layout.Stride.toNat p.ends hk2 hk (by simpa [Slice.ofList] using hok)
  refine ⟨?_, ?_, runs_length _ _ _, ?_⟩
  · apply encode_of_write
    rw [write_Polygon fmt "" p n hl, hE]
    simp only [Bool.false_eq_true, if_false, hw]
    simp [polygonText, Slice.ofList, String.append_assoc]
  · apply encode_of_write
    rw [write_MultiLineString fmt "" p n hl, hE]
    simp only [Bool.false_eq_true, if_false, hw]
    simp [polygonText, Slice.ofList, String.append_assoc]
  · have := runs_counts p.flatCoords p.layout.Stride.toNat p.ends 0 hok
    rw [← hk2] at this
    exact this

/-- Instance of C6 at the stride-2 Polygon with ends `[8, 16]`, reference
formatter, full precision. -/
theorem C6_depth2_witness :
    (polygon44.layout.supported = true ∧ polygon44.flatCoords ≠ [] ∧
      polygon44.ends.Chain' (· < ·) ∧
      (∀ e ∈ polygon44.ends, 0 ≤ e ∧ polygon44.layout.Stride ∣ e) ∧
      polygon44.ends.getLast? = some (polygon44.flatCoords.length : Int)) ∧
    (runs polygon44.flatCoords 0 polygon44.ends).length = 2 ∧
    (runs polygon44.flatCoords 0 polygon44.ends).map
        (fun r => ((tuples polygon44.layout.Stride.toNat r).length : Int)) = [4, 4] :=
  ⟨⟨by decide, by decide, by simp [polygon44], by decide, by decide⟩,
    (C6_depth2.1 FormatFloat polygon44 (-1) (by decide) (by decide) (by simp [polygon44])
      (by decide) (by decide)).2.2⟩

theorem writeFlatCoords3Loop_wf (fmt : Formatter) (s : Slice) (stride n : Int) (k : Nat)
    (hs : stride = (k : Int)) (hk : 0 < k) (endss : List (List Int)) :
    ∀ (sb : Builder) (i : Nat) (start : Int), EndssOK s.arr.length k start endss →
      writeFlatCoords3Loop fmt s stride n sb i start endss =
        (sb ++ joined i ", " (polygonTexts fmt n k s.arr start endss), .nil) := by
  induction endss with
  | nil => intro sb i start _; simp [writeFlatCoords3Loop, polygonTexts, joined_nil]
  | cons ends rest ih =>
    intro sb i start hok
    obtain ⟨last, hlast, _, hends, hrest⟩ := hok
    simp only [writeFlatCoords3Loop, writeFlatCoords2_wf fmt _ s start stride n k ends hs hk hends,
      hlast]
    rw [ih _ _ _ hrest]
    simp only [polygonTexts, hlast, Option.getD_some, joined_cons]
    by_cases hi : i = 0 <;> simp [hi, String.append_assoc]

theorem writeFlatCoords3_wf (fmt : Formatter) (sb : Builder) (s : Slice) (stride n : Int)
    (k : Nat) (endss : List (List Int)) (hs : stride = (k : Int)) (hk : 0 < k)
    (hok : EndssOK s.arr.length k 0 endss) :
    writeFlatCoords3 fmt sb s endss stride n =
      (sb ++ ("(" ++ String.intercalate ", " (polygonTexts fmt n k s.arr 0 endss) ++ ")"),
        .nil) := by
  unfold writeFlatCoords3
  simp only [writeFlatCoords3Loop_wf fmt s stride n k hs hk endss _ _ _ hok, joined_zero,
    String.append_assoc]

theorem sub_sub (flat : List Float64) (S L a e : Int) (hS : 0 ≤ S) (hSa : S ≤ a) (hae : a ≤ e)
    (heL : e ≤ L) : sub (sub flat S L) (a - S) (e - S) = sub flat a e := by
  unfold sub
  rw [List.drop_take L.toNat S.toNat, List.take_take, List.drop_take, List.drop_drop,
    List.drop_take]
  have h1 : S.toNat + (a - S).toNat = a.toNat := by omega
  have h2 : min (e - S).toNat (L.toNat - S.toNat) - (a - S).toNat = e.toNat - a.toNat := by
    omega
  rw [h1, h2]

theorem runs_rebase (flat : List Float64) (cap k : Nat) (S L : Int) (hS : 0 ≤ S)
    (ends : List Int) :
    ∀ a, S ≤ a → EndsOK cap k a ends → (∀ e ∈ ends, e ≤ L) →
      runs (sub flat S L) (a - S) (ends.map (fun e => e - S)) = runs flat a ends := by
  induction ends with
  | nil => intro _ _ _ _; rfl
  | cons e rest ih =>
    intro a hSa hok hL
    obtain ⟨_, hae, _, _, hrest⟩ := hok
    simp only [List.map_cons, runs]
    rw [sub_sub flat S L a e hS hSa hae (hL e (List.mem_cons_self _ _)),
      ih e (le_trans hSa hae) hrest (fun x hx => hL x (List.mem_cons_of_mem _ hx))]

theorem endsOK_rebase (cap k : Nat) (S L : Int) (hS : 0 ≤ S) (ends : List Int) :
    ∀ a, S ≤ a → EndsOK cap k a ends → (∀ e ∈ ends, e ≤ L) →
      EndsOK (L.toNat - S.toNat) k (a - S) (ends.map (fun e => e - S)) := by
  induction ends with
  | nil => intro _ _ _ _; trivial
  | cons e rest ih =>
    intro a hSa hok hL
    obtain ⟨_, hae, _, hd, hrest⟩ := hok
    have heL := hL e (List.mem_cons_self _ _)
    simp only [List.map_cons, EndsOK]
    refine ⟨by omega, by omega, ?_, ?_, ?_⟩
    · have : ((L.toNat - S.toNat : Nat) : Int) = L - S := by omega
      rw [this]; omega
    · have : e - S - (a - S) = e - a := by ring
      rw [this]; exact hd
    · exact ih e (le_trans hSa hae) hrest (fun x hx => hL x (List.mem_cons_of_mem _ hx))

theorem endsOK_le_last (cap k : Nat) (ends : List Int) :
    ∀ (start L : Int), EndsOK cap k start ends → (start :: ends).getLast? = some L →
      start ≤ L ∧ L ≤ max start (cap : Int) ∧ ∀ e ∈ ends, e ≤ L := by
  induction ends with
  | nil =>
    intro start L _ hL
    simp at hL
    subst hL
    simp
  | cons e rest ih =>
    intro start L hok hL
    obtain ⟨_, hse, hcap, _, hrest⟩ := hok
    have hL' : (e :: rest).getLast? = some L := by
      simpa [List.getLast?_cons_cons] using hL
    obtain ⟨h1, h2, h3⟩ := ih e L hrest hL'
    refine ⟨le_trans hse h1, by omega, ?_⟩
    intro x hx
    rcases List.mem_cons.mp hx with rfl | hx
    · exact h1
    · exact h3 x hx

theorem member_write (fmt : Formatter) (g : geom0) (n : Int) (start last : Int)
    (ends : List Int) (hl : g.layout.supported = true)
    (hok : EndsOK g.flatCoords.length g.layout.Stride.toNat start ends)
    (hlast : ends.getLast? = some last) (hlt : start < last) :
    write fmt "" (.Polygon { g with flatCoords := sub g.flatCoords start last,
                                    ends := ends.map (fun e => e - start) }) n =
      (specHeader (.Polygon { g with flatCoords := sub g.flatCoords start last,
                                     ends := ends.map (fun e => e - start) }) ++
        polygonText fmt n g.layout.Stride.toNat g.flatCoords start ends, .nil) := by
  obtain ⟨hk, hk2⟩ := stride_pos g.layout hl
  have hne : ends ≠ [] := by
    intro h; rw [h] at hlast; simp at hlast
  obtain ⟨e, rest, rfl⟩ := List.exists_cons_of_ne_nil hne
  have h0 : 0 ≤ start := hok.1
  obtain ⟨_, hLcap, hall⟩ := endsOK_le_last _ _ (e :: rest) start last hok
    (by rw [List.getLast?_cons_cons]; exact hlast)
  have hlenS : (sub g.flatCoords start last).length = last.toNat - start.toNat := by
    simp only [sub, List.length_drop, List.length_take]
    omega
  have hE : geom0.Empty { g with flatCoords := sub g.flatCoords start last } = false := by
    simp only [geom0.Empty, List.isEmpty_eq_false]
    intro h
    rw [h] at hlenS
    simp at hlenS
    omega
  rw [write_Polygon fmt "" _ n hl]
  simp only [hE, Bool.false_eq_true, if_false]
  rw [writeFlatCoords2_wf fmt _ (Slice.ofList (sub g.flatCoords start last)) 0 _ n
    g.layout.Stride.toNat _ hk2 hk]
  · simp only [polygonText, Slice.ofList]
    have := runs_rebase g.flatCoords _ _ start last h0 (e :: rest) start (le_refl _) hok hall
    rw [sub_self] at this
    rw [this]
    simp
  · simp only [Slice.ofList, hlenS]
    have := endsOK_rebase _ _ start last h0 (e :: rest) start (le_refl _) hok hall
    rw [sub_self] at this
    exact this

theorem pairwise_le_last (l : List Int) (L : Int) (hp : l.Pairwise (· < ·))
    (hL : l.getLast? = some L) : ∀ e ∈ l, e ≤ L := by
  obtain ⟨ys, rfl⟩ := List.getLast?_eq_some_iff.mp hL
  intro e he
  rcases List.mem_append.mp he with h | h
  · exact le_of_lt ((List.pairwise_append.mp hp).2.2 e h L (List.mem_singleton_self L))
  · rw [List.mem_singleton.mp h]

theorem endsOK_of_pairwise (cap k : Nat) (ends : List Int) :
    ∀ (start : Int), 0 ≤ start → (k : Int) ∣ start → (start :: ends).Pairwise (· < ·) →
      (∀ e ∈ ends, (k : Int) ∣ e ∧ e ≤ (cap : Int)) → EndsOK cap k start ends := by
  induction ends with
  | nil => intro _ _ _ _ _; trivial
  | cons e rest ih =>
    intro start h0 hd hp hall
    rw [List.pairwise_cons] at hp
    have hlt := hp.1 e (List.mem_cons_self _ _)
    have he := hall e (List.mem_cons_self _ _)
    exact ⟨h0, le_of_lt hlt, he.2, Int.dvd_sub he.1 hd,
      ih e (le_trans h0 (le_of_lt hlt)) he.1 hp.2
        (fun x hx => hall x (List.mem_cons_of_mem _ hx))⟩

theorem endssOK_of_spec (cap k : Nat) (endss : List (List Int)) :
    ∀ (start : Int), 0 ≤ start → (k : Int) ∣ start → (∀ ends ∈ endss, ends ≠ []) →
      (start :: endss.flatten).Pairwise (· < ·) →
      (∀ e ∈ endss.flatten, (k : Int) ∣ e ∧ e ≤ (cap : Int)) → EndssOK cap k start endss := by
  induction endss with
  | nil => intro _ _ _ _ _ _; trivial
  | cons ends rest ih =>
    intro start h0 hd hne hp hall
    have hne' := hne ends (List.mem_cons_self _ _)
    obtain ⟨last, hlast⟩ : ∃ last, ends.getLast? = some last := by
      cases h : ends.getLast? with
      | none => exact absurd (List.getLast?_eq_none_iff.mp h) hne'
      | some v => exact ⟨v, rfl⟩
    have hmem : last ∈ ends := List.mem_of_getLast?_eq_some hlast
    rw [List.flatten_cons, List.pairwise_cons, List.pairwise_append] at hp
    obtain ⟨hs, hpe, hpr, hcross⟩ := hp
    have hslast : start < last := hs last (List.mem_append_left _ hmem)
    have hallE : ∀ e ∈ ends, (k : Int) ∣ e ∧ e ≤ (cap : Int) := fun e he =>
      hall e (by rw [List.flatten_cons]; exact List.mem_append_left _ he)
    refine ⟨last, hlast, hslast, ?_, ?_⟩
    · apply endsOK_of_pairwise cap k ends start h0 hd _ hallE
      rw [List.pairwise_cons]
      exact ⟨fun a ha => hs a (List.mem_append_left _ ha), hpe⟩
    · apply ih last (le_trans h0 (le_of_lt hslast)) (hallE last hmem).1
        (fun e he => hne e (List.mem_cons_of_mem _ he))
      · rw [List.pairwise_cons]
        exact ⟨fun b hb => hcross last hmem b hb, hpr⟩
      · intro e he
        exact hall e (by rw [List.flatten_cons]; exact List.mem_append_right _ he)

theorem endsOK_all_le (cap k : Nat) (ends : List Int) (start last : Int)
    (hok : EndsOK cap k start ends) (hlast : ends.getLast? = some last) :
    ∀ e ∈ ends, e ≤ last := by
  have hne : ends ≠ [] := by
    intro h; rw [h] at hlast; simp at hlast
  obtain ⟨e, rest, rfl⟩ := List.exists_cons_of_ne_nil hne
  exact (endsOK_le_last _ _ (e :: rest) start last hok
    (by rw [List.getLast?_cons_cons]; exact hlast)).2.2

theorem members_wf (fmt : Formatter) (g : geom0) (n : Int) (hl : g.layout.supported = true)
    (endss : List (List Int)) :
    ∀ start, EndssOK g.flatCoords.length g.layout.Stride.toNat start endss →
      (membersFrom g start endss).map
          (fun m => polygonText fmt n g.layout.Stride.toNat m.flatCoords 0 m.ends) =
        polygonTexts fmt n g.layout.Stride.toNat g.flatCoords start endss ∧
      (membersFrom g start endss).length = endss.length ∧
      ∀ m ∈ membersFrom g start endss, write fmt "" (.Polygon m) n =
        (specHeader (.Polygon m) ++
          polygonText fmt n g.layout.Stride.toNat m.flatCoords 0 m.ends, .nil) := by
  induction endss with
  | nil => intro _ _; simp [membersFrom, polygonTexts]
  | cons ends rest ih =>
    intro start hok
    obtain ⟨last, hlast, hlt, hends, hrest⟩ := hok
    obtain ⟨ih1, ih2, ih3⟩ := ih last hrest
    have hall := endsOK_all_le _ _ ends start last hends hlast
    have h0 : 0 ≤ start := by
      cases ends with
      | nil => simp at hlast
      | cons e r => exact hends.1
    have htext : polygonText fmt n g.layout.Stride.toNat (sub g.flatCoords start last) 0
        (ends.map (fun e => e - start)) =
        polygonText fmt n g.layout.Stride.toNat g.flatCoords start ends := by
      have := runs_rebase g.flatCoords _ _ start last h0 ends start (le_refl _)
        hends hall
      rw [sub_self] at this
      simp only [polygonText, this]
    simp only [membersFrom, polygonTexts, hlast, Option.getD_some, List.map_cons,
      List.length_cons, List.mem_cons]
    refine ⟨by rw [htext, ih1], by rw [ih2], ?_⟩
    intro m hm
    rcases hm with rfl | hm
    · rw [member_write fmt g n start last ends hl hends hlast hlt, htext]
    · exact ih3 m hm

/-- C7: for a non-empty well-formed MultiPolygon (every member has a non-empty ends
array, the end offsets of all members taken together are strictly increasing
from 0, multiples of the stride, and the last one is the flat length), the encoded
body is `(`, then one depth-2 group per member joined by `", "`, then `)`, and the
group of a member is exactly the body `encode` writes for that member as a
Polygon on its own: the flat sub-range from the final end of the member before
it (0 for the first) to its own final end, with its ends rebased to that start. -/
theorem C7_depth3 (fmt : Formatter) (g : geom3) (n : Int)
    (hl : g.layout.supported = true) (hne : g.flatCoords ≠ [])
    (h1 : ∀ ends ∈ g.endss, ends ≠ [])
    (h2 : (0 :: g.endss.flatten).Pairwise (· < ·))
    (h3 : ∀ e ∈ g.endss.flatten, g.layout.Stride ∣ e)
    (h4 : g.endss.flatten.getLast? = some (g.flatCoords.length : Int)) :
    encode fmt (.MultiPolygon g) n = .ret (specHeader (.MultiPolygon g) ++ "(" ++
      String.intercalate ", " ((memberPolygons g).map
        (fun m => polygonText fmt n g.layout.Stride.toNat m.flatCoords 0 m.ends)) ++ ")")
      none ∧
    (memberPolygons g).length = g.endss.length ∧
    ∀ m ∈ memberPolygons g, encode fmt (.Polygon m) n =
      .ret (specHeader (.Polygon m) ++
        polygonText fmt n g.layout.Stride.toNat m.flatCoords 0 m.ends) none := by
  obtain ⟨hk, hk2⟩ := stride_pos g.layout hl
  have hE : g.togeom0.Empty = false := by simp [geom0.Empty, hne]
  have hle := pairwise_le_last _ _ (List.pairwise_cons.mp h2).2 h4
  have hok : EndssOK g.flatCoords.length g.layout.Stride.toNat 0 g.endss :=
    endssOK_of_spec _ _ _ 0 (le_refl 0) (dvd_zero _) h1 h2
      (fun e he => ⟨by rw [← hk2]; exact h3 e he, hle e he⟩)
  obtain ⟨m1, m2, m3⟩ := members_wf fmt g.togeom0 n hl g.endss 0 hok
  refine ⟨?_, m2, fun m hm => encode_of_write _ _ _ _ (m3 m hm)⟩
  apply encode_of_write
  rw [write_MultiPolygon fmt "" g n hl, hE]
  simp only [Bool.false_eq_true, if_false]
  rw [writeFlatCoords3_wf fmt _ (Slice.ofList g.flatCoords) _ n g.layout.Stride.toNat g.endss
    hk2 hk (by simpa [Slice.ofList] using hok)]
  simp only [memberPolygons, m1, Slice.ofList]
  simp [String.append_assoc]

/-- Instance of C7 at a 2D MultiPolygon with `endss = [[4, 8], [12]]`, reference
formatter, full precision. -/
theorem C7_depth3_witness :
    (multiPolygon3.layout.supported = true ∧ multiPolygon3.flatCoords ≠ [] ∧
      (∀ ends ∈ multiPolygon3.endss, ends ≠ []) ∧
      (0 :: multiPolygon3.endss.flatten).Pairwise (· < ·) ∧
      (∀ e ∈ multiPolygon3.endss.flatten, multiPolygon3.layout.Stride ∣ e) ∧
      multiPolygon3.endss.flatten.getLast? = some (multiPolygon3.flatCoords.length : Int)) ∧
    encode FormatFloat (.MultiPolygon multiPolygon3) (-1) =
      .ret "MULTIPOLYGON (((0 0, 1 1), (2 2, 0 0)), ((100 100, 1 1)))" none ∧
    (memberPolygons multiPolygon3).length = 2 :=
  ⟨⟨by decide, by decide, by decide, by decide, by decide, by decide⟩,
    by rfl,
    (C7_depth3 FormatFloat multiPolygon3 (-1) (by decide) (by decide) (by decide) (by decide)
      (by decide) (by decide)).2.1⟩

theorem writeGeoms_ok (fmt : Formatter) (n : Int) (geoms : List T) (texts : List String)
    (h : List.Forall₂ (fun g s => write fmt "" g n = (s, .nil)) geoms texts) :
    ∀ (sb : Builder) (i : Nat),
      writeGeoms fmt sb i geoms n = (sb ++ joined i ", " texts, .nil) := by
  induction h with
  | nil => intro sb i; simp [writeGeoms, joined_nil]
  | cons hg _ ih =>
    intro sb i
    rw [writeGeoms, write_frame, hg]
    simp only []
    rw [ih, joined_cons]
    by_cases hi : i = 0 <;> simp [hi, String.append_assoc]

theorem writeGeoms_err (fmt : Formatter) (n : Int) (pre : List T) (g : T) (post : List T)
    (t : String) (e : GeomError) (hpre : ∀ p ∈ pre, ∃ s, write fmt "" p n = (s, .nil))
    (hg : write fmt "" g n = (t, .err e)) :
    ∀ (sb : Builder) (i : Nat),
      ∃ t', writeGeoms fmt sb i (pre ++ g :: post) n = (t', .err e) := by
  induction pre with
  | nil =>
    intro sb i
    rw [List.nil_append, writeGeoms, write_frame, hg]
    exact ⟨_, rfl⟩
  | cons p pre ih =>
    intro sb i
    obtain ⟨s, hs⟩ := hpre p (List.mem_cons_self _ _)
    rw [List.cons_append, writeGeoms, write_frame, hs]
    exact ih (fun q hq => hpre q (List.mem_cons_of_mem _ hq)) _ _

theorem write_of_encode_err (fmt : Formatter) (g : T) (n : Int) (s : String) (e : GeomError)
    (h : encode fmt g n = .ret s (some e)) : ∃ t, write fmt "" g n = (t, .err e) := by
  unfold encode at h
  rcases hw : write fmt "" g n with ⟨t, o⟩
  rw [hw] at h
  cases o <;> simp at h
  exact ⟨t, by rw [h.2]⟩

/-- C8: for a non-empty GeometryCollection with a layout among XY, XYZ, XYM, XYZM: if
`encode` (with the same `maxDecimalDigits`) succeeds on every member, `encode` of
the collection returns `GEOMETRYCOLLECTION`, the suffix, `(`, the members'
encodings joined by `", "`, and `)`; and if some member fails while all members
before it succeed, `encode` of the collection fails with that member's error. -/
theorem C8_collection (fmt : Formatter) (l : Layout) (geoms : List T) (srid n : Int)
    (hl : l.supported = true) (hne : geoms ≠ []) :
    (∀ texts : List String,
      List.Forall₂ (fun g s => encode fmt g n = .ret s none) geoms texts →
      encode fmt (.GeometryCollection l geoms srid) n =
        .ret ("GEOMETRYCOLLECTION " ++ (if specDim l = "" then "" else specDim l ++ " ") ++
          "(" ++ String.intercalate ", " texts ++ ")") none) ∧
    (∀ (pre : List T) (g : T) (post : List T) (e : GeomError), geoms = pre ++ g :: post →
      (∀ p ∈ pre, ∃ s, encode fmt p n = .ret s none) →
      encode fmt g n = .ret "" (some e) →
      encode fmt (.GeometryCollection l geoms srid) n = .ret "" (some e)) := by
  have hE : GeometryCollection.Empty geoms = false := by
    simp [GeometryCollection.Empty, hne]
  constructor
  · intro texts h
    apply encode_of_write
    rw [write_GeometryCollection fmt "" l geoms srid n hl, hE]
    simp only [Bool.false_eq_true, if_false]
    rw [writeGeoms_ok fmt n geoms texts
      (List.Forall₂.imp (fun g s hgs => write_of_encode fmt g n s hgs) h)]
    simp [joined_zero, specHeader, specKeyword, T.Layout, String.append_assoc]
  · intro pre g post e hgeoms hpre hg
    subst hgeoms
    obtain ⟨t, ht⟩ := write_of_encode_err fmt g n "" e hg
    have hpre' : ∀ p ∈ pre, ∃ s, write fmt "" p n = (s, .nil) := fun p hp => by
      obtain ⟨s, hs⟩ := hpre p hp
      exact ⟨s, write_of_encode fmt p n s hs⟩
    unfold encode
    rw [write_GeometryCollection fmt "" l _ srid n hl, hE]
    simp only [Bool.false_eq_true, if_false]
    obtain ⟨t', ht'⟩ := writeGeoms_err fmt n pre g post t e hpre' ht
      ("" ++ (specHeader (.GeometryCollection l (pre ++ g :: post) srid) ++ "(")) 0
    rw [ht']

/-- Instance of C8 at the collection of the 3D point (1, 2, 100) and the line
`[0,0,1,1,2,2]`, reference formatter, full precision. -/
theorem C8_collection_witness :
    (Layout.XYZ.supported = true ∧ [T.Point pointZ, T.LineString line012] ≠ [] ∧
      List.Forall₂ (fun g s => encode FormatFloat g (-1) = .ret s none)
        [T.Point pointZ, T.LineString line012]
        ["POINT Z (1 2 100)", "LINESTRING (0 0, 1 1, 2 2)"]) ∧
    encode FormatFloat (.GeometryCollection .XYZ [T.Point pointZ, T.LineString line012] 0) (-1) =
      .ret "GEOMETRYCOLLECTION Z (POINT Z (1 2 100), LINESTRING (0 0, 1 1, 2 2))" none :=
  ⟨⟨by decide, by simp, .cons (by rfl) (.cons (by rfl) .nil)⟩,
    (C8_collection FormatFloat .XYZ [T.Point pointZ, T.LineString line012] 0 (-1) (by decide)
      (by simp)).1 ["POINT Z (1 2 100)", "LINESTRING (0 0, 1 1, 2 2)"]
      (.cons (by rfl) (.cons (by rfl) .nil))⟩

/-- C9 (the code at the failing input): with `maxDecimalDigits = 0` the fixed-point
rendering of the coordinate 100 is `"100"`, it has no decimal point, and the two
`TrimRight` calls of `writeCoord` cut it down to `"1"`; the coordinate 0 is cut
down to the empty text, so that the point (100, 0) is encoded as `"POINT (1 )"`.
With three digits the same code gives `1.200 -> 1.2`, `1.000 -> 1` and keeps
`100`. -/
theorem C9_integer_zeros_trimmed :
    FormatFloat f100 0 = "100" ∧
    TrimRight (TrimRight "100" "0") "." = "1" ∧
    coordStr FormatFloat f100 0 = "1" ∧
    coordStr FormatFloat f0 0 = "" ∧
    writeCoord FormatFloat "" (Slice.ofList [f100]) 0 = ("1", .nil) ∧
    MarshalWithMaxDecimalDigits FormatFloat (.Point point100) 0 = .ret "POINT (1 )" none ∧
    (FormatFloat f1_2 3 = "1.200" ∧ coordStr FormatFloat f1_2 3 = "1.2") ∧
    (FormatFloat f1 3 = "1.000" ∧ coordStr FormatFloat f1 3 = "1") ∧
    (FormatFloat f100 3 = "100.000" ∧ coordStr FormatFloat f100 3 = "100") := by
  refine ⟨by rfl, by rfl, by rfl, by rfl, by rfl, by rfl, ⟨by rfl, by rfl⟩, ⟨by rfl, by rfl⟩,
    ⟨by rfl, by rfl⟩⟩

theorem fracLen_append_le (l t : List Char) : fracLen l ≤ fracLen (l ++ t) := by
  induction l with
  | nil => simp [fracLen]
  | cons c cs ih =>
    simp only [List.cons_append, fracLen]
    split
    · simp
    · exact ih

theorem rdropWhile_split (p : Char → Bool) (l : List Char) :
    ∃ r, l = l.rdropWhile p ++ r ∧ ∀ c ∈ r, p c = true := by
  refine ⟨(l.reverse.takeWhile p).reverse, ?_, ?_⟩
  · have h := List.takeWhile_append_dropWhile p l.reverse
    have h2 := congrArg List.reverse h
    rw [List.reverse_append, List.reverse_reverse] at h2
    exact h2.symm
  · intro c hc
    exact List.mem_takeWhile_imp (List.mem_reverse.mp hc)

theorem getLast?_rdropWhile (p : Char → Bool) (l : List Char) (c : Char)
    (h : (l.rdropWhile p).getLast? = some c) : p c = false := by
  have hne : l.rdropWhile p ≠ [] := by
    intro h0; rw [h0] at h; simp at h
  have := List.rdropWhile_last_not p l hne
  rw [List.getLast?_eq_getLast _ hne] at h
  injection h with h
  rw [h] at this
  simpa using this

theorem trimmed_token (n : Nat) (s : String) (hs : FixedShape n s) :
    TokenOK n (TrimRight (TrimRight s "0") ".") := by
  obtain ⟨hcount, hfrac⟩ := hs
  set p0 : Char → Bool := fun c => ("0" : String).data.contains c with hp0
  set p1 : Char → Bool := fun c => ("." : String).data.contains c with hp1
  have hp0c : ∀ c, p0 c = true ↔ c = '0' := by intro c; simp [hp0]
  have hp1c : ∀ c, p1 c = true ↔ c = '.' := by intro c; simp [hp1]
  show TokenOK n ⟨(s.data.rdropWhile p0).rdropWhile p1⟩
  obtain ⟨r0, h0, hr0⟩ := rdropWhile_split p0 s.data
  obtain ⟨r1, h1, hr1⟩ := rdropWhile_split p1 (s.data.rdropWhile p0)
  set s1 := s.data.rdropWhile p0 with hs1
  set s2 := s1.rdropWhile p1 with hs2
  refine ⟨?_, ?_, ?_⟩
  · show fracLen s2 ≤ n
    calc fracLen s2 ≤ fracLen (s2 ++ r1) := fracLen_append_le _ _
      _ = fracLen s1 := by rw [← h1]
      _ ≤ fracLen (s1 ++ r0) := fracLen_append_le _ _
      _ = fracLen s.data := by rw [← h0]
      _ ≤ n := hfrac
  · show s2.getLast? ≠ some '.'
    intro h
    have := getLast?_rdropWhile p1 s1 '.' h
    have h' := (hp1c '.').mpr rfl
    rw [this] at h'
    exact absurd h' (by simp)
  · show '.' ∈ s2 → s2.getLast? ≠ some '0'
    intro hmem hlast
    cases r1 with
    | nil =>
      rw [List.append_nil] at h1
      rw [← h1] at hlast
      have := getLast?_rdropWhile p0 s.data '0' hlast
      have h' := (hp0c '0').mpr rfl
      rw [this] at h'
      exact absurd h' (by simp)
    | cons c r1' =>
      have hc : c = '.' := (hp1c c).mp (hr1 c (List.mem_cons_self _ _))
      have hcnt2 : 1 ≤ s2.count '.' := List.count_pos_iff.mpr hmem
      have hcnt : 2 ≤ s.data.count '.' := by
        rw [h0, h1, hc]
        simp only [List.count_append, List.count_cons_self]
        omega
      omega

theorem coordStr_token (fmt : Formatter) (x : Float64) (n : Nat)
    (hs : FixedShape n (fmt x n)) : TokenOK n (coordStr fmt x n) := by
  unfold coordStr
  have hn : (n : Int) ≠ -1 := by omega
  simp only [hn, ne_eq, not_false_eq_true, if_true]
  exact trimmed_token n _ hs

theorem assembled_lit (tok : String → Prop) (s t : String) (hs : Assembled tok s)
    (ht : t ∈ literals) : Assembled tok (s ++ t) := Assembled.lit s t hs ht

theorem reslice_mem (s c : Slice) (lo hi : Int) (h : s.reslice lo hi = some c) :
    ∀ x ∈ c.arr, x ∈ s.arr := by
  unfold Slice.reslice at h
  split at h
  · injection h with h
    subst h
    intro x hx
    exact List.mem_of_mem_drop hx
  · cases h

theorem writeCoordLoop_assembled (tok : String → Prop) (fmt : Formatter) (n : Int)
    (xs : List Float64) (htok : ∀ x ∈ xs, tok (coordStr fmt x n)) :
    ∀ (sb : Builder) (i : Nat), Assembled tok sb →
      Assembled tok (writeCoordLoop fmt n sb i xs) := by
  induction xs with
  | nil => intro sb i h; exact h
  | cons x rest ih =>
    intro sb i h
    simp only [writeCoordLoop]
    apply ih (fun y hy => htok y (List.mem_cons_of_mem _ hy))
    apply Assembled.coord _ _ _ (htok x (List.mem_cons_self _ _))
    split
    · exact assembled_lit tok _ _ h (by simp [literals])
    · exact h

theorem writeCoord_assembled (tok : String → Prop) (fmt : Formatter) (n : Int) (c : Slice)
    (htok : ∀ x ∈ c.arr, tok (coordStr fmt x n)) (sb : Builder) (h : Assembled tok sb) :
    Assembled tok (writeCoord fmt sb c n).1 ∧ (writeCoord fmt sb c n).2 = .nil := by
  simp only [writeCoord, and_true]
  exact writeCoordLoop_assembled tok fmt n _
    (fun x hx => htok x (List.mem_of_mem_take hx)) _ _ h

theorem writeFlatCoords0_assembled (tok : String → Prop) (fmt : Formatter) (n k : Int)
    (s : Slice) (htok : ∀ x ∈ s.arr, tok (coordStr fmt x n)) (sb : Builder)
    (h : Assembled tok sb) : Assembled tok (writeFlatCoords0 fmt sb s k n).1 := by
  unfold writeFlatCoords0
  have hopen := assembled_lit tok sb "(" h (by simp [literals])
  cases hr : s.reslice 0 k with
  | none => exact hopen
  | some c =>
    simp only []
    obtain ⟨h1, h2⟩ := writeCoord_assembled tok fmt n c
      (fun x hx => htok x (reslice_mem s c _ _ hr x hx)) _ hopen
    rcases hw : writeCoord fmt (sb ++ "(") c n with ⟨t, o⟩
    rw [hw] at h1 h2
    simp only at h2
    subst h2
    exact assembled_lit tok _ _ h1 (by simp [literals])

theorem writeFlatCoords1Loop_assembled (tok : String → Prop) (fmt : Formatter) (n k : Int)
    (s : Slice) (htok : ∀ x ∈ s.arr, tok (coordStr fmt x n)) (fuel : Nat) :
    ∀ (sb : Builder) (i : Int), Assembled tok sb →
      Assembled tok (writeFlatCoords1Loop fmt s k n fuel sb i).1 := by
  induction fuel with
  | zero =>
    intro sb i h
    simp only [writeFlatCoords1Loop]
    split <;> exact h
  | succ fuel ih =>
    intro sb i h
    simp only [writeFlatCoords1Loop]
    split
    · have hsep : Assembled tok (if i ≠ 0 then sb ++ ", " else sb) := by
        split
        · exact assembled_lit tok _ _ h (by simp [literals])
        · exact h
      cases hr : s.reslice i (i + k) with
      | none => exact hsep
      | some c =>
        simp only []
        obtain ⟨h1, h2⟩ := writeCoord_assembled tok fmt n c
          (fun x hx => htok x (reslice_mem s c _ _ hr x hx)) _ hsep
        rcases hw : writeCoord fmt (if i ≠ 0 then sb ++ ", " else sb) c n with ⟨t, o⟩
        rw [hw] at h1 h2
        simp only at h2
        subst h2
        exact ih _ _ h1
    · exact h

theorem writeFlatCoords1_assembled (tok : String → Prop) (fmt : Formatter) (n k : Int)
    (s : Slice) (htok : ∀ x ∈ s.arr, tok (coordStr fmt x n)) (sb : Builder)
    (h : Assembled tok sb) : Assembled tok (writeFlatCoords1 fmt sb s k n).1 := by
  unfold writeFlatCoords1
  simp only []
  have h1 := writeFlatCoords1Loop_assembled tok fmt n k s htok s.len (sb ++ "(") 0
    (assembled_lit tok sb "(" h (by simp [literals]))
  rcases hw : writeFlatCoords1Loop fmt s k n s.len (sb ++ "(") 0 with ⟨t, o⟩
  rw [hw] at h1
  cases o
  · exact assembled_lit tok _ _ h1 (by simp [literals])
  all_goals exact h1

theorem writeFlatCoords2Loop_assembled (tok : String → Prop) (fmt : Formatter) (n k : Int)
    (s : Slice) (htok : ∀ x ∈ s.arr, tok (coordStr fmt x n)) (ends : List Int) :
    ∀ (sb : Builder) (i : Nat) (start : Int), Assembled tok sb →
      Assembled tok (writeFlatCoords2Loop fmt s k n sb i start ends).1 := by
  induction ends with
  | nil => intro sb i start h; exact h
  | cons e rest ih =>
    intro sb i start h
    simp only [writeFlatCoords2Loop]
    have hsep : Assembled tok (if i ≠ 0 then sb ++ ", " else sb) := by
      split
      · exact assembled_lit tok _ _ h (by simp [literals])
      · exact h
    cases hr : s.reslice start e with
    | none => exact hsep
    | some c =>
      simp only []
      have h1 := writeFlatCoords1_assembled tok fmt n k c
        (fun x hx => htok x (reslice_mem s c _ _ hr x hx)) _ hsep
      rcases hw : writeFlatCoords1 fmt (if i ≠ 0 then sb ++ ", " else sb) c k n with ⟨t, o⟩
      rw [hw] at h1
      cases o
      · exact ih _ _ _ h1
      all_goals exact h1

theorem writeFlatCoords2_assembled (tok : String → Prop) (fmt : Formatter) (n k : Int)
    (s : Slice) (htok : ∀ x ∈ s.arr, tok (coordStr fmt x n)) (start : Int) (ends : List Int)
    (sb : Builder) (h : Assembled tok sb) :
    Assembled tok (writeFlatCoords2 fmt sb s start ends k n).1 := by
  unfold writeFlatCoords2
  simp only []
  have h1 := writeFlatCoords2Loop_assembled tok fmt n k s htok ends (sb ++ "(") 0 start
    (assembled_lit tok sb "(" h (by simp [literals]))
  rcases hw : writeFlatCoords2Loop fmt s k n (sb ++ "(") 0 start ends with ⟨t, o⟩
  rw [hw] at h1
  cases o
  · exact assembled_lit tok _ _ h1 (by simp [literals])
  all_goals exact h1

theorem writeFlatCoords3Loop_assembled (tok : String → Prop) (fmt : Formatter) (n k : Int)
    (s : Slice) (htok : ∀ x ∈ s.arr, tok (coordStr fmt x n)) (endss : List (List Int)) :
    ∀ (sb : Builder) (i : Nat) (start : Int), Assembled tok sb →
      Assembled tok (writeFlatCoords3Loop fmt s k n sb i start endss).1 := by
  induction endss with
  | nil => intro sb i start h; exact h
  | cons ends rest ih =>
    intro sb i start h
    simp only [writeFlatCoords3Loop]
    have hsep : Assembled tok (if i ≠ 0 then sb ++ ", " else sb) := by
      split
      · exact assembled_lit tok _ _ h (by simp [literals])
      · exact h
    have h1 := writeFlatCoords2_assembled tok fmt n k s htok start ends _ hsep
    rcases hw : writeFlatCoords2 fmt (if i ≠ 0 then sb ++ ", " else sb) s start ends k n
      with ⟨t, o⟩
    rw [hw] at h1
    cases o
    · simp only []
      cases ends.getLast? with
      | none => exact h1
      | some last => exact ih _ _ _ h1
    all_goals exact h1

theorem writeFlatCoords3_assembled (tok : String → Prop) (fmt : Formatter) (n k : Int)
    (s : Slice) (htok : ∀ x ∈ s.arr, tok (coordStr fmt x n)) (endss : List (List Int))
    (sb : Builder) (h : Assembled tok sb) :
    Assembled tok (writeFlatCoords3 fmt sb s endss k n).1 := by
  unfold writeFlatCoords3
  simp only []
  have h1 := writeFlatCoords3Loop_assembled tok fmt n k s htok endss (sb ++ "(") 0 0
    (assembled_lit tok sb "(" h (by simp [literals]))
  rcases hw : writeFlatCoords3Loop fmt s k n (sb ++ "(") 0 0 endss with ⟨t, o⟩
  rw [hw] at h1
  cases o
  · exact assembled_lit tok _ _ h1 (by simp [literals])
  all_goals exact h1

theorem layoutSwitch_ok_cases (g : T) (kw h : String) (hsw : layoutSwitch g kw = .ok h) :
    h = kw ∨ h = kw ++ tZ ∨ h = kw ++ tM ∨ h = kw ++ tZm := by
  unfold layoutSwitch at hsw
  split at hsw
  · split at hsw
    · split at hsw
      · cases hsw
      · injection hsw with hsw; exact Or.inl hsw.symm
    · cases hsw
  · injection hsw with hsw; exact Or.inl hsw.symm
  · injection hsw with hsw; exact Or.inr (Or.inl hsw.symm)
  · injection hsw with hsw; exact Or.inr (Or.inr (Or.inl hsw.symm))
  · injection hsw with hsw; exact Or.inr (Or.inr (Or.inr hsw.symm))
  · cases hsw

theorem header_assembled (tok : String → Prop) (g : T) (kw h : String)
    (hk : typeKeyword g = some kw) (hsw : layoutSwitch g kw = .ok h) (sb : Builder)
    (hsb : Assembled tok sb) : Assembled tok (sb ++ h) := by
  have hkw : kw ∈ literals := by
    cases g <;> simp only [typeKeyword, Option.some.injEq, reduceCtorEq] at hk <;> subst hk <;>
      simp [literals]
  have h1 := assembled_lit tok sb kw hsb hkw
  rcases layoutSwitch_ok_cases g kw h hsw with rfl | rfl | rfl | rfl
  · exact h1
  · rw [← String.append_assoc]; exact assembled_lit tok _ _ h1 (by simp [literals])
  · rw [← String.append_assoc]; exact assembled_lit tok _ _ h1 (by simp [literals])
  · rw [← String.append_assoc]; exact assembled_lit tok _ _ h1 (by simp [literals])

mutual
theorem write_assembled (tok : String → Prop) (fmt : Formatter) (n : Int) (g : T)
    (htok : ∀ x ∈ coordsOf g, tok (coordStr fmt x n)) (sb : Builder)
    (hsb : Assembled tok sb) : Assembled tok (write fmt sb g n).1 := by
  have hE : ∀ s, Assembled tok s → Assembled tok (writeEMPTY s).1 := fun s hs =>
    assembled_lit tok s tEmpty hs (by simp [literals])
  cases g with
  | other l e => simpa [write, typeKeyword] using hsb
  | Point p =>
    rw [write]
    simp only [typeKeyword]
    cases hsw : layoutSwitch (T.Point p) tPoint with
    | error e => exact hsb
    | ok h =>
      have hh := header_assembled tok (T.Point p) tPoint h rfl hsw sb hsb
      simp only []
      rcases Point.Empty p with _ | _ | _
      · exact hh
      · exact writeFlatCoords0_assembled tok fmt n _ _ htok _ hh
      · exact hE _ hh
  | LineString p =>
    rw [write]
    simp only [typeKeyword]
    cases hsw : layoutSwitch (T.LineString p) tLineString with
    | error e => exact hsb
    | ok h =>
      have hh := header_assembled tok (T.LineString p) tLineString h rfl hsw sb hsb
      simp only []
      split
      · exact hE _ hh
      · exact writeFlatCoords1_assembled tok fmt n _ _ htok _ hh
  | LinearRing p =>
    rw [write]
    simp only [typeKeyword]
    cases hsw : layoutSwitch (T.LinearRing p) tLineString with
    | error e => exact hsb
    | ok h =>
      have hh := header_assembled tok (T.LinearRing p) tLineString h rfl hsw sb hsb
      simp only []
      split
      · exact hE _ hh
      · exact writeFlatCoords1_assembled tok fmt n _ _ htok _ hh
  | MultiPoint p =>
    rw [write]
    simp only [typeKeyword]
    cases hsw : layoutSwitch (T.MultiPoint p) tMultiPoint with
    | error e => exact hsb
    | ok h =>
      have hh := header_assembled tok (T.MultiPoint p) tMultiPoint h rfl hsw sb hsb
      simp only []
      split
      · exact hE _ hh
      · exact writeFlatCoords1_assembled tok fmt n _ _ htok _ hh
  | Polygon p =>
    rw [write]
    simp only [typeKeyword]
    cases hsw : layoutSwitch (T.Polygon p) tPolygon with
    | error e => exact hsb
    | ok h =>
      have hh := header_assembled tok (T.Polygon p) tPolygon h rfl hsw sb hsb
      simp only []
      split
      · exact hE _ hh
      · exact writeFlatCoords2_assembled tok fmt n _ _ htok _ _ _ hh
  | MultiLineString p =>
    rw [write]
    simp only [typeKeyword]
    cases hsw : layoutSwitch (T.MultiLineString p) tMultiLineString with
    | error e => exact hsb
    | ok h =>
      have hh := header_assembled tok (T.MultiLineString p) tMultiLineString h rfl hsw sb hsb
      simp only []
      split
      · exact hE _ hh
      · exact writeFlatCoords2_assembled tok fmt n _ _ htok _ _ _ hh
  | MultiPolygon p =>
    rw [write]
    simp only [typeKeyword]
    cases hsw : layoutSwitch (T.MultiPolygon p) tMultiPolygon with
    | error e => exact hsb
    | ok h =>
      have hh := header_assembled tok (T.MultiPolygon p) tMultiPolygon h rfl hsw sb hsb
      simp only []
      split
      · exact hE _ hh
      · exact writeFlatCoords3_assembled tok fmt n _ _ htok _ _ hh
  | GeometryCollection l geoms srid =>
    rw [write]
    simp only [typeKeyword]
    cases hsw : layoutSwitch (T.GeometryCollection l geoms srid) tGeometryCollection with
    | error e => exact hsb
    | ok h =>
      have hh := header_assembled tok (T.GeometryCollection l geoms srid) tGeometryCollection h rfl hsw sb hsb
      simp only []
      split
      · exact hE _ hh
      · have h1 := writeGeoms_assembled tok fmt n geoms htok (sb ++ h ++ "(") 0
          (assembled_lit tok _ _ hh (by simp [literals]))
        rcases hw : writeGeoms fmt (sb ++ h ++ "(") 0 geoms n with ⟨t, o⟩
        rw [hw] at h1
        cases o
        · exact assembled_lit tok _ _ h1 (by simp [literals])
        all_goals exact h1
theorem writeGeoms_assembled (tok : String → Prop) (fmt : Formatter) (n : Int)
    (geoms : List T) (htok : ∀ x ∈ coordsOfAll geoms, tok (coordStr fmt x n)) (sb : Builder)
    (i : Nat) (hsb : Assembled tok sb) : Assembled tok (writeGeoms fmt sb i geoms n).1 := by
  cases geoms with
  | nil => simpa [writeGeoms] using hsb
  | cons g rest =>
    rw [writeGeoms]
    have hsep : Assembled tok (if i ≠ 0 then sb ++ ", " else sb) := by
      split
      · exact assembled_lit tok _ _ hsb (by simp [literals])
      · exact hsb
    have h1 := write_assembled tok fmt n g
      (fun x hx => htok x (by simp only [coordsOfAll]; exact List.mem_append_left _ hx)) _ hsep
    rcases hw : write fmt (if i ≠ 0 then sb ++ ", " else sb) g n with ⟨t, o⟩
    rw [hw] at h1
    cases o
    · exact writeGeoms_assembled tok fmt n rest
        (fun x hx => htok x (by simp only [coordsOfAll]; exact List.mem_append_right _ hx))
        _ _ h1
    all_goals exact h1
end

/-- C13: when `Marshal` or `MarshalWithMaxDecimalDigits` returns an error, the text it
returns is empty; so it is for the collection whose second member is of an
unsupported kind, although the builder then already holds the header and the
first member. -/
theorem C13_no_partial_text :
    (∀ (fmt : Formatter) (g : T) (n : Int) (s : String) (e : GeomError),
      MarshalWithMaxDecimalDigits fmt g n = .ret s (some e) → s = "") ∧
    (∀ (fmt : Formatter) (g : T) (s : String) (e : GeomError),
      Marshal fmt g = .ret s (some e) → s = "") ∧
    write FormatFloat "" collectionBad (-1) =
      ("GEOMETRYCOLLECTION (POINT Z (1 2 100), ",
        .err (.ErrUnsupportedType (.other .XY false))) ∧
    Marshal FormatFloat collectionBad =
      .ret "" (some (.ErrUnsupportedType (.other .XY false))) := by
  have key : ∀ (fmt : Formatter) (g : T) (n : Int) (s : String) (e : GeomError),
      encode fmt g n = .ret s (some e) → s = "" := by
    intro fmt g n s e h
    unfold encode at h
    rcases hw : write fmt "" g n with ⟨t, o⟩
    rw [hw] at h
    cases o <;> simp at h
    exact h.1.symm
  exact ⟨fun fmt g n s e h => key fmt g n s e h, fun fmt g s e h => key fmt g _ s e h,
    by rfl, by rfl⟩

/-- Instance of C13 at the collection whose second member is of an unsupported
kind, reference formatter, two decimal digits. -/
theorem C13_no_partial_text_witness :
    MarshalWithMaxDecimalDigits FormatFloat collectionBad 2 =
      .ret "" (some (.ErrUnsupportedType (.other .XY false))) ∧ ("" : String) = "" :=
  ⟨by rfl, C13_no_partial_text.1 FormatFloat collectionBad 2 ""
    (.ErrUnsupportedType (.other .XY false)) (by rfl)⟩

theorem write_LinearRing_eq (fmt : Formatter) (sb : Builder) (r s : geom0) (n : Int)
    (hl : r.layout = s.layout) (hf : r.flatCoords = s.flatCoords) :
    write fmt sb (.LinearRing r) n = write fmt sb (.LineString s) n := by
  have hsw : layoutSwitch (.LinearRing r) tLineString =
      layoutSwitch (.LineString s) tLineString := by
    unfold layoutSwitch
    simp only [T.Layout, hl]
  have hE : r.Empty = s.Empty := by simp [geom0.Empty, hf]
  rw [write, write]
  simp only [typeKeyword, hsw, T.Layout, hl, hf, hE]

/-- C14: a LinearRing and a LineString with the same layout and the same flat
coordinates give the same result of `encode` (the same text or the same error),
for every `maxDecimalDigits`. -/
theorem C14_linear_ring (fmt : Formatter) (r s : geom0) (n : Int)
    (hl : r.layout = s.layout) (hf : r.flatCoords = s.flatCoords) :
    encode fmt (.LinearRing r) n = encode fmt (.LineString s) n := by
  unfold encode
  rw [write_LinearRing_eq fmt "" r s n hl hf]

/-- Instance of C14 at the ring and the line `[0,0,1,1,2,2]`, the ring carrying
another SRID. -/
theorem C14_linear_ring_witness :
    (({ line012 with srid := 4326 } : geom0).layout = line012.layout ∧
      ({ line012 with srid := 4326 } : geom0).flatCoords = line012.flatCoords) ∧
    encode FormatFloat (.LinearRing { line012 with srid := 4326 }) (-1) =
      encode FormatFloat (.LineString line012) (-1) :=
  ⟨⟨rfl, rfl⟩, C14_linear_ring FormatFloat { line012 with srid := 4326 } line012 (-1) rfl rfl⟩

theorem write_Point_congr (fmt : Formatter) (sb : Builder) (p q : Point) (n : Int)
    (hl : p.layout = q.layout) (hs : p.stride = q.stride)
    (hf : p.flatCoords = q.flatCoords) :
    write fmt sb (.Point p) n = write fmt sb (.Point q) n := by
  have hsw : layoutSwitch (.Point p) tPoint = layoutSwitch (.Point q) tPoint := by
    unfold layoutSwitch
    simp only [T.Layout, hl]
  have hE : Point.Empty p = Point.Empty q := by simp [Point.Empty, hf, hs]
  rw [write, write]
  simp only [typeKeyword, hsw, T.Layout, hl, hf, hE]

/-- C17: `SetSRID(s)` changes only the SRID of a Point: layout, stride and flat
coordinates are unchanged, `Empty()` is unchanged, and `encode` returns the same
result as before, for every `maxDecimalDigits`. -/
theorem C17_srid_opaque (fmt : Formatter) (p : Point) (s n : Int) :
    (Point.SetSRID p s).srid = s ∧
    (Point.SetSRID p s).layout = p.layout ∧
    (Point.SetSRID p s).stride = p.stride ∧
    (Point.SetSRID p s).flatCoords = p.flatCoords ∧
    Point.Empty (Point.SetSRID p s) = Point.Empty p ∧
    encode fmt (.Point (Point.SetSRID p s)) n = encode fmt (.Point p) n := by
  refine ⟨rfl, rfl, rfl, rfl, rfl, ?_⟩
  unfold encode
  rw [write_Point_congr fmt "" (Point.SetSRID p s) p n rfl rfl rfl]

/-- C16: for a Point whose layout is XY, XYZ, XYM or XYZM and whose flat buffer has
`stride(layout)` slots, `X()` and `Y()` return `flatCoords[0]` and `flatCoords[1]`;
`Z()` returns `flatCoords[2]` for XYZ and XYZM and 0 for XY and XYM; `M()` returns
`flatCoords[2]` for XYM, `flatCoords[3]` for XYZM and 0 for XY and XYZ. None of
the calls panics. -/
theorem C16_accessors (p : Point) (hl : p.layout.supported = true)
    (hlen : (p.flatCoords.length : Int) = p.layout.Stride) :
    (∃ x, Point.X p = some x ∧ p.flatCoords.get? 0 = some x) ∧
    (∃ y, Point.Y p = some y ∧ p.flatCoords.get? 1 = some y) ∧
    ((p.layout = .XYZ ∨ p.layout = .XYZM) →
      ∃ z, Point.Z p = some z ∧ p.flatCoords.get? 2 = some z) ∧
    ((p.layout = .XY ∨ p.layout = .XYM) → Point.Z p = some zeroFloat64) ∧
    (p.layout = .XYM → ∃ m, Point.M p = some m ∧ p.flatCoords.get? 2 = some m) ∧
    (p.layout = .XYZM → ∃ m, Point.M p = some m ∧ p.flatCoords.get? 3 = some m) ∧
    ((p.layout = .XY ∨ p.layout = .XYZ) → Point.M p = some zeroFloat64) := by
  obtain ⟨l, st, flat, srid⟩ := p
  simp only at hl hlen ⊢
  cases l <;> simp [Layout.supported] at hl <;> simp only [Layout.Stride] at hlen
  · -- XY
    obtain ⟨a, b, rfl⟩ : ∃ a b, flat = [a, b] := List.length_eq_two.mp (by exact_mod_cast hlen)
    simp [Point.X, Point.Y, Point.Z, Point.M, index, Layout.ZIndex, Layout.MIndex]
  · -- XYZ
    obtain ⟨a, b, c, rfl⟩ : ∃ a b c, flat = [a, b, c] :=
      List.length_eq_three.mp (by exact_mod_cast hlen)
    simp [Point.X, Point.Y, Point.Z, Point.M, index, Layout.ZIndex, Layout.MIndex]
  · -- XYM
    obtain ⟨a, b, c, rfl⟩ : ∃ a b c, flat = [a, b, c] :=
      List.length_eq_three.mp (by exact_mod_cast hlen)
    simp [Point.X, Point.Y, Point.Z, Point.M, index, Layout.ZIndex, Layout.MIndex]
  · -- XYZM
    have h4 : flat.length = 4 := by exact_mod_cast hlen
    match flat, h4 with
    | [a, b, c, d], _ =>
      simp [Point.X, Point.Y, Point.Z, Point.M, index, Layout.ZIndex, Layout.MIndex]

/-- Instance of C16 at the 3D point (1, 2, 100). -/
theorem C16_accessors_witness :
    (pointZ.layout.supported = true ∧ (pointZ.flatCoords.length : Int) = pointZ.layout.Stride) ∧
    Point.X pointZ = some f1 ∧ Point.Y pointZ = some f2 ∧ Point.Z pointZ = some f100 ∧
    Point.M pointZ = some zeroFloat64 ∧
    ∃ x, Point.X pointZ = some x ∧ pointZ.flatCoords.get? 0 = some x :=
  ⟨⟨by decide, by decide⟩, by decide, by decide, by decide, by decide,
    (C16_accessors pointZ (by decide) (by decide)).1⟩

theorem emptyLoop_eq (flat : List Float64) (k : Nat) :
    ∀ i, i + k ≤ flat.length →
      Point.EmptyLoop flat k i = some (decide (∀ x ∈ (flat.drop i).take k, IsNaN x = true)) := by
  induction k with
  | zero => intro i _; simp [Point.EmptyLoop]
  | succ k ih =>
    intro i hi
    have hlt : i < flat.length := by omega
    have hd : flat.drop i = flat[i] :: flat.drop (i + 1) := List.drop_eq_getElem_cons hlt
    simp only [Point.EmptyLoop, List.get?_eq_getElem?, List.getElem?_eq_getElem hlt, hd,
      List.take_succ_cons, List.forall_mem_cons]
    rw [ih (i + 1) (by omega)]
    cases h : IsNaN flat[i] <;> simp

theorem point_empty_eq (p : Point) (hlen : p.stride ≤ (p.flatCoords.length : Int)) :
    Point.Empty p =
      some (decide (∀ x ∈ p.flatCoords.take p.stride.toNat, IsNaN x = true)) := by
  unfold Point.Empty
  rw [emptyLoop_eq p.flatCoords p.stride.toNat 0 (by omega)]
  simp

/-- C18: for a Point whose stride is the stride of its layout and at least 1, with a
flat buffer of at least that many slots, `Empty()` is true exactly when every
one of the first stride slots is NaN under `math.IsNaN`. Hence, with a layout
among XY, XYZ, XYM, XYZM and a slot among the first stride ones that is not NaN,
the Point is not empty and `encode` writes the parenthesised tuple of its first
stride values and not `EMPTY`; and `NewPoint(l)` is not empty. -/
theorem C18_point_empty :
    (∀ (p : Point), p.stride = p.layout.Stride → 1 ≤ p.layout.Stride →
      p.layout.Stride ≤ (p.flatCoords.length : Int) →
      (Point.Empty p = some true ∨ Point.Empty p = some false) ∧
      (Point.Empty p = some true ↔
        ∀ x ∈ p.flatCoords.take p.layout.Stride.toNat, IsNaN x = true)) ∧
    (∀ (fmt : Formatter) (p : Point) (n : Int), p.stride = p.layout.Stride →
      p.layout.supported = true → p.layout.Stride ≤ (p.flatCoords.length : Int) →
      (∃ x ∈ p.flatCoords.take p.layout.Stride.toNat, IsNaN x = false) →
      Point.Empty p = some false ∧
      encode fmt (.Point p) n = .ret (specHeader (.Point p) ++ "(" ++
        String.intercalate " " ((p.flatCoords.take p.layout.Stride.toNat).map
          (fun x => coordStr fmt x n)) ++ ")") none) ∧
    (∀ (l : Layout), l.supported = true → Point.Empty (NewPoint l) = some false) := by
  refine ⟨?_, ?_, ?_⟩
  · intro p hs _ hlen
    rw [point_empty_eq p (by rw [hs]; exact hlen), hs]
    constructor
    · cases hd : decide (∀ x ∈ p.flatCoords.take p.layout.Stride.toNat, IsNaN x = true)
      · exact Or.inr rfl
      · exact Or.inl rfl
    · simp
  · intro fmt p n hs hl hlen ⟨x, hx, hnan⟩
    have hE : Point.Empty p = some false := by
      rw [point_empty_eq p (by rw [hs]; exact hlen), hs]
      simp only [Option.some.injEq, decide_eq_false_iff_not]
      intro hall
      rw [hall x hx] at hnan
      exact absurd hnan (by simp)
    refine ⟨hE, ?_⟩
    apply encode_of_write
    obtain ⟨hk, hk2⟩ := stride_pos p.layout hl
    rw [write_Point fmt "" p n hl, hE]
    simp only []
    rw [writeFlatCoords0_eq]
    have hres : (Slice.ofList p.flatCoords).reslice 0 p.layout.Stride =
        some ⟨p.flatCoords, p.layout.Stride.toNat⟩ := by
      have := reslice_ok (Slice.ofList p.flatCoords) 0 p.layout.Stride.toNat 0 p.layout.Stride
        rfl (by rw [Nat.zero_add]; exact hk2) (by simp only [Slice.ofList]; omega)
      simpa [Slice.ofList] using this
    rw [hres]
    simp [Slice.elems, tupleText, String.append_assoc]
  · intro l hl
    cases l <;> simp [Layout.supported] at hl <;> decide

/-- Instance of C18 at the 3D point (1, 2, 100), reference formatter, full
precision. -/
theorem C18_point_empty_witness :
    (pointZ.stride = pointZ.layout.Stride ∧ pointZ.layout.supported = true ∧
      pointZ.layout.Stride ≤ (pointZ.flatCoords.length : Int) ∧
      ∃ x ∈ pointZ.flatCoords.take pointZ.layout.Stride.toNat, IsNaN x = false) ∧
    Point.Empty pointZ = some false ∧
    encode FormatFloat (.Point pointZ) (-1) = .ret "POINT Z (1 2 100)" none :=
  ⟨⟨by decide, by decide, by decide, by decide⟩,
    C18_point_empty.2.1 FormatFloat pointZ (-1) (by decide) (by decide) (by decide)
      (by decide)⟩

theorem writeFlatCoords0_no_err (fmt : Formatter) (sb : Builder) (s : Slice) (k n : Int)
    (e : GeomError) : (writeFlatCoords0 fmt sb s k n).2 ≠ .err e := by
  rw [writeFlatCoords0_eq]
  cases s.reslice 0 k <;> simp

theorem writeFlatCoords1Loop_no_err (fmt : Formatter) (s : Slice) (k n : Int) (e : GeomError)
    (fuel : Nat) : ∀ (sb : Builder) (i : Int),
      (writeFlatCoords1Loop fmt s k n fuel sb i).2 ≠ .err e := by
  induction fuel with
  | zero =>
    intro sb i
    simp only [writeFlatCoords1Loop]
    split <;> simp
  | succ fuel ih =>
    intro sb i
    simp only [writeFlatCoords1Loop]
    split
    · cases s.reslice i (i + k) with
      | none => simp
      | some c =>
        simp only [writeCoord_eq]
        exact ih _ _
    · simp

theorem writeFlatCoords1_no_err (fmt : Formatter) (sb : Builder) (s : Slice) (k n : Int)
    (e : GeomError) : (writeFlatCoords1 fmt sb s k n).2 ≠ .err e := by
  unfold writeFlatCoords1
  simp only []
  have h := writeFlatCoords1Loop_no_err fmt s k n e s.len (sb ++ "(") 0
  rcases hw : writeFlatCoords1Loop fmt s k n s.len (sb ++ "(") 0 with ⟨t, o⟩
  rw [hw] at h
  cases o
  · simp
  all_goals exact h

theorem writeFlatCoords2Loop_no_err (fmt : Formatter) (s : Slice) (k n : Int) (e : GeomError)
    (ends : List Int) : ∀ (sb : Builder) (i : Nat) (start : Int),
      (writeFlatCoords2Loop fmt s k n sb i start ends).2 ≠ .err e := by
  induction ends with
  | nil => intro sb i start; simp [writeFlatCoords2Loop]
  | cons x rest ih =>
    intro sb i start
    simp only [writeFlatCoords2Loop]
    cases s.reslice start x with
    | none => simp
    | some c =>
      simp only []
      have h := writeFlatCoords1_no_err fmt (if i ≠ 0 then sb ++ ", " else sb) c k n e
      rcases hw : writeFlatCoords1 fmt (if i ≠ 0 then sb ++ ", " else sb) c k n with ⟨t, o⟩
      rw [hw] at h
      cases o
      · exact ih _ _ _
      all_goals exact h

theorem writeFlatCoords2_no_err (fmt : Formatter) (sb : Builder) (s : Slice) (start : Int)
    (ends : List Int) (k n : Int) (e : GeomError) :
    (writeFlatCoords2 fmt sb s start ends k n).2 ≠ .err e := by
  unfold writeFlatCoords2
  simp only []
  have h := writeFlatCoords2Loop_no_err fmt s k n e ends (sb ++ "(") 0 start
  rcases hw : writeFlatCoords2Loop fmt s k n (sb ++ "(") 0 start ends with ⟨t, o⟩
  rw [hw] at h
  cases o
  · simp
  all_goals exact h

theorem writeFlatCoords3Loop_no_err (fmt : Formatter) (s : Slice) (k n : Int) (e : GeomError)
    (endss : List (List Int)) : ∀ (sb : Builder) (i : Nat) (start : Int),
      (writeFlatCoords3Loop fmt s k n sb i start endss).2 ≠ .err e := by
  induction endss with
  | nil => intro sb i start; simp [writeFlatCoords3Loop]
  | cons ends rest ih =>
    intro sb i start
    simp only [writeFlatCoords3Loop]
    have h := writeFlatCoords2_no_err fmt (if i ≠ 0 then sb ++ ", " else sb) s start ends k n e
    rcases hw : writeFlatCoords2 fmt (if i ≠ 0 then sb ++ ", " else sb) s start ends k n
      with ⟨t, o⟩
    rw [hw] at h
    cases o
    · simp only []
      cases ends.getLast? with
      | none => simp
      | some last => exact ih _ _ _
    all_goals exact h

theorem writeFlatCoords3_no_err (fmt : Formatter) (sb : Builder) (s : Slice)
    (endss : List (List Int)) (k n : Int) (e : GeomError) :
    (writeFlatCoords3 fmt sb s endss k n).2 ≠ .err e := by
  unfold writeFlatCoords3
  simp only []
  have h := writeFlatCoords3Loop_no_err fmt s k n e endss (sb ++ "(") 0 0
  rcases hw : writeFlatCoords3Loop fmt s k n (sb ++ "(") 0 0 endss with ⟨t, o⟩
  rw [hw] at h
  cases o
  · simp
  all_goals exact h

theorem layoutSwitch_error (g : T) (kw : String) (e : GeomError)
    (h : layoutSwitch g kw = .error e) : e = .ErrUnsupportedLayout g.Layout := by
  unfold layoutSwitch at h
  split at h
  · split at h
    · split at h
      · injection h with h; rw [← h]
      · cases h
    · injection h with h; rw [← h]
  · cases h
  · cases h
  · cases h
  · cases h
  · injection h with h; rw [← h]

theorem snd_of_eq {r : Builder × Outcome} {t : Builder} {o : Outcome} (h : r = (t, o)) :
    r.2 = o := by rw [h]

mutual
theorem write_unsupportedType (fmt : Formatter) (n : Int) (g : T) (sb t : Builder) (v : T)
    (h : write fmt sb g n = (t, .err (.ErrUnsupportedType v))) :
    v.supported = false ∧ (v = g ∨ nestedIn v g) := by
  have hE : ∀ s, (writeEMPTY s).2 ≠ .err (.ErrUnsupportedType v) := by
    intro s; simp [writeEMPTY]
  have hL : ∀ (g : T) (kw : String) (e : GeomError), layoutSwitch g kw = .error e →
      e ≠ .ErrUnsupportedType v := by
    intro g kw e hsw he
    rw [layoutSwitch_error g kw e hsw] at he
    cases he
  cases g with
  | other l e =>
    simp only [write, typeKeyword, Prod.mk.injEq, Outcome.err.injEq,
      GeomError.ErrUnsupportedType.injEq] at h
    rw [← h.2]
    exact ⟨rfl, Or.inl rfl⟩
  | Point p =>
    exfalso
    rw [write] at h
    simp only [typeKeyword] at h
    cases hsw : layoutSwitch (T.Point p) tPoint with
    | error e =>
      rw [hsw] at h
      simp only [Prod.mk.injEq, Outcome.err.injEq] at h
      exact hL _ _ e hsw h.2
    | ok hd =>
      rw [hsw] at h
      simp only [] at h
      rcases hp : Point.Empty p with _ | _ | _ <;> rw [hp] at h
      · simp at h
      · exact writeFlatCoords0_no_err _ _ _ _ _ _ (snd_of_eq h)
      · exact hE _ (snd_of_eq h)
  | LineString p =>
    exfalso
    rw [write] at h
    simp only [typeKeyword] at h
    cases hsw : layoutSwitch (T.LineString p) tLineString with
    | error e =>
      rw [hsw] at h
      simp only [Prod.mk.injEq, Outcome.err.injEq] at h
      exact hL _ _ e hsw h.2
    | ok hd =>
      rw [hsw] at h
      simp only [] at h
      split at h
      · exact hE _ (snd_of_eq h)
      · exact writeFlatCoords1_no_err _ _ _ _ _ _ (snd_of_eq h)
  | LinearRing p =>
    exfalso
    rw [write] at h
    simp only [typeKeyword] at h
    cases hsw : layoutSwitch (T.LinearRing p) tLineString with
    | error e =>
      rw [hsw] at h
      simp only [Prod.mk.injEq, Outcome.err.injEq] at h
      exact hL _ _ e hsw h.2
    | ok hd =>
      rw [hsw] at h
      simp only [] at h
      split at h
      · exact hE _ (snd_of_eq h)
      · exact writeFlatCoords1_no_err _ _ _ _ _ _ (snd_of_eq h)
  | MultiPoint p =>
    exfalso
    rw [write] at h
    simp only [typeKeyword] at h
    cases hsw : layoutSwitch (T.MultiPoint p) tMultiPoint with
    | error e =>
      rw [hsw] at h
      simp only [Prod.mk.injEq, Outcome.err.injEq] at h
      exact hL _ _ e hsw h.2
    | ok hd =>
      rw [hsw] at h
      simp only [] at h
      split at h
      · exact hE _ (snd_of_eq h)
      · exact writeFlatCoords1_no_err _ _ _ _ _ _ (snd_of_eq h)
  | Polygon p =>
    exfalso
    rw [write] at h
    simp only [typeKeyword] at h
    cases hsw : layoutSwitch (T.Polygon p) tPolygon with
    | error e =>
      rw [hsw] at h
      simp only [Prod.mk.injEq, Outcome.err.injEq] at h
      exact hL _ _ e hsw h.2
    | ok hd =>
      rw [hsw] at h
      simp only [] at h
      split at h
      · exact hE _ (snd_of_eq h)
      · exact writeFlatCoords2_no_err _ _ _ _ _ _ _ _ (snd_of_eq h)
  | MultiLineString p =>
    exfalso
    rw [write] at h
    simp only [typeKeyword] at h
    cases hsw : layoutSwitch (T.MultiLineString p) tMultiLineString with
    | error e =>
      rw [hsw] at h
      simp only [Prod.mk.injEq, Outcome.err.injEq] at h
      exact hL _ _ e hsw h.2
    | ok hd =>
      rw [hsw] at h
      simp only [] at h
      split at h
      · exact hE _ (snd_of_eq h)
      · exact writeFlatCoords2_no_err _ _ _ _ _ _ _ _ (snd_of_eq h)
  | MultiPolygon p =>
    exfalso
    rw [write] at h
    simp only [typeKeyword] at h
    cases hsw : layoutSwitch (T.MultiPolygon p) tMultiPolygon with
    | error e =>
      rw [hsw] at h
      simp only [Prod.mk.injEq, Outcome.err.injEq] at h
      exact hL _ _ e hsw h.2
    | ok hd =>
      rw [hsw] at h
      simp only [] at h
      split at h
      · exact hE _ (snd_of_eq h)
      · exact writeFlatCoords3_no_err _ _ _ _ _ _ _ (snd_of_eq h)
  | GeometryCollection l geoms srid =>
    rw [write] at h
    simp only [typeKeyword] at h
    cases hsw : layoutSwitch (T.GeometryCollection l geoms srid) tGeometryCollection with
    | error e =>
      exfalso
      rw [hsw] at h
      simp only [Prod.mk.injEq, Outcome.err.injEq] at h
      exact hL _ _ e hsw h.2
    | ok hd =>
      rw [hsw] at h
      simp only [] at h
      split at h
      · exact absurd (snd_of_eq h) (hE _)
      · rcases hw : writeGeoms fmt (sb ++ hd ++ "(") 0 geoms n with ⟨t', o⟩
        rw [hw] at h
        cases o
        · simp at h
        · simp only [Prod.mk.injEq, Outcome.err.injEq] at h
          rw [h.2] at hw
          have := writeGeoms_unsupportedType fmt n geoms _ 0 t' v hw
          exact ⟨this.1, Or.inr (by simp only [nestedIn]; exact this.2)⟩
        · simp at h
        · simp at h
theorem writeGeoms_unsupportedType (fmt : Formatter) (n : Int) (geoms : List T)
    (sb : Builder) (i : Nat) (t : Builder) (v : T)
    (h : writeGeoms fmt sb i geoms n = (t, .err (.ErrUnsupportedType v))) :
    v.supported = false ∧ nestedInAny v geoms := by
  cases geoms with
  | nil => simp [writeGeoms] at h
  | cons g rest =>
    rw [writeGeoms] at h
    rcases hw : write fmt (if i ≠ 0 then sb ++ ", " else sb) g n with ⟨t', o⟩
    rw [hw] at h
    cases o
    · simp only [] at h
      have := writeGeoms_unsupportedType fmt n rest _ _ t v h
      exact ⟨this.1, by simp only [nestedInAny]; exact Or.inr (Or.inr this.2)⟩
    · simp only [Prod.mk.injEq, Outcome.err.injEq] at h
      rw [h.2] at hw
      have := write_unsupportedType fmt n g _ t' v hw
      refine ⟨this.1, ?_⟩
      simp only [nestedInAny]
      rcases this.2 with h1 | h1
      · exact Or.inl h1
      · exact Or.inr (Or.inl h1)
    · simp at h
    · simp at h
end

/-- C12: on a geometry whose kind is outside the closed set, `encode` fails with
`ErrUnsupportedType` carrying that geometry, whatever its layout; and when
`encode` fails with `ErrUnsupportedType` on a geometry of a supported kind, the
value the error carries is a (possibly nested) member of that collection and
is of an unsupported kind. -/
theorem C12_unsupported_type :
    (∀ (fmt : Formatter) (l : Layout) (e : Bool) (n : Int),
      encode fmt (.other l e) n = .ret "" (some (.ErrUnsupportedType (.other l e)))) ∧
    (∀ (fmt : Formatter) (g : T) (n : Int) (s : String) (v : T), g.supported = true →
      encode fmt g n = .ret s (some (.ErrUnsupportedType v)) →
      v.supported = false ∧ nestedIn v g) := by
  constructor
  · intro fmt l e n
    simp [encode, write, typeKeyword]
  · intro fmt g n s v hg h
    obtain ⟨t, ht⟩ := write_of_encode_err fmt g n s _ h
    obtain ⟨h1, h2⟩ := write_unsupportedType fmt n g "" t v ht
    refine ⟨h1, ?_⟩
    rcases h2 with rfl | h2
    · rw [hg] at h1; cases h1
    · exact h2

/-- Instance of C12 at the collection whose second member is of an unsupported
kind. -/
theorem C12_unsupported_type_witness :
    (collectionBad.supported = true ∧
      encode FormatFloat collectionBad 0 =
        .ret "" (some (.ErrUnsupportedType (.other .XY false)))) ∧
    (T.other .XY false).supported = false ∧ nestedIn (.other .XY false) collectionBad :=
  ⟨⟨by decide, by rfl⟩,
    C12_unsupported_type.2 FormatFloat collectionBad 0 "" (.other .XY false) (by decide)
      (by rfl)⟩

theorem write_noLayout (fmt : Formatter) (g : T) (n : Int) (s : String)
    (hl : g.Layout = .NoLayout) (h : write fmt "" g n = (s, .nil)) :
    s = specHeader g ++ "EMPTY" := by
  have hrej : ∀ kw, typeKeyword g = some kw →
      layoutSwitch g kw = .error (.ErrUnsupportedLayout .NoLayout) → False := by
    intro kw h1 h2
    rw [write] at h
    simp [h1, h2] at h
  cases g with
  | GeometryCollection l geoms srid =>
    simp only [T.Layout] at hl
    subst hl
    cases hE : GeometryCollection.Empty geoms
    · exact absurd (by simp [layoutSwitch, T.Layout, hE]) (hrej tGeometryCollection rfl)
    · rw [write] at h
      have hsw : layoutSwitch (.GeometryCollection .NoLayout geoms srid) tGeometryCollection =
          .ok tGeometryCollection := by
        simp [layoutSwitch, T.Layout, hE]
      simp only [typeKeyword, hsw, hE, if_true, writeEMPTY, Prod.mk.injEq, and_true] at h
      rw [← h]
      rfl
  | other l e => simp [write, typeKeyword] at h
  | _ =>
    simp only [T.Layout] at hl
    exact absurd (by simp [layoutSwitch, T.Layout, hl]) (hrej _ rfl)

theorem write_ok_layout (fmt : Formatter) (g : T) (n : Int) (sb s : String)
    (h : write fmt sb g n = (s, .nil)) :
    g.supported = true ∧ (g.Layout.supported = true ∨ g.Layout = .NoLayout) := by
  cases hk : typeKeyword g with
  | none =>
    rw [write] at h
    simp [hk] at h
  | some kw =>
    have hsup : g.supported = true := by
      cases g <;> simp [typeKeyword] at hk <;> rfl
    refine ⟨hsup, ?_⟩
    cases hsw : layoutSwitch g kw with
    | error e =>
      rw [write] at h
      simp [hk, hsw] at h
    | ok hd =>
      unfold layoutSwitch at hsw
      cases hL : g.Layout <;> rw [hL] at hsw <;> simp at hsw <;> simp [Layout.supported]

theorem encode_header (fmt : Formatter) (g : T) (n : Int) (s : String)
    (h : encode fmt g n = .ret s none) :
    g.supported = true ∧ (g.Layout.supported = true ∨ g.Layout = .NoLayout) ∧
      ∃ rest, s = specHeader g ++ rest ∧ (rest = "EMPTY" ∨ ∃ t, rest = "(" ++ t) := by
  have hw := write_of_encode fmt g n s h
  obtain ⟨h1, h2⟩ := write_ok_layout fmt g n "" s hw
  refine ⟨h1, h2, ?_⟩
  rcases h2 with h2 | h2
  · exact write_header fmt g n s h1 h2 hw
  · exact ⟨"EMPTY", write_noLayout fmt g n s h2 hw, Or.inl rfl⟩

theorem headerKey_header (g : T) (rest : String) (hg : g.supported = true)
    (hl : g.Layout.supported = true ∨ g.Layout = .NoLayout)
    (hr : rest = "EMPTY" ∨ ∃ t, rest = "(" ++ t) :
    headerKey (specHeader g ++ rest) = ((specKeyword g).data, (specDim g.Layout).data) := by
  have hL : g.Layout = .NoLayout ∨ g.Layout = .XY ∨ g.Layout = .XYZ ∨ g.Layout = .XYM ∨
      g.Layout = .XYZM := by
    rcases hl with hl | hl
    · cases h : g.Layout <;> rw [h] at hl <;> simp [Layout.supported] at hl <;> simp
    · exact Or.inl hl
  unfold specHeader headerKey
  rcases hr with rfl | ⟨t, rfl⟩ <;>
    rcases hL with hL | hL | hL | hL | hL <;> rw [hL] <;>
    cases g <;> simp [T.supported] at hg <;>
    simp [specKeyword, specDim, List.takeWhile, List.dropWhile]

theorem kindOf_of_keyword (g1 g2 : T) (h1 : g1.supported = true) (h2 : g2.supported = true)
    (h : (specKeyword g1).data = (specKeyword g2).data) : kindOf g1 = kindOf g2 := by
  cases g1 <;> simp [T.supported] at h1 <;> cases g2 <;> simp [T.supported] at h2 <;>
    first
    | rfl
    | (exfalso; revert h; simp [specKeyword])

theorem layoutOf_of_dim (l1 l2 : Layout)
    (h1 : l1.supported = true ∨ l1 = .NoLayout) (h2 : l2.supported = true ∨ l2 = .NoLayout)
    (h : (specDim l1).data = (specDim l2).data) : layoutOf l1 = layoutOf l2 := by
  cases l1 <;> simp [Layout.supported] at h1 <;> cases l2 <;> simp [Layout.supported] at h2 <;>
    first
    | rfl
    | (exfalso; revert h; simp [specDim])

/-- C20: when `encode` succeeds on two geometries with the same text, they have the
same WKT keyword, hence the same kind up to LineString and LinearRing, and the
same layout up to `NoLayout` and `XY`; an empty GeometryCollection encodes to
`"GEOMETRYCOLLECTION EMPTY"` with layout `NoLayout` and with layout `XY`. -/
theorem C20_header_determines :
    (∀ (fmt : Formatter) (g1 g2 : T) (n1 n2 : Int) (s : String),
      encode fmt g1 n1 = .ret s none → encode fmt g2 n2 = .ret s none →
      specKeyword g1 = specKeyword g2 ∧ kindOf g1 = kindOf g2 ∧
        layoutOf g1.Layout = layoutOf g2.Layout) ∧
    (∀ (fmt : Formatter) (n srid : Int),
      encode fmt (.GeometryCollection .NoLayout [] srid) n =
        .ret "GEOMETRYCOLLECTION EMPTY" none ∧
      encode fmt (.GeometryCollection .XY [] srid) n =
        .ret "GEOMETRYCOLLECTION EMPTY" none) := by
  constructor
  · intro fmt g1 g2 n1 n2 s h1 h2
    obtain ⟨hs1, hl1, r1, e1, hr1⟩ := encode_header fmt g1 n1 s h1
    obtain ⟨hs2, hl2, r2, e2, hr2⟩ := encode_header fmt g2 n2 s h2
    have k1 := headerKey_header g1 r1 hs1 hl1 hr1
    have k2 := headerKey_header g2 r2 hs2 hl2 hr2
    rw [← e1] at k1
    rw [← e2, k1] at k2
    simp only [Prod.mk.injEq] at k2
    refine ⟨?_, kindOf_of_keyword g1 g2 hs1 hs2 k2.1, layoutOf_of_dim _ _ hl1 hl2 k2.2⟩
    exact String.ext k2.1
  · intro fmt n srid
    constructor <;> (apply encode_of_write; simp [write, typeKeyword, layoutSwitch, T.Layout,
      GeometryCollection.Empty, writeEMPTY]; rfl)

/-- Instance of C20 at the ring and the line `[0,0,1,1,2,2]`, reference formatter. -/
theorem C20_header_determines_witness :
    (encode FormatFloat (.LinearRing line012) (-1) = .ret "LINESTRING (0 0, 1 1, 2 2)" none ∧
      encode FormatFloat (.LineString line012) 3 = .ret "LINESTRING (0 0, 1 1, 2 2)" none) ∧
    specKeyword (.LinearRing line012) = specKeyword (.LineString line012) ∧
    kindOf (.LinearRing line012) = kindOf (.LineString line012) ∧
    layoutOf (T.LinearRing line012).Layout = layoutOf (T.LineString line012).Layout :=
  ⟨⟨by rfl, by rfl⟩,
    C20_header_determines.1 FormatFloat (.LinearRing line012) (.LineString line012) (-1) 3
      "LINESTRING (0 0, 1 1, 2 2)" (by rfl) (by rfl)⟩

theorem noParen_count (cs : List Char) (h : NoParen cs) :
    cs.count '(' = 0 ∧ cs.count ')' = 0 := by
  constructor
  · exact List.count_eq_zero.mpr (fun hm => (h _ hm).1 rfl)
  · exact List.count_eq_zero.mpr (fun hm => (h _ hm).2 rfl)

theorem noParen_append (a b : List Char) (ha : NoParen a) (hb : NoParen b) :
    NoParen (a ++ b) := by
  intro c hc
  rcases List.mem_append.mp hc with h | h
  · exact ha c h
  · exact hb c h

theorem balanced_of_noParen (cs : List Char) (h : NoParen cs) : Balanced cs := by
  obtain ⟨h1, h2⟩ := noParen_count cs h
  refine ⟨by rw [h1, h2], fun k => ?_⟩
  have : NoParen (cs.take k) := fun c hc => h c (List.mem_of_mem_take hc)
  rw [(noParen_count _ this).2]
  exact Nat.zero_le _

theorem balanced_append (a b : List Char) (ha : Balanced a) (hb : Balanced b) :
    Balanced (a ++ b) := by
  refine ⟨by simp only [List.count_append, ha.1, hb.1], fun k => ?_⟩
  rw [List.take_append_eq_append_take]
  simp only [List.count_append]
  exact Nat.add_le_add (ha.2 k) (hb.2 _)

theorem balanced_wrap (a : List Char) (ha : Balanced a) :
    Balanced ('(' :: (a ++ [')'])) := by
  refine ⟨by simp [List.count_cons, List.count_append, ha.1], fun k => ?_⟩
  cases k with
  | zero => simp
  | succ k =>
    rw [List.take_succ_cons, List.take_append_eq_append_take]
    have h1 := ha.2 k
    have h2 : ((List.take (k - a.length) [')']).count ')') ≤ 1 := by
      calc ((List.take (k - a.length) [')']).count ')')
          ≤ (List.take (k - a.length) [')']).length := List.count_le_length _ _
        _ ≤ 1 := by simp [List.length_take]
    have h3 : ((List.take (k - a.length) [')']).count '(') = 0 := by
      apply List.count_eq_zero.mpr
      intro hm
      have := List.mem_of_mem_take hm
      simp at this
    simp only [List.count_cons, List.count_append, h3]
    simp
    omega

theorem balanced_nil : Balanced [] := by
  refine ⟨rfl, fun k => by simp⟩

theorem sepTail_noParen (sep : String) (l : List String) (hsep : NoParen sep.data)
    (hl : ∀ s ∈ l, NoParen s.data) : NoParen (sepTail sep l).data := by
  induction l with
  | nil => intro c hc; simp [sepTail] at hc
  | cons a l ih =>
    simp only [sepTail, String.data_append]
    exact noParen_append _ _
      (noParen_append _ _ hsep (hl a (List.mem_cons_self _ _)))
      (ih (fun s hs => hl s (List.mem_cons_of_mem _ hs)))

theorem intercalate_noParen (sep : String) (l : List String) (hsep : NoParen sep.data)
    (hl : ∀ s ∈ l, NoParen s.data) : NoParen (String.intercalate sep l).data := by
  cases l with
  | nil => intro c hc; simp [String.intercalate] at hc
  | cons a l =>
    rw [intercalate_cons, String.data_append]
    exact noParen_append _ _ (hl a (List.mem_cons_self _ _))
      (sepTail_noParen sep l hsep (fun s hs => hl s (List.mem_cons_of_mem _ hs)))

theorem coordStr_noParen (fmt : Formatter) (x : Float64) (n : Int)
    (h : NoParen (fmt x n).data) : NoParen (coordStr fmt x n).data := by
  unfold coordStr
  simp only []
  split
  · intro c hc
    apply h c
    simp only [TrimRight] at hc
    obtain ⟨r1, h1, _⟩ := rdropWhile_split (fun c => (".": String).data.contains c)
      ((fmt x n).data.rdropWhile (fun c => ("0" : String).data.contains c))
    obtain ⟨r0, h0, _⟩ := rdropWhile_split (fun c => ("0" : String).data.contains c)
      (fmt x n).data
    rw [h0, h1]
    exact List.mem_append_left _ (List.mem_append_left _ hc)
  · exact h

theorem tupleText_noParen (fmt : Formatter) (n : Int) (xs : List Float64)
    (h : ∀ x ∈ xs, NoParen (fmt x n).data) : NoParen (tupleText fmt n xs).data := by
  unfold tupleText
  apply intercalate_noParen
  · intro c hc
    have : c = ' ' := by simpa using hc
    subst this
    exact ⟨by decide, by decide⟩
  · intro s hs
    obtain ⟨x, hx, rfl⟩ := List.mem_map.mp hs
    exact coordStr_noParen fmt x n (h x hx)

theorem balanced_wrap_text (c : String) (h : Balanced c.data) :
    Balanced ("(" ++ c ++ ")").data := by
  have := balanced_wrap c.data h
  simpa [String.data_append] using this

theorem noParen_sep (i : Nat) : NoParen (if i ≠ 0 then ("" : String) ++ ", " else "").data := by
  split
  · intro c hc
    have : c = ',' ∨ c = ' ' := by simpa using hc
    rcases this with rfl | rfl <;> exact ⟨by decide, by decide⟩
  · intro c hc; simp at hc

theorem noParen_sepInt (i : Int) :
    NoParen (if i ≠ 0 then ("" : String) ++ ", " else "").data := by
  split
  · intro c hc
    have : c = ',' ∨ c = ' ' := by simpa using hc
    rcases this with rfl | rfl <;> exact ⟨by decide, by decide⟩
  · intro c hc; simp at hc

theorem writeFlatCoords0_balanced (fmt : Formatter) (s : Slice) (k n : Int)
    (hnum : ∀ x ∈ s.arr, NoParen (fmt x n).data)
    (h : (writeFlatCoords0 fmt "" s k n).2 = .nil) :
    Balanced (writeFlatCoords0 fmt "" s k n).1.data := by
  rw [writeFlatCoords0_eq] at h ⊢
  cases hr : s.reslice 0 k with
  | none => rw [hr] at h; simp at h
  | some c =>
    simp only [String.empty_append]
    apply balanced_wrap_text
    apply balanced_of_noParen
    apply tupleText_noParen
    intro x hx
    exact hnum x (reslice_mem s c _ _ hr x (List.mem_of_mem_take hx))

theorem writeFlatCoords1Loop_noParen (fmt : Formatter) (s : Slice) (k n : Int)
    (hnum : ∀ x ∈ s.arr, NoParen (fmt x n).data) (fuel : Nat) :
    ∀ (i : Int), (writeFlatCoords1Loop fmt s k n fuel "" i).2 = .nil →
      NoParen (writeFlatCoords1Loop fmt s k n fuel "" i).1.data := by
  induction fuel with
  | zero =>
    intro i h
    simp only [writeFlatCoords1Loop] at h ⊢
    split
    · rename_i hlt; rw [if_pos hlt] at h; simp at h
    · intro c hc; simp at hc
  | succ fuel ih =>
    intro i h
    simp only [writeFlatCoords1Loop] at h ⊢
    split
    · rename_i hlt
      rw [if_pos hlt] at h
      cases hr : s.reslice i (i + k) with
      | none => rw [hr] at h; simp at h
      | some c =>
        rw [hr] at h
        simp only [writeCoord_eq] at h ⊢
        rw [writeFlatCoords1Loop_frame] at h ⊢
        simp only [String.data_append] at h ⊢
        apply noParen_append
        · apply noParen_append
          · exact noParen_sepInt i
          · apply tupleText_noParen
            intro x hx
            exact hnum x (reslice_mem s c _ _ hr x (List.mem_of_mem_take hx))
        · exact ih _ h
    · intro c hc; simp at hc

theorem writeFlatCoords1_balanced (fmt : Formatter) (s : Slice) (k n : Int)
    (hnum : ∀ x ∈ s.arr, NoParen (fmt x n).data)
    (h : (writeFlatCoords1 fmt "" s k n).2 = .nil) :
    Balanced (writeFlatCoords1 fmt "" s k n).1.data := by
  unfold writeFlatCoords1 at h ⊢
  simp only [] at h ⊢
  rw [writeFlatCoords1Loop_frame] at h ⊢
  have hl := writeFlatCoords1Loop_noParen fmt s k n hnum s.len 0
  rcases hw : writeFlatCoords1Loop fmt s k n s.len "" 0 with ⟨t, o⟩
  rw [hw] at h hl
  cases o
  · simp only [String.empty_append]
    exact balanced_wrap_text t (balanced_of_noParen _ (hl rfl))
  all_goals simp at h

theorem balanced_sep (i : Nat) : Balanced (if i ≠ 0 then ("" : String) ++ ", " else "").data :=
  balanced_of_noParen _ (noParen_sep i)

theorem writeFlatCoords2Loop_balanced (fmt : Formatter) (s : Slice) (k n : Int)
    (hnum : ∀ x ∈ s.arr, NoParen (fmt x n).data) (ends : List Int) :
    ∀ (i : Nat) (start : Int), (writeFlatCoords2Loop fmt s k n "" i start ends).2 = .nil →
      Balanced (writeFlatCoords2Loop fmt s k n "" i start ends).1.data := by
  induction ends with
  | nil => intro i start _; simp only [writeFlatCoords2Loop]; exact balanced_nil
  | cons e rest ih =>
    intro i start h
    simp only [writeFlatCoords2Loop] at h ⊢
    cases hr : s.reslice start e with
    | none => rw [hr] at h; simp at h
    | some c =>
      rw [hr] at h
      simp only [] at h ⊢
      rw [writeFlatCoords1_frame] at h ⊢
      have h1 := writeFlatCoords1_balanced fmt c k n
        (fun x hx => hnum x (reslice_mem s c _ _ hr x hx))
      rcases hw : writeFlatCoords1 fmt "" c k n with ⟨t, o⟩
      rw [hw] at h h1
      cases o
      · have h1' : Balanced t.data := h1 rfl
        simp only [] at h ⊢
        rw [writeFlatCoords2Loop_frame] at h
        rw [writeFlatCoords2Loop_frame]
        simp only [String.data_append]
        exact balanced_append _ _ (balanced_append _ _ (balanced_sep i) h1') (ih _ _ h)
      all_goals simp at h

theorem writeFlatCoords2_balanced (fmt : Formatter) (s : Slice) (start : Int)
    (ends : List Int) (k n : Int) (hnum : ∀ x ∈ s.arr, NoParen (fmt x n).data)
    (h : (writeFlatCoords2 fmt "" s start ends k n).2 = .nil) :
    Balanced (writeFlatCoords2 fmt "" s start ends k n).1.data := by
  unfold writeFlatCoords2 at h ⊢
  simp only [] at h ⊢
  rw [writeFlatCoords2Loop_frame] at h ⊢
  have hl := writeFlatCoords2Loop_balanced fmt s k n hnum ends 0 start
  rcases hw : writeFlatCoords2Loop fmt s k n "" 0 start ends with ⟨t, o⟩
  rw [hw] at h hl
  cases o
  · simp only [String.empty_append]
    exact balanced_wrap_text t (hl rfl)
  all_goals simp at h

theorem writeFlatCoords3Loop_balanced (fmt : Formatter) (s : Slice) (k n : Int)
    (hnum : ∀ x ∈ s.arr, NoParen (fmt x n).data) (endss : List (List Int)) :
    ∀ (i : Nat) (start : Int), (writeFlatCoords3Loop fmt s k n "" i start endss).2 = .nil →
      Balanced (writeFlatCoords3Loop fmt s k n "" i start endss).1.data := by
  induction endss with
  | nil => intro i start _; simp only [writeFlatCoords3Loop]; exact balanced_nil
  | cons ends rest ih =>
    intro i start h
    simp only [writeFlatCoords3Loop] at h ⊢
    rw [writeFlatCoords2_frame] at h ⊢
    have h1 := writeFlatCoords2_balanced fmt s start ends k n hnum
    rcases hw : writeFlatCoords2 fmt "" s start ends k n with ⟨t, o⟩
    rw [hw] at h h1
    cases o
    · have h1' : Balanced t.data := h1 rfl
      simp only [] at h ⊢
      cases hlast : ends.getLast? with
      | none => rw [hlast] at h; simp at h
      | some last =>
        rw [hlast] at h
        simp only [] at h ⊢
        rw [writeFlatCoords3Loop_frame] at h
        rw [writeFlatCoords3Loop_frame]
        simp only [String.data_append]
        exact balanced_append _ _ (balanced_append _ _ (balanced_sep i) h1') (ih _ _ h)
    all_goals simp at h

theorem writeFlatCoords3_balanced (fmt : Formatter) (s : Slice) (endss : List (List Int))
    (k n : Int) (hnum : ∀ x ∈ s.arr, NoParen (fmt x n).data)
    (h : (writeFlatCoords3 fmt "" s endss k n).2 = .nil) :
    Balanced (writeFlatCoords3 fmt "" s endss k n).1.data := by
  unfold writeFlatCoords3 at h ⊢
  simp only [] at h ⊢
  rw [writeFlatCoords3Loop_frame] at h ⊢
  have hl := writeFlatCoords3Loop_balanced fmt s k n hnum endss 0 0
  rcases hw : writeFlatCoords3Loop fmt s k n "" 0 0 endss with ⟨t, o⟩
  rw [hw] at h hl
  cases o
  · simp only [String.empty_append]
    exact balanced_wrap_text t (hl rfl)
  all_goals simp at h

theorem noParen_of_all (cs : List Char)
    (h : cs.all (fun c => c != '(' && c != ')') = true) : NoParen cs := by
  intro c hc
  have := List.all_eq_true.mp h c hc
  simp only [Bool.and_eq_true, bne_iff_ne, ne_eq] at this
  exact this

theorem specHeader_noParen (g : T) : NoParen (specHeader g).data := by
  apply noParen_of_all
  unfold specHeader
  generalize g.Layout = l
  cases g <;> cases l <;> rfl

theorem header_noParen (g : T) (kw hd : String) (hk : typeKeyword g = some kw)
    (hsw : layoutSwitch g kw = .ok hd) : NoParen hd.data := by
  apply noParen_of_all
  have hkw : kw = tPoint ∨ kw = tLineString ∨ kw = tPolygon ∨ kw = tMultiPoint ∨
      kw = tMultiLineString ∨ kw = tMultiPolygon ∨ kw = tGeometryCollection := by
    cases g <;> simp only [typeKeyword, Option.some.injEq, reduceCtorEq] at hk <;> subst hk <;>
      simp
  rcases layoutSwitch_ok_cases g kw hd hsw with rfl | rfl | rfl | rfl <;>
    rcases hkw with rfl | rfl | rfl | rfl | rfl | rfl | rfl <;> rfl

theorem balanced_header_body (hd body : String) (h1 : NoParen hd.data)
    (h2 : Balanced body.data) : Balanced (("" ++ hd) ++ body).data := by
  simp only [String.data_append, String.empty_append]
  exact balanced_append _ _ (balanced_of_noParen _ h1) h2

theorem balanced_EMPTY : Balanced ("EMPTY" : String).data :=
  balanced_of_noParen _ (noParen_of_all _ rfl)

mutual
theorem write_balanced (fmt : Formatter) (n : Int) (g : T)
    (hnum : ∀ x ∈ coordsOf g, NoParen (fmt x n).data)
    (h : (write fmt "" g n).2 = .nil) : Balanced (write fmt "" g n).1.data := by
  cases g with
  | other l e => simp [write, typeKeyword] at h
  | Point p =>
    rw [write] at h ⊢
    simp only [typeKeyword] at h ⊢
    cases hsw : layoutSwitch (T.Point p) tPoint with
    | error e => rw [hsw] at h; simp at h
    | ok hd =>
      have hh := header_noParen (T.Point p) tPoint hd rfl hsw
      rw [hsw] at h
      simp only [] at h ⊢
      rcases hp : Point.Empty p with _ | _ | _ <;> rw [hp] at h <;> simp only [] at h ⊢
      · simp at h
      · rw [writeFlatCoords0_frame] at h ⊢
        exact balanced_header_body _ _ hh (writeFlatCoords0_balanced fmt _ _ n hnum h)
      · exact balanced_header_body _ _ hh balanced_EMPTY
  | LineString p =>
    rw [write] at h ⊢
    simp only [typeKeyword] at h ⊢
    cases hsw : layoutSwitch (T.LineString p) tLineString with
    | error e => rw [hsw] at h; simp at h
    | ok hd =>
      have hh := header_noParen (T.LineString p) tLineString hd rfl hsw
      rw [hsw] at h
      simp only [] at h ⊢
      cases hp : p.Empty <;> rw [hp] at h <;> simp only [Bool.false_eq_true, if_false, if_true] at h ⊢
      · rw [writeFlatCoords1_frame] at h ⊢
        exact balanced_header_body _ _ hh (writeFlatCoords1_balanced fmt _ _ n hnum h)
      · exact balanced_header_body _ _ hh balanced_EMPTY
  | LinearRing p =>
    rw [write] at h ⊢
    simp only [typeKeyword] at h ⊢
    cases hsw : layoutSwitch (T.LinearRing p) tLineString with
    | error e => rw [hsw] at h; simp at h
    | ok hd =>
      have hh := header_noParen (T.LinearRing p) tLineString hd rfl hsw
      rw [hsw] at h
      simp only [] at h ⊢
      cases hp : p.Empty <;> rw [hp] at h <;> simp only [Bool.false_eq_true, if_false, if_true] at h ⊢
      · rw [writeFlatCoords1_frame] at h ⊢
        exact balanced_header_body _ _ hh (writeFlatCoords1_balanced fmt _ _ n hnum h)
      · exact balanced_header_body _ _ hh balanced_EMPTY
  | MultiPoint p =>
    rw [write] at h ⊢
    simp only [typeKeyword] at h ⊢
    cases hsw : layoutSwitch (T.MultiPoint p) tMultiPoint with
    | error e => rw [hsw] at h; simp at h
    | ok hd =>
      have hh := header_noParen (T.MultiPoint p) tMultiPoint hd rfl hsw
      rw [hsw] at h
      simp only [] at h ⊢
      cases hp : p.Empty <;> rw [hp] at h <;> simp only [Bool.false_eq_true, if_false, if_true] at h ⊢
      · rw [writeFlatCoords1_frame] at h ⊢
        exact balanced_header_body _ _ hh (writeFlatCoords1_balanced fmt _ _ n hnum h)
      · exact balanced_header_body _ _ hh balanced_EMPTY
  | Polygon p =>
    rw [write] at h ⊢
    simp only [typeKeyword] at h ⊢
    cases hsw : layoutSwitch (T.Polygon p) tPolygon with
    | error e => rw [hsw] at h; simp at h
    | ok hd =>
      have hh := header_noParen (T.Polygon p) tPolygon hd rfl hsw
      rw [hsw] at h
      simp only [] at h ⊢
      cases hp : p.togeom0.Empty <;> rw [hp] at h <;>
        simp only [Bool.false_eq_true, if_false, if_true] at h ⊢
      · rw [writeFlatCoords2_frame] at h ⊢
        exact balanced_header_body _ _ hh (writeFlatCoords2_balanced fmt _ _ _ _ n hnum h)
      · exact balanced_header_body _ _ hh balanced_EMPTY
  | MultiLineString p =>
    rw [write] at h ⊢
    simp only [typeKeyword] at h ⊢
    cases hsw : layoutSwitch (T.MultiLineString p) tMultiLineString with
    | error e => rw [hsw] at h; simp at h
    | ok hd =>
      have hh := header_noParen (T.MultiLineString p) tMultiLineString hd rfl hsw
      rw [hsw] at h
      simp only [] at h ⊢
      cases hp : p.togeom0.Empty <;> rw [hp] at h <;>
        simp only [Bool.false_eq_true, if_false, if_true] at h ⊢
      · rw [writeFlatCoords2_frame] at h ⊢
        exact balanced_header_body _ _ hh (writeFlatCoords2_balanced fmt _ _ _ _ n hnum h)
      · exact balanced_header_body _ _ hh balanced_EMPTY
  | MultiPolygon p =>
    rw [write] at h ⊢
    simp only [typeKeyword] at h ⊢
    cases hsw : layoutSwitch (T.MultiPolygon p) tMultiPolygon with
    | error e => rw [hsw] at h; simp at h
    | ok hd =>
      have hh := header_noParen (T.MultiPolygon p) tMultiPolygon hd rfl hsw
      rw [hsw] at h
      simp only [] at h ⊢
      cases hp : p.togeom0.Empty <;> rw [hp] at h <;>
        simp only [Bool.false_eq_true, if_false, if_true] at h ⊢
      · rw [writeFlatCoords3_frame] at h ⊢
        exact balanced_header_body _ _ hh (writeFlatCoords3_balanced fmt _ _ _ n hnum h)
      · exact balanced_header_body _ _ hh balanced_EMPTY
  | GeometryCollection l geoms srid =>
    rw [write] at h ⊢
    simp only [typeKeyword] at h ⊢
    cases hsw : layoutSwitch (T.GeometryCollection l geoms srid) tGeometryCollection with
    | error e => rw [hsw] at h; simp at h
    | ok hd =>
      have hh := header_noParen (T.GeometryCollection l geoms srid) tGeometryCollection hd rfl
        hsw
      rw [hsw] at h
      simp only [] at h ⊢
      cases hp : GeometryCollection.Empty geoms <;> rw [hp] at h <;>
        simp only [Bool.false_eq_true, if_false, if_true] at h ⊢
      · rw [writeGeoms_frame] at h ⊢
        have hg := writeGeoms_balanced fmt n geoms hnum 0
        rcases hw : writeGeoms fmt "" 0 geoms n with ⟨t, o⟩
        rw [hw] at h hg
        cases o
        · have hg' : Balanced t.data := hg rfl
          simp only [String.data_append, String.empty_append]
          have := balanced_wrap_text t hg'
          simp only [String.data_append] at this
          have h2 := balanced_append _ _ (balanced_of_noParen _ hh) this
          simpa [List.append_assoc] using h2
        all_goals simp at h
      · exact balanced_header_body _ _ hh balanced_EMPTY
theorem writeGeoms_balanced (fmt : Formatter) (n : Int) (geoms : List T)
    (hnum : ∀ x ∈ coordsOfAll geoms, NoParen (fmt x n).data) (i : Nat)
    (h : (writeGeoms fmt "" i geoms n).2 = .nil) :
    Balanced (writeGeoms fmt "" i geoms n).1.data := by
  cases geoms with
  | nil => simp only [writeGeoms]; exact balanced_nil
  | cons g rest =>
    rw [writeGeoms] at h ⊢
    rw [write_frame] at h ⊢
    have hg := write_balanced fmt n g
      (fun x hx => hnum x (by simp only [coordsOfAll]; exact List.mem_append_left _ hx))
    rcases hw : write fmt "" g n with ⟨t, o⟩
    rw [hw] at h hg
    cases o
    · have hg' : Balanced t.data := hg rfl
      simp only [] at h ⊢
      rw [writeGeoms_frame] at h
      rw [writeGeoms_frame]
      simp only [String.data_append]
      exact balanced_append _ _ (balanced_append _ _ (balanced_sep i) hg')
        (writeGeoms_balanced fmt n rest
          (fun x hx => hnum x (by simp only [coordsOfAll]; exact List.mem_append_right _ hx))
          _ h)
    all_goals simp at h
end

theorem write_rest (fmt : Formatter) (g : T) (n : Int) (s : String)
    (h : write fmt "" g n = (s, .nil)) :
    (g.Empty = some true ∧ s = specHeader g ++ "EMPTY") ∨
      (g.Empty = some false ∧ ∃ t, s = specHeader g ++ ("(" ++ t)) := by
  obtain ⟨hk, hl⟩ := write_ok_layout fmt g n "" s h
  rcases hl with hl | hl
  · have key : ∀ (r : Builder × Outcome) (hdr : String), r = (s, .nil) →
        (∃ t, r.1 = ("" ++ hdr) ++ ("(" ++ t)) → ∃ t, s = hdr ++ ("(" ++ t) := by
      intro r hdr hr ⟨t, ht⟩
      refine ⟨t, ?_⟩
      rw [hr] at ht
      simpa using ht
    have keyE : ∀ (hdr : String),
        (("" : String) ++ (hdr ++ "EMPTY"), Outcome.nil) = (s, .nil) → s = hdr ++ "EMPTY" := by
      intro hdr hr
      simpa using (congrArg Prod.fst hr).symm
    cases g with
    | Point p =>
      rw [write_Point fmt "" p n hl] at h
      rcases hE : Point.Empty p with _ | _ | _ <;> rw [hE] at h
      · simp at h
      · exact Or.inr ⟨hE, key _ _ h (writeFlatCoords0_open ..)⟩
      · exact Or.inl ⟨hE, keyE _ h⟩
    | LineString p =>
      rw [write_LineString fmt "" p n hl] at h
      cases hE : p.Empty <;> rw [hE] at h
      · exact Or.inr ⟨by simp [T.Empty, hE], key _ _ h (writeFlatCoords1_open ..)⟩
      · exact Or.inl ⟨by simp [T.Empty, hE], keyE _ h⟩
    | LinearRing p =>
      rw [write_LinearRing fmt "" p n hl] at h
      cases hE : p.Empty <;> rw [hE] at h
      · exact Or.inr ⟨by simp [T.Empty, hE], key _ _ h (writeFlatCoords1_open ..)⟩
      · exact Or.inl ⟨by simp [T.Empty, hE], keyE _ h⟩
    | MultiPoint p =>
      rw [write_MultiPoint fmt "" p n hl] at h
      cases hE : p.Empty <;> rw [hE] at h
      · exact Or.inr ⟨by simp [T.Empty, hE], key _ _ h (writeFlatCoords1_open ..)⟩
      · exact Or.inl ⟨by simp [T.Empty, hE], keyE _ h⟩
    | Polygon p =>
      rw [write_Polygon fmt "" p n hl] at h
      cases hE : p.togeom0.Empty <;> rw [hE] at h
      · exact Or.inr ⟨by simp [T.Empty, hE], key _ _ h (writeFlatCoords2_open ..)⟩
      · exact Or.inl ⟨by simp [T.Empty, hE], keyE _ h⟩
    | MultiLineString p =>
      rw [write_MultiLineString fmt "" p n hl] at h
      cases hE : p.togeom0.Empty <;> rw [hE] at h
      · exact Or.inr ⟨by simp [T.Empty, hE], key _ _ h (writeFlatCoords2_open ..)⟩
      · exact Or.inl ⟨by simp [T.Empty, hE], keyE _ h⟩
    | MultiPolygon p =>
      rw [write_MultiPolygon fmt "" p n hl] at h
      cases hE : p.togeom0.Empty <;> rw [hE] at h
      · exact Or.inr ⟨by simp [T.Empty, hE], key _ _ h (writeFlatCoords3_open ..)⟩
      · exact Or.inl ⟨by simp [T.Empty, hE], keyE _ h⟩
    | GeometryCollection l geoms srid =>
      rw [write_GeometryCollection fmt "" l geoms srid n hl] at h
      cases hE : GeometryCollection.Empty geoms <;> rw [hE] at h
      · simp only [Bool.false_eq_true, if_false] at h
        rw [writeGeoms_frame] at h
        refine Or.inr ⟨by simp [T.Empty, hE], key _ _ h ?_⟩
        rcases writeGeoms fmt "" 0 geoms n with ⟨t, o⟩
        cases o
        · exact ⟨t ++ ")", by simp [String.append_assoc]⟩
        all_goals exact ⟨t, by simp [String.append_assoc]⟩
      · exact Or.inl ⟨by simp [T.Empty, hE], keyE _ h⟩
    | other l e => simp [T.supported] at hk
  · refine Or.inl ⟨?_, write_noLayout fmt g n s hl h⟩
    have hrej : ∀ kw, typeKeyword g = some kw →
        layoutSwitch g kw = .error (.ErrUnsupportedLayout .NoLayout) → False := by
      intro kw h1 h2
      rw [write] at h
      simp [h1, h2] at h
    cases g with
    | GeometryCollection l geoms srid =>
      simp only [T.Layout] at hl
      subst hl
      cases hE : GeometryCollection.Empty geoms
      · exact absurd (by simp [layoutSwitch, T.Layout, hE]) (hrej tGeometryCollection rfl)
      · simp [T.Empty, hE]
    | other l e => simp [T.supported] at hk
    | _ =>
      simp only [T.Layout] at hl
      exact absurd (by simp [layoutSwitch, T.Layout, hl]) (hrej _ rfl)

/-- C19: when `encode g n` returns a text and the renderings of the coordinates of
`g` hold no parenthesis, the text has as many `(` as `)`, no prefix of it has
more `)` than `(`, and it holds no parenthesis at all exactly when `g` is
empty. -/
theorem C19_balanced (fmt : Formatter) (g : T) (n : Int) (s : String)
    (hnum : ∀ x ∈ coordsOf g, ∀ c ∈ (fmt x n).data, c ≠ '(' ∧ c ≠ ')')
    (h : encode fmt g n = .ret s none) :
    s.data.count '(' = s.data.count ')' ∧
    (∀ k, (s.data.take k).count ')' ≤ (s.data.take k).count '(') ∧
    ((∀ c ∈ s.data, c ≠ '(' ∧ c ≠ ')') ↔ g.Empty = some true) := by
  have hw := write_of_encode fmt g n s h
  have hb := write_balanced fmt n g hnum (by rw [hw])
  rw [hw] at hb
  refine ⟨hb.1, hb.2, ?_⟩
  rcases write_rest fmt g n s hw with ⟨hE, hs⟩ | ⟨hE, t, hs⟩
  · constructor
    · intro _; exact hE
    · intro _
      rw [hs, String.data_append]
      exact noParen_append _ _ (specHeader_noParen g) (noParen_of_all _ rfl)
  · constructor
    · intro hno
      have : '(' ∈ s.data := by
        rw [hs]
        simp [String.data_append]
      exact absurd rfl (hno _ this).1
    · intro hT
      rw [hE] at hT
      cases hT

/-- Instance of C19 at the 2D polygon with `ends = [8, 16]`, reference formatter,
full precision. -/
theorem C19_balanced_witness :
    ((∀ x ∈ coordsOf (.Polygon polygon44), ∀ c ∈ (FormatFloat x (-1)).data,
        c ≠ '(' ∧ c ≠ ')') ∧
      encode FormatFloat (.Polygon polygon44) (-1) =
        .ret "POLYGON ((0 0, 100 0, 100 100, 0 0), (1 1, 2 1, 2 2, 1 1))" none) ∧
    ("POLYGON ((0 0, 100 0, 100 100, 0 0), (1 1, 2 1, 2 2, 1 1))" : String).data.count '(' =
      ("POLYGON ((0 0, 100 0, 100 100, 0 0), (1 1, 2 1, 2 2, 1 1))" : String).data.count ')' :=
  ⟨⟨by decide, by rfl⟩,
    (C19_balanced FormatFloat (.Polygon polygon44) (-1)
      "POLYGON ((0 0, 100 0, 100 100, 0 0), (1 1, 2 1, 2 2, 1 1))" (by decide) (by rfl)).1⟩

theorem endsOK_of_invariant (stride : Int) (k len : Nat) (hs : stride = (k : Int))
    (ends : List Int) (h : endsInvariant stride len ends) : EndsOK len k 0 ends := by
  obtain ⟨h1, h2, h3⟩ := h
  have hle := pairwise_le_last _ _ (List.pairwise_cons.mp h1).2 h3
  exact endsOK_of_pairwise len k ends 0 (le_refl 0) (dvd_zero _) h1
    (fun e he => ⟨by rw [← hs]; exact h2 e he, hle e he⟩)

theorem endssOK_of_invariant (stride : Int) (k len : Nat) (hs : stride = (k : Int))
    (endss : List (List Int)) (h : endssInvariant stride len endss) :
    EndssOK len k 0 endss := by
  obtain ⟨h0, h1, h2, h3⟩ := h
  have hle := pairwise_le_last _ _ (List.pairwise_cons.mp h1).2 h3
  exact endssOK_of_spec len k endss 0 (le_refl 0) (dvd_zero _) h0 h1
    (fun e he => ⟨by rw [← hs]; exact h2 e he, hle e he⟩)

mutual
theorem write_total (fmt : Formatter) (n : Int) (g : T) (hwf : WellFormed g) :
    ∃ s, write fmt "" g n = (s, .nil) := by
  cases g with
  | other l e => simp [WellFormed] at hwf
  | Point p =>
    obtain ⟨hl, hs, hne, hlen⟩ := hwf
    obtain ⟨hk, hk2⟩ := stride_pos p.layout hl
    have hpos : 0 < p.flatCoords.length := List.length_pos.mpr hne
    have hle : p.layout.Stride.toNat ≤ p.flatCoords.length :=
      Nat.le_of_dvd hpos (Nat.dvd_of_mod_eq_zero hlen)
    rw [write_Point fmt "" p n hl, point_empty_eq p (by rw [hs]; omega)]
    cases decide (∀ x ∈ p.flatCoords.take p.stride.toNat, IsNaN x = true)
    · simp only []
      rw [writeFlatCoords0_eq]
      have hres : (Slice.ofList p.flatCoords).reslice 0 p.layout.Stride =
          some ⟨p.flatCoords, p.layout.Stride.toNat⟩ := by
        have := reslice_ok (Slice.ofList p.flatCoords) 0 p.layout.Stride.toNat 0
          p.layout.Stride rfl (by rw [Nat.zero_add]; exact hk2)
          (by simp only [Slice.ofList]; omega)
        simpa [Slice.ofList] using this
      rw [hres]
      exact ⟨_, rfl⟩
    · exact ⟨_, rfl⟩
  | LineString p =>
    obtain ⟨hl, hlen⟩ := hwf
    rw [write_LineString fmt "" p n hl]
    split
    · exact ⟨_, rfl⟩
    · rw [write_depth1_wf fmt _ p n hl hlen]; exact ⟨_, rfl⟩
  | LinearRing p =>
    obtain ⟨hl, hlen⟩ := hwf
    rw [write_LinearRing fmt "" p n hl]
    split
    · exact ⟨_, rfl⟩
    · rw [write_depth1_wf fmt _ p n hl hlen]; exact ⟨_, rfl⟩
  | MultiPoint p =>
    obtain ⟨hl, hlen⟩ := hwf
    rw [write_MultiPoint fmt "" p n hl]
    split
    · exact ⟨_, rfl⟩
    · rw [write_depth1_wf fmt _ p n hl hlen]; exact ⟨_, rfl⟩
  | Polygon p =>
    obtain ⟨hl, hends⟩ := hwf
    obtain ⟨hk, hk2⟩ := stride_pos p.layout hl
    rw [write_Polygon fmt "" p n hl]
    cases hE : p.togeom0.Empty
    · have hne : p.flatCoords ≠ [] := by
        intro h0; simp [geom0.Empty, h0] at hE
      rcases hends with h0 | hinv
      · exact absurd h0 hne
      · simp only [Bool.false_eq_true, if_false]
        rw [writeFlatCoords2_wf fmt _ (Slice.ofList p.flatCoords) 0 _ n p.layout.Stride.toNat
          p.ends hk2 hk (by simpa [Slice.ofList] using endsOK_of_invariant _ _ _ hk2 _ hinv)]
        exact ⟨_, rfl⟩
    · exact ⟨_, rfl⟩
  | MultiLineString p =>
    obtain ⟨hl, hends⟩ := hwf
    obtain ⟨hk, hk2⟩ := stride_pos p.layout hl
    rw [write_MultiLineString fmt "" p n hl]
    cases hE : p.togeom0.Empty
    · have hne : p.flatCoords ≠ [] := by
        intro h0; simp [geom0.Empty, h0] at hE
      rcases hends with h0 | hinv
      · exact absurd h0 hne
      · simp only [Bool.false_eq_true, if_false]
        rw [writeFlatCoords2_wf fmt _ (Slice.ofList p.flatCoords) 0 _ n p.layout.Stride.toNat
          p.ends hk2 hk (by simpa [Slice.ofList] using endsOK_of_invariant _ _ _ hk2 _ hinv)]
        exact ⟨_, rfl⟩
    · exact ⟨_, rfl⟩
  | MultiPolygon p =>
    obtain ⟨hl, hends⟩ := hwf
    obtain ⟨hk, hk2⟩ := stride_pos p.layout hl
    rw [write_MultiPolygon fmt "" p n hl]
    cases hE : p.togeom0.Empty
    · have hne : p.flatCoords ≠ [] := by
        intro h0; simp [geom0.Empty, h0] at hE
      rcases hends with h0 | hinv
      · exact absurd h0 hne
      · simp only [Bool.false_eq_true, if_false]
        rw [writeFlatCoords3_wf fmt _ (Slice.ofList p.flatCoords) _ n p.layout.Stride.toNat
          p.endss hk2 hk (by simpa [Slice.ofList] using endssOK_of_invariant _ _ _ hk2 _ hinv)]
        exact ⟨_, rfl⟩
    · exact ⟨_, rfl⟩
  | GeometryCollection l geoms srid =>
    obtain ⟨hl, hall⟩ := hwf
    rcases hl with hl | ⟨hl, hg⟩
    · rw [write_GeometryCollection fmt "" l geoms srid n hl]
      split
      · exact ⟨_, rfl⟩
      · obtain ⟨texts, ht⟩ := writeGeoms_total fmt n geoms hall
        rw [writeGeoms_ok fmt n geoms texts ht]
        exact ⟨_, rfl⟩
    · subst hl hg
      exact ⟨tGeometryCollection ++ tEmpty, by
        simp [write, typeKeyword, layoutSwitch, T.Layout, GeometryCollection.Empty,
          writeEMPTY]⟩
theorem writeGeoms_total (fmt : Formatter) (n : Int) (geoms : List T)
    (hwf : WellFormedAll geoms) :
    ∃ texts, List.Forall₂ (fun g s => write fmt "" g n = (s, .nil)) geoms texts := by
  cases geoms with
  | nil => exact ⟨[], .nil⟩
  | cons g rest =>
    obtain ⟨h1, h2⟩ := hwf
    obtain ⟨s, hs⟩ := write_total fmt n g h1
    obtain ⟨texts, ht⟩ := writeGeoms_total fmt n rest h2
    exact ⟨s :: texts, .cons hs ht⟩
end

/-- Totality of `encode` on the geometries that satisfy the data-model invariants
(every member of a MultiPolygon having a final end): it returns a text, without
error and without panic. -/
theorem encode_total (fmt : Formatter) (n : Int) (g : T) (hwf : WellFormed g) :
    ∃ s, encode fmt g n = .ret s none := by
  obtain ⟨s, hs⟩ := write_total fmt n g hwf
  exact ⟨s, encode_of_write fmt g n s hs⟩

/-- C11 (the code at the failing input): on the MultiPolygon whose first member has
an empty `ends` array, `writeFlatCoords3` writes `()` for that member and then
indexes `ends[len(ends)-1]`, which is out of range: `encode` panics, for every
formatter and every `maxDecimalDigits`; the same happens when the member with
the empty `ends` array comes last. -/
theorem C11_empty_member_panics :
    (∀ (fmt : Formatter) (n : Int), encode fmt (.MultiPolygon multiPolygonGap) n = .panic) ∧
    (∀ (fmt : Formatter) (n : Int),
      (writeFlatCoords3 fmt "" (Slice.ofList multiPolygonGap.flatCoords) [[]] 2 n).2 =
        .panic) ∧
    (multiPolygonGap.endss.flatten.Pairwise (· < ·) ∧
      (∀ e ∈ multiPolygonGap.endss.flatten, multiPolygonGap.layout.Stride ∣ e) ∧
      multiPolygonGap.endss.flatten.getLast? =
        some (multiPolygonGap.flatCoords.length : Int)) ∧
    (∀ (fmt : Formatter) (n : Int),
      encode fmt (.MultiPolygon { multiPolygonGap with endss := [[8], []] }) n = .panic) := by
  refine ⟨?_, ?_, ⟨by decide, by decide, by decide⟩, ?_⟩
  · intro fmt n
    rfl
  · intro fmt n
    rfl
  · intro fmt n
    have hw : ∃ t, writeFlatCoords3 fmt "MULTIPOLYGON "
        (Slice.ofList multiPolygonGap.flatCoords) [[8], []] 2 n = (t, .panic) := by
      have h2 := writeFlatCoords2_wf fmt ("MULTIPOLYGON " ++ "(")
        (Slice.ofList multiPolygonGap.flatCoords) 0 2 n 2 [8] rfl (by decide)
        (by simp only [EndsOK, Slice.ofList, multiPolygonGap]; decide)
      simp only [writeFlatCoords3, writeFlatCoords3Loop, h2]
      rw [writeFlatCoords2_frame]
      rcases hw2 : writeFlatCoords2 fmt "" (Slice.ofList multiPolygonGap.flatCoords) 8 [] 2 n
        with ⟨t, o⟩
      have : o = .nil := by
        have := congrArg Prod.snd hw2
        simp [writeFlatCoords2, writeFlatCoords2Loop] at this
        exact this.symm
      subst this
      exact ⟨_, rfl⟩
    obtain ⟨t, ht⟩ := hw
    unfold encode
    have : write fmt "" (.MultiPolygon { multiPolygonGap with endss := [[8], []] }) n =
        (t, .panic) := by
      rw [write_MultiPolygon fmt "" _ n (by rfl)]
      exact ht
    rw [this]

theorem tokenizeFrom_word (w : List Char) (hw : ∀ c ∈ w, isSep c = false) :
    ∀ (acc rest : List Char), tokenizeFrom acc (w ++ rest) = tokenizeFrom (acc ++ w) rest := by
  induction w with
  | nil => intro acc rest; simp
  | cons c w ih =>
    intro acc rest
    have hc : isSep c = false := hw c (by simp)
    have := ih (fun d hd => hw d (by simp [hd])) (acc ++ [c]) rest
    simp [tokenizeFrom, hc, this]

theorem tokenizeFrom_sep (c : Char) (hc : isSep c = true) (acc rest : List Char) :
    tokenizeFrom acc (c :: rest) = flushWord acc ++ punct c ++ tokenizeFrom [] rest := by
  simp [tokenizeFrom, hc]

theorem tokenizeFrom_startsSep (acc rest : List Char) (h : startsSep rest = true) :
    tokenizeFrom acc rest = flushWord acc ++ tokenizeFrom [] rest := by
  cases rest with
  | nil => simp [tokenizeFrom, flushWord]
  | cons c r =>
    have hc : isSep c = true := h
    simp [tokenizeFrom, hc, flushWord]

theorem tokAs_word (w : List Char) (hne : w ≠ []) (hw : ∀ c ∈ w, isSep c = false) :
    TokAs w [.word w] := by
  intro rest hrest
  rw [tokenizeFrom_word w hw, tokenizeFrom_startsSep _ _ hrest]
  simp [flushWord, hne]

theorem tokCl_sep (c : Char) (hc : isSep c = true) : TokCl [c] (punct c) := by
  intro rest
  simp [tokenizeFrom, hc, flushWord]

theorem tokCl_nil : TokCl [] [] := by
  intro rest; simp

theorem tokCl_append (a b : List Char) (ta tb : List Token) (ha : TokCl a ta) (hb : TokCl b tb) :
    TokCl (a ++ b) (ta ++ tb) := by
  intro rest
  rw [List.append_assoc, ha, hb, List.append_assoc]

theorem tokCl_tokAs (a b : List Char) (ta tb : List Token) (ha : TokCl a ta) (hb : TokAs b tb) :
    TokAs (a ++ b) (ta ++ tb) := by
  intro rest hrest
  rw [List.append_assoc, ha, hb rest hrest, List.append_assoc]

theorem startsSep_append (b rest : List Char) (hne : b ≠ []) (hb : startsSep b = true) :
    startsSep (b ++ rest) = true := by
  cases b with
  | nil => exact absurd rfl hne
  | cons c b => exact hb

theorem tokAs_tokCl (a b : List Char) (ta tb : List Token) (ha : TokAs a ta) (hb : TokCl b tb)
    (hne : b ≠ []) (hs : startsSep b = true) : TokCl (a ++ b) (ta ++ tb) := by
  intro rest
  rw [List.append_assoc, ha _ (startsSep_append b rest hne hs), hb, List.append_assoc]

theorem tokAs_of_tokCl (a : List Char) (ta : List Token) (ha : TokCl a ta) : TokAs a ta :=
  fun rest _ => ha rest

theorem tokCl_word_blank (w : List Char) (hne : w ≠ []) (hw : ∀ c ∈ w, isSep c = false) :
    TokCl (w ++ [' ']) [.word w] := by
  have h := tokAs_tokCl w [' '] _ _ (tokAs_word w hne hw) (tokCl_sep ' ' (by decide))
    (by simp) (by decide)
  simpa [punct] using h

theorem tokCl_lparen : TokCl "(".data [.lparen] := tokCl_sep '(' (by decide)

theorem tokCl_rparen : TokCl ")".data [.rparen] := tokCl_sep ')' (by decide)

theorem tokCl_comma : TokCl ", ".data [.comma] := by
  have h := tokCl_append [','] [' '] _ _ (tokCl_sep ',' (by decide)) (tokCl_sep ' ' (by decide))
  simpa [punct] using h

theorem tokCl_blank : TokCl " ".data [] := tokCl_sep ' ' (by decide)

/-- The text after the first item of a separated list of items, closed by `)`. -/
theorem tokCl_sepTail {β : Type} (text : β → String) (tk : β → List Token) :
    ∀ (L : List β), (∀ b ∈ L, TokAs (text b).data (tk b)) →
      TokCl (sepTail ", " (L.map text) ++ ")").data (sepToks (L.map tk) ++ [.rparen]) ∧
      startsSep (sepTail ", " (L.map text) ++ ")").data = true ∧
      (sepTail ", " (L.map text) ++ ")").data ≠ [] := by
  intro L
  induction L with
  | nil =>
    intro _
    refine ⟨?_, by simp [sepTail]; rfl, by simp [sepTail]⟩
    simpa [sepTail, sepToks] using tokCl_rparen
  | cons b L ih =>
    intro h
    obtain ⟨ih1, ih2, ih3⟩ := ih (fun c hc => h c (by simp [hc]))
    have hb := h b (by simp)
    refine ⟨?_, ?_, ?_⟩
    · have h1 := tokAs_tokCl _ _ _ _ hb ih1 ih3 ih2
      have h2 := tokCl_append _ _ _ _ tokCl_comma h1
      simpa [sepTail, sepToks, String.data_append, List.append_assoc] using h2
    · simp [sepTail, String.data_append, startsSep]
      rfl
    · simp [sepTail, String.data_append]

theorem tokCl_group {β : Type} (text : β → String) (tk : β → List Token) (L : List β)
    (h : ∀ b ∈ L, TokAs (text b).data (tk b)) :
    TokCl ("(" ++ String.intercalate ", " (L.map text) ++ ")").data (groupToks (L.map tk)) := by
  cases L with
  | nil =>
    have h := tokCl_append _ _ _ _ tokCl_lparen tokCl_rparen
    simpa [groupToks, String.intercalate] using h
  | cons b L =>
    obtain ⟨h1, h2, h3⟩ := tokCl_sepTail text tk L (fun c hc => h c (by simp [hc]))
    have hb := h b (by simp)
    have h4 := tokCl_append _ _ _ _ tokCl_lparen (tokAs_tokCl _ _ _ _ hb h1 h3 h2)
    simpa [groupToks, intercalate_cons, String.data_append, List.append_assoc] using h4

theorem follows_not_word (R : List Token) (h : follows R = true) :
    ∀ w r, R ≠ .word w :: r := by
  intro w r hR
  subst hR
  simp [follows] at h

theorem parseTuple_ok (parse : FloatReader) (fmt : Formatter) (R : List Token)
    (hR : follows R = true) :
    ∀ (t : List Float64), (∀ x ∈ t, ExactToken parse fmt x) →
      parseTuple parse (tupleToks fmt t ++ R) = .ok (t, R) := by
  intro t
  induction t with
  | nil =>
    intro _
    cases R with
    | nil => simp [follows] at hR
    | cons a r =>
      cases a <;> simp [follows] at hR <;> simp [tupleToks, parseTuple]
  | cons x t ih =>
    intro h
    have hx := (h x (by simp)).2.2
    have iht := ih (fun y hy => h y (by simp [hy]))
    simp only [tupleToks, List.map_cons, List.cons_append, parseTuple] at iht ⊢
    have e : (⟨(fmt x (-1)).data⟩ : String) = fmt x (-1) := rfl
    rw [e, hx]
    simp only [List.append_eq]
    rw [iht]

theorem tupleItem_ok (parse : FloatReader) (fmt : Formatter) (k : Nat) (t : List Float64)
    (hk : t.length = k) (ht : ∀ x ∈ t, ExactToken parse fmt x) (R : List Token)
    (hR : follows R = true) :
    tupleItem parse k (tupleToks fmt t ++ R) = .ok (t, R) := by
  simp [tupleItem, parseTuple_ok parse fmt R hR t ht, hk]

theorem parseList_ok {α β : Type} (item : List Token → Except DecodeError (α × List Token))
    (val : β → α) (tk : β → List Token) (N : Nat) :
    ∀ (L : List β) (b : β),
      (∀ c ∈ b :: L, ∀ R, follows R = true → (tk c ++ R).length ≤ N →
        item (tk c ++ R) = .ok (val c, R)) →
      ∀ (fuel : Nat) (R : List Token),
        (tk b ++ (sepToks (L.map tk) ++ .rparen :: R)).length ≤ N →
        (tk b ++ (sepToks (L.map tk) ++ .rparen :: R)).length ≤ fuel →
        parseList item fuel (tk b ++ (sepToks (L.map tk) ++ .rparen :: R)) =
          .ok (val b :: L.map val, R) := by
  intro L
  induction L with
  | nil =>
    intro b h fuel R hN hf
    cases fuel with
    | zero => simp at hf
    | succ f =>
      have hb := h b (by simp) (.rparen :: R) rfl (by simpa [sepToks] using hN)
      simp only [List.map_nil, sepToks, List.nil_append, parseList, hb]
  | cons c L ih =>
    intro b h fuel R hN hf
    cases fuel with
    | zero => simp at hf
    | succ f =>
      simp only [List.map_cons, sepToks, List.cons_append, List.append_assoc] at hN hf ⊢
      have hb := h b (by simp) (.comma :: (tk c ++ (sepToks (L.map tk) ++ .rparen :: R))) rfl hN
      have hc := ih c (fun d hd => h d (by simp at hd ⊢; right; exact hd)) f R
        (by simp at hN ⊢; omega) (by simp at hf ⊢; omega)
      simp only [parseList, hb, hc]

theorem parseGroup_ok {α β : Type} (item : List Token → Except DecodeError (α × List Token))
    (val : β → α) (tk : β → List Token) (N : Nat) (L : List β) (hL : L ≠ [])
    (h : ∀ c ∈ L, ∀ R, follows R = true → (tk c ++ R).length ≤ N →
      item (tk c ++ R) = .ok (val c, R))
    (fuel : Nat) (R : List Token) (hN : (groupToks (L.map tk) ++ R).length ≤ N)
    (hf : (groupToks (L.map tk) ++ R).length ≤ fuel) :
    parseGroup item fuel (groupToks (L.map tk) ++ R) = .ok (L.map val, R) := by
  cases L with
  | nil => exact absurd rfl hL
  | cons b L =>
    simp only [List.map_cons, groupToks, List.cons_append, List.append_assoc, parseGroup,
      List.singleton_append] at hN hf ⊢
    exact parseList_ok item val tk N L b h fuel R (by simp at hN ⊢; omega)
      (by simp at hf ⊢; omega)

theorem tuples_succ (k m : Nat) (hk : 0 < k) (xs : List Float64)
    (hlen : xs.length = (m + 1) * k) :
    tuples k xs = xs.take k :: tuples k (xs.drop k) := by
  have h1 : xs.length / k = m + 1 := by rw [hlen]; exact Nat.mul_div_cancel _ hk
  have h2 : (xs.drop k).length / k = m := by
    rw [List.length_drop, hlen, Nat.succ_mul, Nat.add_sub_cancel]
    exact Nat.mul_div_cancel _ hk
  unfold tuples
  rw [h1, h2, List.range_succ_eq_map]
  simp only [List.map_cons, List.map_map, Nat.zero_mul, List.drop_zero]
  congr 1
  apply List.map_congr_left
  intro j _
  simp only [Function.comp, List.drop_drop, Nat.succ_mul]
  congr 2
  omega

theorem tuples_flatten (k : Nat) (hk : 0 < k) :
    ∀ (m : Nat) (xs : List Float64), xs.length = m * k → (tuples k xs).flatten = xs := by
  intro m
  induction m with
  | zero =>
    intro xs h
    have : xs = [] := List.length_eq_zero.mp (by simpa using h)
    subst this
    simp [tuples]
  | succ m ih =>
    intro xs h
    rw [tuples_succ k m hk xs h, List.flatten_cons, ih (xs.drop k), List.take_append_drop]
    rw [List.length_drop, h, Nat.succ_mul, Nat.add_sub_cancel]

theorem tuples_mem (k : Nat) (xs t : List Float64) (ht : t ∈ tuples k xs) :
    t.length = k ∧ ∀ x ∈ t, x ∈ xs := by
  unfold tuples at ht
  obtain ⟨j, hj, rfl⟩ := List.mem_map.mp ht
  have hj' : j < xs.length / k := List.mem_range.mp hj
  have hk : 0 < k := by
    rcases Nat.eq_zero_or_pos k with h | h
    · subst h; simp at hj'
    · exact h
  have h1 : (j + 1) * k ≤ xs.length :=
    le_trans (Nat.mul_le_mul_right k hj') (Nat.div_mul_le_self _ _)
  constructor
  · rw [List.length_take, List.length_drop]
    rw [Nat.succ_mul] at h1
    omega
  · intro x hx
    exact List.mem_of_mem_drop (List.mem_of_mem_take hx)

theorem tuples_ne_nil (k : Nat) (hk : 0 < k) (xs : List Float64) (hne : xs ≠ [])
    (hlen : xs.length % k = 0) : tuples k xs ≠ [] := by
  intro h
  have h1 := tuples_length k xs
  rw [h, List.length_nil] at h1
  have h2 : 0 < xs.length := List.length_pos.mpr hne
  have h3 : k ≤ xs.length := Nat.le_of_dvd h2 (Nat.dvd_of_mod_eq_zero hlen)
  have h4 : 0 < xs.length / k := Nat.div_pos h3 hk
  omega

theorem tuples_flatten_mod (k : Nat) (hk : 0 < k) (xs : List Float64)
    (hlen : xs.length % k = 0) : (tuples k xs).flatten = xs := by
  obtain ⟨m, hm⟩ := Nat.dvd_of_mod_eq_zero hlen
  exact tuples_flatten k hk m xs (by rw [hm, Nat.mul_comm])

theorem sub_length (xs : List Float64) (lo hi : Int) (h0 : 0 ≤ lo) (h1 : lo ≤ hi)
    (h2 : hi ≤ (xs.length : Int)) : ((sub xs lo hi).length : Int) = hi - lo := by
  unfold sub
  rw [List.length_drop, List.length_take]
  omega

theorem sub_mem (xs : List Float64) (lo hi : Int) (x : Float64) (h : x ∈ sub xs lo hi) :
    x ∈ xs := List.mem_of_mem_take (List.mem_of_mem_drop h)

theorem sub_self (xs : List Float64) (a : Int) : sub xs a a = [] := by
  unfold sub
  apply List.drop_eq_nil_of_le
  rw [List.length_take]
  omega

theorem sub_append (xs : List Float64) (a b c : Int) (h1 : a ≤ b) (h2 : b ≤ c) :
    sub xs a b ++ sub xs b c = sub xs a c := by
  unfold sub
  have e1 : xs.take b.toNat = (xs.take c.toNat).take b.toNat := by
    rw [List.take_take, Nat.min_eq_left (by omega)]
  rw [e1]
  generalize xs.take c.toNat = ys
  have e2 : (ys.take b.toNat).drop a.toNat = (ys.drop a.toNat).take (b.toNat - a.toNat) := by
    rw [List.drop_take]
  rw [e2]
  have e3 : ys.drop b.toNat = ys.drop (a.toNat + (b.toNat - a.toNat)) := by
    congr 1; omega
  rw [e3, List.drop_take_append_drop]

theorem sub_full (xs : List Float64) : sub xs 0 (xs.length : Int) = xs := by
  simp [sub]

theorem getLast_getD_cons (e start : Int) (rest : List Int) :
    (e :: rest).getLast?.getD start = rest.getLast?.getD e := by
  cases rest with
  | nil => rfl
  | cons a r =>
    rw [List.getLast?_cons_cons]
    cases h : (a :: r).getLast? with
    | none => simp at h
    | some v => rfl

theorem runs_facts (flat : List Float64) (k : Nat) (hk : 0 < k) (ends : List Int) :
    ∀ (start : Int), EndsOK flat.length k start ends → (start :: ends).Pairwise (· < ·) →
      (∀ r ∈ runs flat start ends, r ≠ [] ∧ r.length % k = 0 ∧ ∀ x ∈ r, x ∈ flat) ∧
      (runs flat start ends).flatten = sub flat start (ends.getLast?.getD start) ∧
      start ≤ ends.getLast?.getD start ∧
      endsFrom start ((runs flat start ends).map List.length) = ends := by
  induction ends with
  | nil =>
    intro start _ _
    simp [runs, sub_self, endsFrom]
  | cons e rest ih =>
    intro start hok hp
    obtain ⟨h0, h1, h2, h3, h4⟩ := hok
    have hlt : start < e := (List.pairwise_cons.mp hp).1 e (by simp)
    obtain ⟨i1, i2, i3, i4⟩ := ih e h4 (List.pairwise_cons.mp hp).2
    have hlen := sub_length flat start e h0 h1 h2
    refine ⟨?_, ?_, ?_, ?_⟩
    · intro r hr
      simp only [runs, List.mem_cons] at hr
      rcases hr with rfl | hr
      · refine ⟨?_, ?_, fun x hx => sub_mem flat start e x hx⟩
        · intro hnil
          rw [hnil] at hlen
          simp at hlen
          omega
        · obtain ⟨c, hc⟩ := h3
          have hc0 : 0 ≤ c := by
            by_contra hneg
            have : (k : Int) * c < 0 := Int.mul_neg_of_pos_of_neg (by exact_mod_cast hk) (by omega)
            omega
          have : (sub flat start e).length = k * c.toNat := by
            have h5 : ((sub flat start e).length : Int) = ((k * c.toNat : Nat) : Int) := by
              rw [hlen, hc]; push_cast; rw [Int.toNat_of_nonneg hc0]
            exact_mod_cast h5
          rw [this]
          exact Nat.mul_mod_right _ _
      · exact i1 r hr
    · rw [getLast_getD_cons]
      simp only [runs, List.flatten_cons]
      rw [i2, sub_append flat start e _ h1 i3]
    · rw [getLast_getD_cons]; omega
    · simp only [runs, List.map_cons, endsFrom]
      have : start + ((sub flat start e).length : Int) = e := by rw [hlen]; omega
      rw [this, i4]

theorem pairwise_last_flatten (start : Int) (ends : List Int) (tail : List Int)
    (hp : (start :: (ends ++ tail)).Pairwise (· < ·)) :
    (start :: ends).Pairwise (· < ·) ∧ ((ends.getLast?.getD start) :: tail).Pairwise (· < ·) := by
  constructor
  · exact hp.sublist (by simp)
  · rcases List.eq_nil_or_concat ends with rfl | ⟨init, last, rfl⟩
    · simpa using hp
    · simp only [List.concat_eq_append] at hp ⊢
      simp only [List.getLast?_concat, Option.getD_some]
      exact hp.sublist (by
        apply List.Sublist.cons
        simp only [List.append_assoc, List.singleton_append]
        exact List.sublist_append_right _ _)

theorem runss_facts (flat : List Float64) (k : Nat) (hk : 0 < k) (endss : List (List Int)) :
    ∀ (start : Int), EndssOK flat.length k start endss →
      (start :: endss.flatten).Pairwise (· < ·) →
      (∀ rs ∈ runss flat start endss, rs ≠ [] ∧
        ∀ r ∈ rs, r ≠ [] ∧ r.length % k = 0 ∧ ∀ x ∈ r, x ∈ flat) ∧
      (runss flat start endss).flatten.flatten =
        sub flat start (endss.flatten.getLast?.getD start) ∧
      start ≤ endss.flatten.getLast?.getD start ∧
      endssFrom start ((runss flat start endss).map (fun rs => rs.map List.length)) = endss := by
  induction endss with
  | nil =>
    intro start _ _
    simp [runss, sub_self, endssFrom]
  | cons ends rest ih =>
    intro start hok hp
    obtain ⟨last, hlast, hlt, hends, hrest⟩ := hok
    rw [List.flatten_cons] at hp
    obtain ⟨p1, p2⟩ := pairwise_last_flatten start ends rest.flatten hp
    have hgd : ends.getLast?.getD start = last := by rw [hlast]; rfl
    rw [hgd] at p2
    obtain ⟨r1, r2, r3, r4⟩ := runs_facts flat k hk ends start hends p1
    rw [hgd] at r2 r3
    obtain ⟨i1, i2, i3, i4⟩ := ih last hrest p2
    have hne : ends ≠ [] := by intro h; rw [h] at hlast; simp at hlast
    have hfl : (ends ++ rest.flatten).getLast?.getD start = rest.flatten.getLast?.getD last := by
      rw [List.getLast?_append, hlast]
      cases rest.flatten.getLast? <;> rfl
    refine ⟨?_, ?_, ?_, ?_⟩
    · intro rs hrs
      simp only [runss, List.mem_cons] at hrs
      rcases hrs with rfl | hrs
      · refine ⟨?_, r1⟩
        intro hnil
        have := runs_length flat ends start
        rw [hnil] at this
        exact hne (List.length_eq_zero.mp this.symm)
      · rw [hgd] at hrs
        exact i1 rs hrs
    · simp only [runss, List.flatten_cons, List.flatten_append]
      rw [hgd, r2, i2, hfl, sub_append flat start last _ r3 i3]
    · rw [List.flatten_cons, hfl]; omega
    · simp only [runss, List.map_cons, endssFrom]
      rw [r4, hgd]
      have hsum : start + (((runs flat start ends).map List.length).sum : Int) = last := by
        have h1 : ((runs flat start ends).map List.length).sum =
            (runs flat start ends).flatten.length := by
          rw [List.length_flatten]
        rw [h1, r2]
        have h0 : 0 ≤ start := by
          cases ends with
          | nil => exact absurd rfl hne
          | cons e es => exact hends.1
        have hcap : last ≤ (flat.length : Int) := by
          have := endsOK_le_last flat.length k ends start last hends (by
            cases ends with
            | nil => exact absurd rfl hne
            | cons e es => simpa [List.getLast?_cons_cons] using hlast)
          omega
        rw [sub_length flat start last h0 r3 hcap]
        omega
      rw [hsum, i4]

theorem polygonTexts_eq (fmt : Formatter) (n : Int) (k : Nat) (flat : List Float64)
    (endss : List (List Int)) :
    ∀ start, polygonTexts fmt n k flat start endss =
      (runss flat start endss).map (fun rs =>
        "(" ++ String.intercalate ", " (rs.map (ringText fmt n k)) ++ ")") := by
  induction endss with
  | nil => intro start; rfl
  | cons ends rest ih =>
    intro start
    simp only [polygonTexts, runss, List.map_cons, ih, polygonText]

theorem tokAs_coord (parse : FloatReader) (fmt : Formatter) (x : Float64)
    (hx : ExactToken parse fmt x) :
    TokAs (coordStr fmt x (-1)).data [.word (fmt x (-1)).data] := by
  rw [coordStr_default]
  exact tokAs_word _ hx.1 hx.2.1

theorem tokAs_spaceTail (parse : FloatReader) (fmt : Formatter) :
    ∀ (L : List Float64), (∀ x ∈ L, ExactToken parse fmt x) →
      ∀ (a : List Char) (ta : List Token), TokAs a ta →
        TokAs (a ++ (sepTail " " (L.map (fun x => coordStr fmt x (-1)))).data)
          (ta ++ tupleToks fmt L) := by
  intro L
  induction L with
  | nil =>
    intro _ a ta ha
    simpa [sepTail, tupleToks] using ha
  | cons x L ih =>
    intro h a ta ha
    have h1 := tokAs_tokCl a _ _ _ ha tokCl_blank (by decide) (by decide)
    have h2 := tokCl_tokAs _ _ _ _ h1 (tokAs_coord parse fmt x (h x (by simp)))
    have h3 := ih (fun y hy => h y (by simp [hy])) _ _ h2
    simpa [sepTail, tupleToks, String.data_append, List.append_assoc] using h3

theorem tokAs_tuple (parse : FloatReader) (fmt : Formatter) (t : List Float64) (hne : t ≠ [])
    (h : ∀ x ∈ t, ExactToken parse fmt x) :
    TokAs (tupleText fmt (-1) t).data (tupleToks fmt t) := by
  cases t with
  | nil => exact absurd rfl hne
  | cons x t =>
    have h1 := tokAs_spaceTail parse fmt t (fun y hy => h y (by simp [hy])) _ _
      (tokAs_coord parse fmt x (h x (by simp)))
    simpa [tupleText, intercalate_cons, String.data_append, tupleToks] using h1

theorem tokCl_ring (parse : FloatReader) (fmt : Formatter) (k : Nat) (hk : 0 < k)
    (xs : List Float64) (h : ∀ x ∈ xs, ExactToken parse fmt x) :
    TokCl (ringText fmt (-1) k xs).data (ringToks fmt k xs) := by
  unfold ringText ringToks
  apply tokCl_group
  intro t ht
  obtain ⟨h1, h2⟩ := tuples_mem k xs t ht
  apply tokAs_tuple parse fmt t
  · intro hnil
    rw [hnil] at h1
    simp at h1
    omega
  · intro x hx
    exact h x (h2 x hx)

theorem ringItem_ok (parse : FloatReader) (fmt : Formatter) (k : Nat) (hk : 0 < k)
    (xs : List Float64) (hne : xs ≠ []) (hlen : xs.length % k = 0)
    (h : ∀ x ∈ xs, ExactToken parse fmt x) (fuel : Nat) (R : List Token)
    (hf : (ringToks fmt k xs ++ R).length ≤ fuel) :
    ringItem parse k fuel (ringToks fmt k xs ++ R) = .ok (xs, R) := by
  unfold ringItem ringToks
  have := parseGroup_ok (tupleItem parse k) id (tupleToks fmt) fuel (tuples k xs)
    (tuples_ne_nil k hk xs hne hlen)
    (fun t ht R hR _ => tupleItem_ok parse fmt k t (tuples_mem k xs t ht).1
      (fun x hx => h x ((tuples_mem k xs t ht).2 x hx)) R hR)
    fuel R hf hf
  rw [this]
  simp [tuples_flatten_mod k hk xs hlen]

theorem specKeyword_word (g : T) (hg : g.supported = true) :
    (specKeyword g).data ≠ [] ∧ ∀ c ∈ (specKeyword g).data, isSep c = false := by
  cases g <;> first
    | (simp [T.supported] at hg; done)
    | (simp only [specKeyword]; constructor <;> decide)

theorem tokCl_header (g : T) (hg : g.supported = true) (hl : g.Layout.supported = true) :
    TokCl (specHeader g).data (headerToks g) := by
  obtain ⟨h1, h2⟩ := specKeyword_word g hg
  have hk := tokCl_word_blank _ h1 h2
  unfold specHeader headerToks
  generalize g.Layout = l at hl
  have hd : TokCl (if specDim l = "" then "" else specDim l ++ " ").data (dimToks l) := by
    cases l <;> first
      | (simp [Layout.supported] at hl; done)
      | exact tokCl_nil
      | exact tokCl_word_blank _ (by decide) (by decide)
  have := tokCl_append _ _ _ _ hk hd
  simpa [String.data_append] using this

theorem keywordKind_spec (g : T) (hg : g.supported = true) :
    keywordKind (specKeyword g).data = some (kindOf g) := by
  cases g <;> first
    | (simp [T.supported] at hg; done)
    | rfl

theorem parseDim_empty (l : Layout) (hl : l.supported = true) (R : List Token) :
    parseDim (dimToks l ++ .word "EMPTY".data :: R) = .ok (l, .word "EMPTY".data :: R) := by
  cases l <;> first
    | (simp [Layout.supported] at hl; done)
    | rfl

theorem parseDim_open (l : Layout) (hl : l.supported = true) (r : List Token) :
    parseDim (dimToks l ++ .lparen :: r) = .ok (l, .lparen :: r) := by
  cases l <;> first
    | (simp [Layout.supported] at hl; done)
    | rfl

theorem parseGeom_empty (parse : FloatReader) (fuel : Nat) (g : T) (R : List Token)
    (hg : g.supported = true) (hl : g.Layout.supported = true) :
    parseGeom parse (fuel + 1) (headerToks g ++ .word "EMPTY".data :: R) =
      match emptyGeom (kindOf g) g.Layout with
      | .ok d => .ok (d, R)
      | .error e => .error e := by
  show parseGeom parse (fuel + 1)
    (.word (specKeyword g).data :: (dimToks g.Layout ++ .word "EMPTY".data :: R)) = _
  rw [parseGeom, keywordKind_spec g hg]
  simp only []
  rw [parseDim_empty g.Layout hl R]
  simp only [if_true]

theorem parseGeom_open (parse : FloatReader) (fuel : Nat) (g : T) (r : List Token)
    (hg : g.supported = true) (hl : g.Layout.supported = true) :
    parseGeom parse (fuel + 1) (headerToks g ++ .lparen :: r) =
      match kindOf g with
      | .GeometryCollection =>
        match parseList (parseGeom parse fuel) fuel r with
        | .error e => .error e
        | .ok (geoms, r) => .ok (.GeometryCollection g.Layout geoms 0, r)
      | k => parseBody parse fuel k g.Layout r := by
  show parseGeom parse (fuel + 1)
    (.word (specKeyword g).data :: (dimToks g.Layout ++ .lparen :: r)) = _
  rw [parseGeom, keywordKind_spec g hg]
  simp only []
  rw [parseDim_open g.Layout hl r]

theorem wf_supported (g : T) (hwf : WellFormed g) (hnd : NonDegenerate g) :
    g.supported = true ∧ g.Layout.supported = true := by
  cases g <;> simp only [WellFormed, NonDegenerate] at hwf hnd <;>
    first
      | exact ⟨rfl, hwf.1⟩
      | exact ⟨rfl, hnd.1⟩

theorem newPointEmpty_flat (l : Layout) (hl : l.supported = true) :
    (NewPointEmpty l).flatCoords = List.replicate l.Stride.toNat emptyPointFloat64 := by
  cases l <;> first
    | (simp [Layout.supported] at hl; done)
    | rfl

theorem emptyGeom_shape (g : T) (hwf : WellFormed g) (hnd : NonDegenerate g)
    (hE : g.Empty = some true) :
    ∃ d, emptyGeom (kindOf g) g.Layout = .ok d ∧ SameShape g d := by
  cases g with
  | Point p =>
    refine ⟨.Point (NewPointEmpty p.layout), rfl, _, rfl, rfl, ?_⟩
    simp only [WellFormed, NonDegenerate, T.Empty] at hwf hnd hE
    rw [newPointEmpty_flat _ hwf.1]
    symm
    rw [List.eq_replicate_iff]
    refine ⟨?_, hnd.2 hE⟩
    have := hnd.1
    omega
  | LineString p =>
    simp only [T.Empty, geom0.Empty, Option.some.injEq, List.isEmpty_iff] at hE
    exact ⟨_, rfl, _, rfl, rfl, hE.symm⟩
  | LinearRing p =>
    simp only [T.Empty, geom0.Empty, Option.some.injEq, List.isEmpty_iff] at hE
    exact ⟨_, rfl, _, rfl, rfl, hE.symm⟩
  | MultiPoint p =>
    simp only [T.Empty, geom0.Empty, Option.some.injEq, List.isEmpty_iff] at hE
    exact ⟨_, rfl, _, rfl, rfl, hE.symm⟩
  | Polygon p =>
    simp only [T.Empty, geom0.Empty, Option.some.injEq, List.isEmpty_iff] at hE
    simp only [NonDegenerate] at hnd
    exact ⟨_, rfl, _, rfl, rfl, hE.symm, (hnd hE).symm⟩
  | MultiLineString p =>
    simp only [T.Empty, geom0.Empty, Option.some.injEq, List.isEmpty_iff] at hE
    simp only [NonDegenerate] at hnd
    exact ⟨_, rfl, _, rfl, rfl, hE.symm, (hnd hE).symm⟩
  | MultiPolygon p =>
    simp only [T.Empty, geom0.Empty, Option.some.injEq, List.isEmpty_iff] at hE
    simp only [NonDegenerate] at hnd
    exact ⟨_, rfl, _, rfl, rfl, hE.symm, (hnd hE).symm⟩
  | GeometryCollection l geoms srid =>
    simp only [T.Empty, GeometryCollection.Empty, Option.some.injEq, List.isEmpty_iff] at hE
    subst hE
    refine ⟨.GeometryCollection l [] 0, rfl, ?_⟩
    simp only [SameShape]
    exact ⟨[], 0, rfl, by simp only [SameShapes]⟩
  | other l e => simp only [WellFormed] at hwf

theorem tokAs_nil_eq (s : String) (ts : List Token) (h : TokAs s.data ts) : tokenize s = ts := by
  have := h [] rfl
  simpa [tokenize, tokenizeFrom, flushWord] using this

theorem decodes_empty (parse : FloatReader) (fmt : Formatter) (g : T) (hwf : WellFormed g)
    (hnd : NonDegenerate g) (hE : g.Empty = some true) :
    ∃ s ts d, Decodes parse fmt g s ts d := by
  obtain ⟨hg, hl⟩ := wf_supported g hwf hnd
  obtain ⟨d, hd, hs⟩ := emptyGeom_shape g hwf hnd hE
  refine ⟨specHeader g ++ "EMPTY", headerToks g ++ [.word "EMPTY".data], d,
    write_empty fmt g (-1) hg hl hE, ?_, hs, ?_⟩
  · have := tokCl_tokAs _ _ _ _ (tokCl_header g hg hl)
      (tokAs_word "EMPTY".data (by decide) (by decide))
    simpa [String.data_append] using this
  · intro fuel R hf
    cases fuel with
    | zero => simp [headerToks] at hf
    | succ f =>
      rw [List.append_assoc, List.singleton_append, parseGeom_empty parse f g R hg hl, hd]

theorem decodes_point (parse : FloatReader) (fmt : Formatter) (p : Point)
    (hwf : WellFormed (.Point p)) (hnd : NonDegenerate (.Point p))
    (hE : Point.Empty p = some false)
    (hx : ∀ x ∈ p.flatCoords, ExactToken parse fmt x) :
    ∃ s ts d, Decodes parse fmt (.Point p) s ts d := by
  obtain ⟨hg, hl⟩ := wf_supported _ hwf hnd
  simp only [WellFormed, NonDegenerate] at hwf hnd
  obtain ⟨hlp, hstride, hne, _⟩ := hwf
  obtain ⟨hlen, _⟩ := hnd
  obtain ⟨hk, hks⟩ := stride_pos p.layout hlp
  have hlenN : p.flatCoords.length = p.layout.Stride.toNat := by omega
  have hres : (Slice.ofList p.flatCoords).reslice 0 p.layout.Stride =
      some ⟨p.flatCoords, p.layout.Stride.toNat⟩ := by
    have := reslice_ok (Slice.ofList p.flatCoords) 0 p.layout.Stride.toNat 0 p.layout.Stride
      rfl (by simpa using hks) (by simp [Slice.ofList, hlenN])
    simpa [Slice.ofList] using this
  have helems : (⟨p.flatCoords, p.layout.Stride.toNat⟩ : Slice).elems = p.flatCoords := by
    simp [Slice.elems, ← hlenN]
  have hw : write fmt "" (.Point p) (-1) =
      (specHeader (.Point p) ++ ("(" ++ tupleText fmt (-1) p.flatCoords ++ ")"), .nil) := by
    rw [write_Point fmt "" p (-1) hlp, hE]
    simp only []
    rw [writeFlatCoords0_eq, hres]
    simp only [helems, String.empty_append]
  refine ⟨_, headerToks (.Point p) ++ ([.lparen] ++ (tupleToks fmt p.flatCoords ++ [.rparen])),
    .Point (NewPointFlat p.layout p.flatCoords), hw, ?_, ?_, ?_⟩
  · have h1 := tokAs_tokCl _ _ _ _ (tokAs_tuple parse fmt p.flatCoords hne hx) tokCl_rparen
      (by decide) (by decide)
    have h2 := tokCl_append _ _ _ _ (tokCl_header _ hg hl) (tokCl_append _ _ _ _ tokCl_lparen h1)
    have h3 := tokAs_of_tokCl _ _ h2
    simpa [String.data_append, List.append_assoc] using h3
  · simp only [SameShape]
    exact ⟨_, rfl, rfl, rfl⟩
  · intro fuel R hf
    cases fuel with
    | zero => simp [headerToks] at hf
    | succ f =>
      simp only [List.append_assoc, List.singleton_append, List.cons_append, List.nil_append]
      rw [parseGeom_open parse f _ _ hg hl]
      simp only [kindOf, parseBody, T.Layout]
      rw [tupleItem_ok parse fmt _ p.flatCoords hlenN hx (.rparen :: R) rfl]

theorem group_open (X : List (List Token)) (R : List Token) :
    ∃ body, groupToks X ++ R = .lparen :: body := by
  cases X with
  | nil => exact ⟨_, rfl⟩
  | cons t X => exact ⟨_, rfl⟩

theorem parseList_ring (parse : FloatReader) (fmt : Formatter) (k : Nat) (hk : 0 < k)
    (xs : List Float64) (hne : xs ≠ []) (hlen : xs.length % k = 0)
    (h : ∀ x ∈ xs, ExactToken parse fmt x) (fuel : Nat) (R body : List Token)
    (hb : ringToks fmt k xs ++ R = .lparen :: body)
    (hf : (ringToks fmt k xs ++ R).length ≤ fuel) :
    parseList (tupleItem parse k) fuel body = .ok (tuples k xs, R) := by
  have := parseGroup_ok (tupleItem parse k) id (tupleToks fmt) fuel (tuples k xs)
    (tuples_ne_nil k hk xs hne hlen)
    (fun t ht R hR _ => tupleItem_ok parse fmt k t (tuples_mem k xs t ht).1
      (fun x hx => h x ((tuples_mem k xs t ht).2 x hx)) R hR)
    fuel R hf hf
  unfold ringToks at hb
  rw [hb] at this
  simpa [parseGroup] using this

theorem headerToks_length (g : T) : 1 ≤ (headerToks g).length := by
  simp [headerToks]

theorem decodes_lineString (parse : FloatReader) (fmt : Formatter) (p : geom0)
    (hwf : WellFormed (.LineString p)) (hne : p.flatCoords ≠ [])
    (hx : ∀ x ∈ p.flatCoords, ExactToken parse fmt x) :
    ∃ s ts d, Decodes parse fmt (.LineString p) s ts d := by
  obtain ⟨hg, hl⟩ := wf_supported _ hwf trivial
  simp only [WellFormed] at hwf
  obtain ⟨hlp, hlen⟩ := hwf
  obtain ⟨hk, hks⟩ := stride_pos p.layout hlp
  have hw : write fmt "" (.LineString p) (-1) =
      (specHeader (.LineString p) ++ ringText fmt (-1) p.layout.Stride.toNat p.flatCoords,
        .nil) := by
    rw [write_LineString fmt "" p (-1) hlp]
    have : p.Empty = false := by simpa [geom0.Empty] using hne
    rw [this, write_depth1_wf fmt _ p (-1) hlp hlen]
    simp
  refine ⟨_, headerToks (.LineString p) ++ ringToks fmt p.layout.Stride.toNat p.flatCoords,
    .LineString (newFlat p.layout p.flatCoords), hw, ?_, ?_, ?_⟩
  · have h2 := tokCl_append _ _ _ _ (tokCl_header _ hg hl)
      (tokCl_ring parse fmt _ hk p.flatCoords hx)
    have h3 := tokAs_of_tokCl _ _ h2
    simpa [String.data_append] using h3
  · simp only [SameShape]
    exact ⟨_, rfl, rfl, rfl⟩
  · intro fuel R hf
    cases fuel with
    | zero => simp [headerToks] at hf
    | succ f =>
      rw [List.append_assoc] at hf ⊢
      obtain ⟨body, hb⟩ := group_open _ R
      have hf' : (ringToks fmt p.layout.Stride.toNat p.flatCoords ++ R).length ≤ f := by
        have := headerToks_length (.LineString p)
        rw [List.length_append] at hf
        omega
      have hp := parseList_ring parse fmt _ hk p.flatCoords hne hlen hx f R body hb hf'
      rw [show ringToks fmt p.layout.Stride.toNat p.flatCoords ++ R = .lparen :: body from hb,
        parseGeom_open parse f _ _ hg hl]
      simp only [kindOf, parseBody, T.Layout, hp, tuples_flatten_mod _ hk p.flatCoords hlen]

theorem decodes_linearRing (parse : FloatReader) (fmt : Formatter) (p : geom0)
    (hwf : WellFormed (.LinearRing p)) (hne : p.flatCoords ≠ [])
    (hx : ∀ x ∈ p.flatCoords, ExactToken parse fmt x) :
    ∃ s ts d, Decodes parse fmt (.LinearRing p) s ts d := by
  obtain ⟨hg, hl⟩ := wf_supported _ hwf trivial
  simp only [WellFormed] at hwf
  obtain ⟨hlp, hlen⟩ := hwf
  obtain ⟨hk, hks⟩ := stride_pos p.layout hlp
  have hw : write fmt "" (.LinearRing p) (-1) =
      (specHeader (.LinearRing p) ++ ringText fmt (-1) p.layout.Stride.toNat p.flatCoords,
        .nil) := by
    rw [write_LinearRing fmt "" p (-1) hlp]
    have : p.Empty = false := by simpa [geom0.Empty] using hne
    rw [this, write_depth1_wf fmt _ p (-1) hlp hlen]
    simp
  refine ⟨_, headerToks (.LinearRing p) ++ ringToks fmt p.layout.Stride.toNat p.flatCoords,
    .LineString (newFlat p.layout p.flatCoords), hw, ?_, ?_, ?_⟩
  · have h2 := tokCl_append _ _ _ _ (tokCl_header _ hg hl)
      (tokCl_ring parse fmt _ hk p.flatCoords hx)
    have h3 := tokAs_of_tokCl _ _ h2
    simpa [String.data_append] using h3
  · simp only [SameShape]
    exact ⟨_, rfl, rfl, rfl⟩
  · intro fuel R hf
    cases fuel with
    | zero => simp [headerToks] at hf
    | succ f =>
      rw [List.append_assoc] at hf ⊢
      obtain ⟨body, hb⟩ := group_open _ R
      have hf' : (ringToks fmt p.layout.Stride.toNat p.flatCoords ++ R).length ≤ f := by
        have := headerToks_length (.LinearRing p)
        rw [List.length_append] at hf
        omega
      have hp := parseList_ring parse fmt _ hk p.flatCoords hne hlen hx f R body hb hf'
      rw [show ringToks fmt p.layout.Stride.toNat p.flatCoords ++ R = .lparen :: body from hb,
        parseGeom_open parse f _ _ hg hl]
      simp only [kindOf, parseBody, T.Layout, hp, tuples_flatten_mod _ hk p.flatCoords hlen]

theorem decodes_multiPoint (parse : FloatReader) (fmt : Formatter) (p : geom0)
    (hwf : WellFormed (.MultiPoint p)) (hne : p.flatCoords ≠ [])
    (hx : ∀ x ∈ p.flatCoords, ExactToken parse fmt x) :
    ∃ s ts d, Decodes parse fmt (.MultiPoint p) s ts d := by
  obtain ⟨hg, hl⟩ := wf_supported _ hwf trivial
  simp only [WellFormed] at hwf
  obtain ⟨hlp, hlen⟩ := hwf
  obtain ⟨hk, hks⟩ := stride_pos p.layout hlp
  have hw : write fmt "" (.MultiPoint p) (-1) =
      (specHeader (.MultiPoint p) ++ ringText fmt (-1) p.layout.Stride.toNat p.flatCoords,
        .nil) := by
    rw [write_MultiPoint fmt "" p (-1) hlp]
    have : p.Empty = false := by simpa [geom0.Empty] using hne
    rw [this, write_depth1_wf fmt _ p (-1) hlp hlen]
    simp
  refine ⟨_, headerToks (.MultiPoint p) ++ ringToks fmt p.layout.Stride.toNat p.flatCoords,
    .MultiPoint (newFlat p.layout p.flatCoords), hw, ?_, ?_, ?_⟩
  · have h2 := tokCl_append _ _ _ _ (tokCl_header _ hg hl)
      (tokCl_ring parse fmt _ hk p.flatCoords hx)
    have h3 := tokAs_of_tokCl _ _ h2
    simpa [String.data_append] using h3
  · simp only [SameShape]
    exact ⟨_, rfl, rfl, rfl⟩
  · intro fuel R hf
    cases fuel with
    | zero => simp [headerToks] at hf
    | succ f =>
      rw [List.append_assoc] at hf ⊢
      obtain ⟨body, hb⟩ := group_open _ R
      have hf' : (ringToks fmt p.layout.Stride.toNat p.flatCoords ++ R).length ≤ f := by
        have := headerToks_length (.MultiPoint p)
        rw [List.length_append] at hf
        omega
      have hp := parseList_ring parse fmt _ hk p.flatCoords hne hlen hx f R body hb hf'
      rw [show ringToks fmt p.layout.Stride.toNat p.flatCoords ++ R = .lparen :: body from hb,
        parseGeom_open parse f _ _ hg hl]
      simp only [kindOf, parseBody, T.Layout, hp, tuples_flatten_mod _ hk p.flatCoords hlen]

theorem tokCl_rings (parse : FloatReader) (fmt : Formatter) (k : Nat) (hk : 0 < k)
    (L : List (List Float64)) (h : ∀ r ∈ L, ∀ x ∈ r, ExactToken parse fmt x) :
    TokCl ("(" ++ String.intercalate ", " (L.map (ringText fmt (-1) k)) ++ ")").data
      (groupToks (L.map (ringToks fmt k))) :=
  tokCl_group (ringText fmt (-1) k) (ringToks fmt k) L
    (fun r hr => tokAs_of_tokCl _ _ (tokCl_ring parse fmt k hk r (h r hr)))

theorem parseGroup_rings (parse : FloatReader) (fmt : Formatter) (k : Nat) (hk : 0 < k)
    (L : List (List Float64)) (hL : L ≠ [])
    (h : ∀ r ∈ L, r ≠ [] ∧ r.length % k = 0 ∧ ∀ x ∈ r, ExactToken parse fmt x)
    (N fuel : Nat) (R : List Token)
    (hN : (groupToks (L.map (ringToks fmt k)) ++ R).length ≤ N)
    (hf : (groupToks (L.map (ringToks fmt k)) ++ R).length ≤ fuel) :
    parseGroup (ringItem parse k N) fuel (groupToks (L.map (ringToks fmt k)) ++ R) =
      .ok (L, R) := by
  have := parseGroup_ok (ringItem parse k N) id (ringToks fmt k) N L hL
    (fun r hr R _ hb => ringItem_ok parse fmt k hk r (h r hr).1 (h r hr).2.1 (h r hr).2.2 N R hb)
    fuel R hN hf
  simpa using this

theorem decodes_polygon (parse : FloatReader) (fmt : Formatter) (p : geom2)
    (hwf : WellFormed (.Polygon p)) (hne : p.flatCoords ≠ [])
    (hx : ∀ x ∈ p.flatCoords, ExactToken parse fmt x) :
    ∃ s ts d, Decodes parse fmt (.Polygon p) s ts d := by
  have hg : (T.Polygon p).supported = true := rfl
  simp only [WellFormed] at hwf
  obtain ⟨hlp, hinv⟩ := hwf
  have hl : (T.Polygon p).Layout.supported = true := hlp
  have hinv := hinv.resolve_left hne
  obtain ⟨hk, hks⟩ := stride_pos p.layout hlp
  have hok := endsOK_of_invariant p.layout.Stride p.layout.Stride.toNat p.flatCoords.length hks
    p.ends hinv
  obtain ⟨r1, r2, _, r4⟩ := runs_facts p.flatCoords _ hk p.ends 0 hok hinv.1
  have hlast : p.ends.getLast?.getD 0 = (p.flatCoords.length : Int) := by rw [hinv.2.2]; rfl
  rw [hlast, sub_full] at r2
  have hw : write fmt "" (.Polygon p) (-1) =
      (specHeader (.Polygon p) ++
        polygonText fmt (-1) p.layout.Stride.toNat p.flatCoords 0 p.ends, .nil) := by
    rw [write_Polygon fmt "" p (-1) hlp]
    have : p.togeom0.Empty = false := by simpa [geom0.Empty] using hne
    rw [this, writeFlatCoords2_wf fmt _ _ 0 _ (-1) p.layout.Stride.toNat p.ends hks hk
      (by simpa [Slice.ofList] using hok)]
    simp [Slice.ofList]
  have hex : ∀ r ∈ runs p.flatCoords 0 p.ends, ∀ x ∈ r, ExactToken parse fmt x :=
    fun r hr x hxr => hx x ((r1 r hr).2.2 x hxr)
  have hLne : runs p.flatCoords 0 p.ends ≠ [] := by
    intro hnil
    have := runs_length p.flatCoords p.ends 0
    rw [hnil] at this
    have h0 : p.ends = [] := List.length_eq_zero.mp this.symm
    rw [h0] at hinv
    simp [endsInvariant] at hinv
  refine ⟨_, headerToks (.Polygon p) ++
      groupToks ((runs p.flatCoords 0 p.ends).map (ringToks fmt p.layout.Stride.toNat)),
    .Polygon { newFlat p.layout p.flatCoords with ends := p.ends }, hw, ?_, ?_, ?_⟩
  · have h2 := tokCl_append _ _ _ _ (tokCl_header _ hg hl)
      (tokCl_rings parse fmt _ hk _ hex)
    have h3 := tokAs_of_tokCl _ _ h2
    simpa [String.data_append, polygonText] using h3
  · simp only [SameShape]
    exact ⟨_, rfl, rfl, rfl, rfl⟩
  · intro fuel R hf
    cases fuel with
    | zero => simp [headerToks] at hf
    | succ f =>
      rw [List.append_assoc] at hf ⊢
      obtain ⟨body, hb⟩ := group_open
        ((runs p.flatCoords 0 p.ends).map (ringToks fmt p.layout.Stride.toNat)) R
      have hf' : (groupToks ((runs p.flatCoords 0 p.ends).map
          (ringToks fmt p.layout.Stride.toNat)) ++ R).length ≤ f := by
        have := headerToks_length (.Polygon p)
        rw [List.length_append] at hf
        omega
      have hp := parseGroup_rings parse fmt _ hk _ hLne
        (fun r hr => ⟨(r1 r hr).1, (r1 r hr).2.1, hex r hr⟩) f f R hf' hf'
      rw [hb] at hp ⊢
      rw [parseGeom_open parse f _ _ hg hl]
      simp only [parseGroup] at hp
      simp only [kindOf, parseBody, T.Layout, hp, r2, r4]

theorem decodes_multiLineString (parse : FloatReader) (fmt : Formatter) (p : geom2)
    (hwf : WellFormed (.MultiLineString p)) (hne : p.flatCoords ≠ [])
    (hx : ∀ x ∈ p.flatCoords, ExactToken parse fmt x) :
    ∃ s ts d, Decodes parse fmt (.MultiLineString p) s ts d := by
  have hg : (T.MultiLineString p).supported = true := rfl
  simp only [WellFormed] at hwf
  obtain ⟨hlp, hinv⟩ := hwf
  have hl : (T.MultiLineString p).Layout.supported = true := hlp
  have hinv := hinv.resolve_left hne
  obtain ⟨hk, hks⟩ := stride_pos p.layout hlp
  have hok := endsOK_of_invariant p.layout.Stride p.layout.Stride.toNat p.flatCoords.length hks
    p.ends hinv
  obtain ⟨r1, r2, _, r4⟩ := runs_facts p.flatCoords _ hk p.ends 0 hok hinv.1
  have hlast : p.ends.getLast?.getD 0 = (p.flatCoords.length : Int) := by rw [hinv.2.2]; rfl
  rw [hlast, sub_full] at r2
  have hw : write fmt "" (.MultiLineString p) (-1) =
      (specHeader (.MultiLineString p) ++
        polygonText fmt (-1) p.layout.Stride.toNat p.flatCoords 0 p.ends, .nil) := by
    rw [write_MultiLineString fmt "" p (-1) hlp]
    have : p.togeom0.Empty = false := by simpa [geom0.Empty] using hne
    rw [this, writeFlatCoords2_wf fmt _ _ 0 _ (-1) p.layout.Stride.toNat p.ends hks hk
      (by simpa [Slice.ofList] using hok)]
    simp [Slice.ofList]
  have hex : ∀ r ∈ runs p.flatCoords 0 p.ends, ∀ x ∈ r, ExactToken parse fmt x :=
    fun r hr x hxr => hx x ((r1 r hr).2.2 x hxr)
  have hLne : runs p.flatCoords 0 p.ends ≠ [] := by
    intro hnil
    have := runs_length p.flatCoords p.ends 0
    rw [hnil] at this
    have h0 : p.ends = [] := List.length_eq_zero.mp this.symm
    rw [h0] at hinv
    simp [endsInvariant] at hinv
  refine ⟨_, headerToks (.MultiLineString p) ++
      groupToks ((runs p.flatCoords 0 p.ends).map (ringToks fmt p.layout.Stride.toNat)),
    .MultiLineString { newFlat p.layout p.flatCoords with ends := p.ends }, hw, ?_, ?_, ?_⟩
  · have h2 := tokCl_append _ _ _ _ (tokCl_header _ hg hl)
      (tokCl_rings parse fmt _ hk _ hex)
    have h3 := tokAs_of_tokCl _ _ h2
    simpa [String.data_append, polygonText] using h3
  · simp only [SameShape]
    exact ⟨_, rfl, rfl, rfl, rfl⟩
  · intro fuel R hf
    cases fuel with
    | zero => simp [headerToks] at hf
    | succ f =>
      rw [List.append_assoc] at hf ⊢
      obtain ⟨body, hb⟩ := group_open
        ((runs p.flatCoords 0 p.ends).map (ringToks fmt p.layout.Stride.toNat)) R
      have hf' : (groupToks ((runs p.flatCoords 0 p.ends).map
          (ringToks fmt p.layout.Stride.toNat)) ++ R).length ≤ f := by
        have := headerToks_length (.MultiLineString p)
        rw [List.length_append] at hf
        omega
      have hp := parseGroup_rings parse fmt _ hk _ hLne
        (fun r hr => ⟨(r1 r hr).1, (r1 r hr).2.1, hex r hr⟩) f f R hf' hf'
      rw [hb] at hp ⊢
      rw [parseGeom_open parse f _ _ hg hl]
      simp only [parseGroup] at hp
      simp only [kindOf, parseBody, T.Layout, hp, r2, r4]

theorem decodes_multiPolygon (parse : FloatReader) (fmt : Formatter) (p : geom3)
    (hwf : WellFormed (.MultiPolygon p)) (hne : p.flatCoords ≠ [])
    (hx : ∀ x ∈ p.flatCoords, ExactToken parse fmt x) :
    ∃ s ts d, Decodes parse fmt (.MultiPolygon p) s ts d := by
  have hg : (T.MultiPolygon p).supported = true := rfl
  simp only [WellFormed] at hwf
  obtain ⟨hlp, hinv⟩ := hwf
  have hl : (T.MultiPolygon p).Layout.supported = true := hlp
  have hinv := hinv.resolve_left hne
  obtain ⟨hk, hks⟩ := stride_pos p.layout hlp
  have hok := endssOK_of_invariant p.layout.Stride p.layout.Stride.toNat p.flatCoords.length hks
    p.endss hinv
  obtain ⟨r1, r2, _, r4⟩ := runss_facts p.flatCoords _ hk p.endss 0 hok hinv.2.1
  have hlast : p.endss.flatten.getLast?.getD 0 = (p.flatCoords.length : Int) := by
    rw [hinv.2.2.2]; rfl
  rw [hlast, sub_full] at r2
  have hw : write fmt "" (.MultiPolygon p) (-1) =
      (specHeader (.MultiPolygon p) ++ ("(" ++ String.intercalate ", "
        ((runss p.flatCoords 0 p.endss).map (fun rs => "(" ++ String.intercalate ", "
          (rs.map (ringText fmt (-1) p.layout.Stride.toNat)) ++ ")")) ++ ")"), .nil) := by
    rw [write_MultiPolygon fmt "" p (-1) hlp]
    have : p.togeom0.Empty = false := by simpa [geom0.Empty] using hne
    rw [this, writeFlatCoords3_wf fmt _ _ _ (-1) p.layout.Stride.toNat p.endss hks hk
      (by simpa [Slice.ofList] using hok), polygonTexts_eq]
    simp [Slice.ofList]
  have hex : ∀ rs ∈ runss p.flatCoords 0 p.endss, ∀ r ∈ rs, ∀ x ∈ r, ExactToken parse fmt x :=
    fun rs hrs r hr x hxr => hx x (((r1 rs hrs).2 r hr).2.2 x hxr)
  have hLne : runss p.flatCoords 0 p.endss ≠ [] := by
    cases hE : p.endss with
    | nil =>
      rw [hE] at hinv
      simp [endssInvariant, endsInvariant] at hinv
    | cons e es => simp [runss]
  refine ⟨_, headerToks (.MultiPolygon p) ++
      groupToks ((runss p.flatCoords 0 p.endss).map
        (fun rs => groupToks (rs.map (ringToks fmt p.layout.Stride.toNat)))),
    .MultiPolygon { newFlat p.layout p.flatCoords with endss := p.endss }, hw, ?_, ?_, ?_⟩
  · have h1 := tokCl_group
      (fun rs => "(" ++ String.intercalate ", "
        (rs.map (ringText fmt (-1) p.layout.Stride.toNat)) ++ ")")
      (fun rs => groupToks (rs.map (ringToks fmt p.layout.Stride.toNat)))
      (runss p.flatCoords 0 p.endss)
      (fun rs hrs => tokAs_of_tokCl _ _ (tokCl_rings parse fmt _ hk rs (hex rs hrs)))
    have h2 := tokCl_append _ _ _ _ (tokCl_header _ hg hl) h1
    have h3 := tokAs_of_tokCl _ _ h2
    simpa [String.data_append] using h3
  · simp only [SameShape]
    exact ⟨_, rfl, rfl, rfl, rfl⟩
  · intro fuel R hf
    cases fuel with
    | zero => simp [headerToks] at hf
    | succ f =>
      rw [List.append_assoc] at hf ⊢
      obtain ⟨body, hb⟩ := group_open
        ((runss p.flatCoords 0 p.endss).map
          (fun rs => groupToks (rs.map (ringToks fmt p.layout.Stride.toNat)))) R
      have hf' : (groupToks ((runss p.flatCoords 0 p.endss).map
          (fun rs => groupToks (rs.map (ringToks fmt p.layout.Stride.toNat)))) ++ R).length
            ≤ f := by
        have := headerToks_length (.MultiPolygon p)
        rw [List.length_append] at hf
        omega
      have hp := parseGroup_ok (parseGroup (ringItem parse p.layout.Stride.toNat f) f) id
        (fun rs => groupToks (rs.map (ringToks fmt p.layout.Stride.toNat))) f
        (runss p.flatCoords 0 p.endss) hLne
        (fun rs hrs R _ hb => by
          have := parseGroup_rings parse fmt _ hk rs (r1 rs hrs).1
            (fun r hr => ⟨((r1 rs hrs).2 r hr).1, ((r1 rs hrs).2 r hr).2.1, hex rs hrs r hr⟩)
            f f R hb hb
          simpa using this)
        f R hf' hf'
      rw [hb] at hp ⊢
      rw [parseGeom_open parse f _ _ hg hl]
      simp only [parseGroup, List.map_id] at hp
      simp only [kindOf, parseBody, T.Layout, hp, r2, r4]

theorem forall₂_mem_right {α β : Type} (R : α → β → Prop) (l1 : List α) (l2 : List β)
    (h : List.Forall₂ R l1 l2) : ∀ y ∈ l2, ∃ x ∈ l1, R x y := by
  induction h with
  | nil => intro y hy; simp at hy
  | cons hab _ ih =>
    intro y hy
    rcases List.mem_cons.mp hy with rfl | hy
    · exact ⟨_, by simp, hab⟩
    · obtain ⟨x, hx, hr⟩ := ih y hy
      exact ⟨x, by simp [hx], hr⟩

theorem sameShapes_of_forall₂ (geoms : List T) (ds : List T)
    (h : List.Forall₂ SameShape geoms ds) : SameShapes geoms ds := by
  induction h with
  | nil => simp only [SameShapes]
  | cons hab _ ih =>
    simp only [SameShapes]
    exact ⟨_, _, rfl, hab, ih⟩

theorem decodes_collection (parse : FloatReader) (fmt : Formatter) (l : Layout)
    (geoms : List T) (srid : Int) (hl : l.supported = true) (hne : geoms ≠ [])
    (L : List (String × List Token × T))
    (hL : List.Forall₂ (fun g x => Decodes parse fmt g x.1 x.2.1 x.2.2) geoms L) :
    ∃ s ts d, Decodes parse fmt (.GeometryCollection l geoms srid) s ts d := by
  have hg : (T.GeometryCollection l geoms srid).supported = true := rfl
  have hl' : (T.GeometryCollection l geoms srid).Layout.supported = true := hl
  have hLne : L ≠ [] := by
    intro h
    rw [h] at hL
    cases hL
    exact hne rfl
  have hmem := forall₂_mem_right _ _ _ hL
  have htexts : List.Forall₂ (fun g s => write fmt "" g (-1) = (s, .nil)) geoms
      (L.map (fun x => x.1)) := by
    rw [List.forall₂_map_right_iff]
    exact hL.imp (fun _ _ h => h.1)
  have hw : write fmt "" (.GeometryCollection l geoms srid) (-1) =
      (specHeader (.GeometryCollection l geoms srid) ++
        ("(" ++ String.intercalate ", " (L.map (fun x => x.1)) ++ ")"), .nil) := by
    rw [write_GeometryCollection fmt "" l geoms srid (-1) hl]
    have : GeometryCollection.Empty geoms = false := by
      simpa [GeometryCollection.Empty] using hne
    rw [this, writeGeoms_ok fmt (-1) geoms _ htexts]
    simp [joined_zero, String.append_assoc]
  refine ⟨_, headerToks (.GeometryCollection l geoms srid) ++
      groupToks (L.map (fun x => x.2.1)),
    .GeometryCollection l (L.map (fun x => x.2.2)) 0, hw, ?_, ?_, ?_⟩
  · have h1 := tokCl_group (fun x : String × List Token × T => x.1) (fun x => x.2.1) L
      (fun x hx => by
        obtain ⟨g, _, hd⟩ := hmem x hx
        exact hd.2.1)
    have h2 := tokCl_append _ _ _ _ (tokCl_header _ hg hl') h1
    have h3 := tokAs_of_tokCl _ _ h2
    simpa [String.data_append] using h3
  · simp only [SameShape]
    refine ⟨_, _, rfl, sameShapes_of_forall₂ _ _ ?_⟩
    rw [List.forall₂_map_right_iff]
    exact hL.imp (fun _ _ h => h.2.2.1)
  · intro fuel R hf
    cases fuel with
    | zero => simp [headerToks] at hf
    | succ f =>
      rw [List.append_assoc] at hf ⊢
      obtain ⟨body, hb⟩ := group_open (L.map (fun x => x.2.1)) R
      have hf' : (groupToks (L.map (fun x => x.2.1)) ++ R).length ≤ f := by
        have := headerToks_length (.GeometryCollection l geoms srid)
        rw [List.length_append] at hf
        omega
      have hp := parseGroup_ok (parseGeom parse f) (fun x : String × List Token × T => x.2.2)
        (fun x => x.2.1) f L hLne
        (fun x hx R _ hb => by
          obtain ⟨g, _, hd⟩ := hmem x hx
          exact hd.2.2.2 f R hb)
        f R hf' hf'
      rw [hb] at hp ⊢
      rw [parseGeom_open parse f _ _ hg hl']
      simp only [parseGroup] at hp
      simp only [kindOf, T.Layout, hp]

mutual
theorem decodes_all (parse : FloatReader) (fmt : Formatter) (g : T) (hwf : WellFormed g)
    (hnd : NonDegenerate g) (hx : ∀ x ∈ printedCoords g, ExactToken parse fmt x) :
    ∃ s ts d, Decodes parse fmt g s ts d := by
  cases g with
  | other l e => simp [WellFormed] at hwf
  | Point p =>
    have hwf' := hwf
    have hnd' := hnd
    simp only [WellFormed, NonDegenerate] at hwf' hnd'
    have hE := point_empty_eq p (by rw [hwf'.2.1]; exact le_of_eq hnd'.1.symm)
    cases hd : decide (∀ x ∈ p.flatCoords.take p.stride.toNat, IsNaN x = true) with
    | true =>
      rw [hd] at hE
      exact decodes_empty parse fmt _ hwf hnd hE
    | false =>
      rw [hd] at hE
      simp only [printedCoords, hE] at hx
      exact decodes_point parse fmt p hwf hnd hE (by simpa using hx)
  | LineString p =>
    by_cases hne : p.flatCoords = []
    · exact decodes_empty parse fmt _ hwf hnd (by simp [T.Empty, geom0.Empty, hne])
    · exact decodes_lineString parse fmt p hwf hne hx
  | LinearRing p =>
    by_cases hne : p.flatCoords = []
    · exact decodes_empty parse fmt _ hwf hnd (by simp [T.Empty, geom0.Empty, hne])
    · exact decodes_linearRing parse fmt p hwf hne hx
  | MultiPoint p =>
    by_cases hne : p.flatCoords = []
    · exact decodes_empty parse fmt _ hwf hnd (by simp [T.Empty, geom0.Empty, hne])
    · exact decodes_multiPoint parse fmt p hwf hne hx
  | Polygon p =>
    by_cases hne : p.flatCoords = []
    · exact decodes_empty parse fmt _ hwf hnd (by simp [T.Empty, geom0.Empty, hne])
    · exact decodes_polygon parse fmt p hwf hne hx
  | MultiLineString p =>
    by_cases hne : p.flatCoords = []
    · exact decodes_empty parse fmt _ hwf hnd (by simp [T.Empty, geom0.Empty, hne])
    · exact decodes_multiLineString parse fmt p hwf hne hx
  | MultiPolygon p =>
    by_cases hne : p.flatCoords = []
    · exact decodes_empty parse fmt _ hwf hnd (by simp [T.Empty, geom0.Empty, hne])
    · exact decodes_multiPolygon parse fmt p hwf hne hx
  | GeometryCollection l geoms srid =>
    by_cases hne : geoms = []
    · exact decodes_empty parse fmt _ hwf hnd
        (by simp [T.Empty, GeometryCollection.Empty, hne])
    · have hwf' := hwf
      have hnd' := hnd
      simp only [WellFormed, NonDegenerate] at hwf' hnd'
      obtain ⟨L, hL⟩ := decodes_list parse fmt geoms hwf'.2 hnd'.2
        (by simpa only [printedCoords] using hx)
      exact decodes_collection parse fmt l geoms srid hnd'.1 hne L hL
theorem decodes_list (parse : FloatReader) (fmt : Formatter) (geoms : List T)
    (hwf : WellFormedAll geoms) (hnd : NonDegenerateAll geoms)
    (hx : ∀ x ∈ printedCoordsAll geoms, ExactToken parse fmt x) :
    ∃ L : List (String × List Token × T),
      List.Forall₂ (fun g x => Decodes parse fmt g x.1 x.2.1 x.2.2) geoms L := by
  cases geoms with
  | nil => exact ⟨[], .nil⟩
  | cons g rest =>
    simp only [WellFormedAll, NonDegenerateAll] at hwf hnd
    simp only [printedCoordsAll, List.mem_append] at hx
    obtain ⟨s, ts, d, hd⟩ := decodes_all parse fmt g hwf.1 hnd.1 (fun x h => hx x (Or.inl h))
    obtain ⟨L, hL⟩ := decodes_list parse fmt rest hwf.2 hnd.2 (fun x h => hx x (Or.inr h))
    exact ⟨(s, ts, d) :: L, .cons hd hL⟩
end

theorem unmarshal_of_decodes (parse : FloatReader) (fmt : Formatter) (g : T) (s : String)
    (ts : List Token) (d : T) (h : Decodes parse fmt g s ts d) :
    Marshal fmt g = .ret s none ∧ Unmarshal parse s = .ok d := by
  obtain ⟨hw, ht, _, hp⟩ := h
  refine ⟨encode_of_write fmt g (-1) s hw, ?_⟩
  have h1 := tokAs_nil_eq s ts ht
  have h2 := hp (ts.length + 1) [] (by simp)
  rw [List.append_nil] at h2
  simp only [Unmarshal, decode, h1, h2]

/-- C15 (amended): round trip. Take any formatter and any number reader, and a
geometry `g` that satisfies the data-model invariants and is non-degenerate (a
Point holds one tuple, an empty Point the sentinel in every slot, a geometry
without coordinates no ends, a collection a layout among XY, XYZ, XYM, XYZM, at
every depth), every printed coordinate of which is printed exactly at full
precision (its text is a non-empty token free of whitespace, parentheses and
commas that the reader maps back to the coordinate). Then `Marshal(g)` returns a
text without error, and `Unmarshal` of that text succeeds and returns a geometry
of the same kind (a LineString for a LinearRing), with the same layout, flat
coordinates and ends/endss, the members of a collection matching one by one. -/
theorem C15_round_trip (parse : FloatReader) (fmt : Formatter) (g : T) (hwf : WellFormed g)
    (hnd : NonDegenerate g) (hx : ∀ x ∈ printedCoords g, ExactToken parse fmt x) :
    ∃ s, Marshal fmt g = .ret s none ∧ ∃ d, Unmarshal parse s = .ok d ∧ SameShape g d := by
  obtain ⟨s, ts, d, h⟩ := decodes_all parse fmt g hwf hnd hx
  obtain ⟨h1, h2⟩ := unmarshal_of_decodes parse fmt g s ts d h
  exact ⟨s, h1, d, h2, h.2.2.1⟩

/-- C15 (witness): the round trip holds on a 3D collection of a Point, a
LineString, a Polygon, a MultiPolygon, an empty Point and an empty collection,
with the reference models of `FormatFloat` and `ParseFloat`. -/
theorem C15_round_trip_witness :
    (WellFormed collectionAll ∧ NonDegenerate collectionAll ∧
      ∀ x ∈ printedCoords collectionAll, ExactToken ParseFloat FormatFloat x) ∧
    ∃ s, Marshal FormatFloat collectionAll = .ret s none ∧
      ∃ d, Unmarshal ParseFloat s = .ok d ∧ SameShape collectionAll d :=
  have hwf : WellFormed collectionAll := by
    simp +decide [collectionAll, WellFormed, WellFormedAll, pointZ, line012, polygon44,
      multiPolygon3, NewPointEmpty, NewPointFlat, endsInvariant, endssInvariant,
      Layout.supported, Layout.Stride]
  have hnd : NonDegenerate collectionAll := by
    simp +decide [collectionAll, NonDegenerate, NonDegenerateAll, pointZ, line012, polygon44,
      multiPolygon3, Layout.supported, Layout.Stride]
  have hx : ∀ x ∈ printedCoords collectionAll, ExactToken ParseFloat FormatFloat x := by
    intro x hx
    have hmem : x ∈ [f0, f1, f2, f100] :=
      (by decide : ∀ y ∈ printedCoords collectionAll, y ∈ [f0, f1, f2, f100]) x hx
    simp only [List.mem_cons, List.mem_singleton, List.not_mem_nil, or_false] at hmem
    rcases hmem with rfl | rfl | rfl | rfl <;> exact ⟨by decide, by decide, by rfl⟩
  ⟨⟨hwf, hnd, hx⟩, C15_round_trip ParseFloat FormatFloat collectionAll hwf hnd hx⟩

/-- C15 (counterexample): the claim as stated fails on geometries of a supported
kind and layout whose coordinates are printed exactly. A LinearRing and the
LineString with the same coordinates are written as the same text
`LINESTRING (0 0, 1 1, 2 2)`; the decoder returns a LineString for it, not a
LinearRing, and no function of the text can return both kinds. A Point built by
`NewPointFlat` on a buffer of two tuples is written as `POINT (1 2)`, the text of
the Point (1, 2); the decoder returns the flat coordinates `[1, 2]`, not the
buffer, and no function of the text can return both. -/
theorem C15_round_trip_counterexample :
    ((T.LinearRing line012).supported = true ∧ line012.layout.supported = true ∧
      (∀ x ∈ line012.flatCoords, ExactToken ParseFloat FormatFloat x) ∧
      Marshal FormatFloat (.LinearRing line012) = .ret "LINESTRING (0 0, 1 1, 2 2)" none ∧
      Marshal FormatFloat (.LineString line012) = .ret "LINESTRING (0 0, 1 1, 2 2)" none ∧
      Unmarshal ParseFloat "LINESTRING (0 0, 1 1, 2 2)" = .ok (.LineString line012) ∧
      (∀ p, Unmarshal ParseFloat "LINESTRING (0 0, 1 1, 2 2)" ≠ .ok (.LinearRing p)) ∧
      ∀ decode : String → Option T,
        ¬ ((∃ p, decode "LINESTRING (0 0, 1 1, 2 2)" = some (.LinearRing p)) ∧
          ∃ p, decode "LINESTRING (0 0, 1 1, 2 2)" = some (.LineString p))) ∧
    ((T.Point pointLong).supported = true ∧ pointLong.layout.supported = true ∧
      (∀ x ∈ pointLong.flatCoords, ExactToken ParseFloat FormatFloat x) ∧
      Marshal FormatFloat (.Point pointLong) = .ret "POINT (1 2)" none ∧
      Marshal FormatFloat (.Point point12) = .ret "POINT (1 2)" none ∧
      Unmarshal ParseFloat "POINT (1 2)" = .ok (.Point point12) ∧
      point12.flatCoords ≠ pointLong.flatCoords ∧
      ∀ decode : String → Option T,
        ¬ ((∃ p, decode "POINT (1 2)" = some (.Point p) ∧
            p.flatCoords = pointLong.flatCoords) ∧
          ∃ p, decode "POINT (1 2)" = some (.Point p) ∧ p.flatCoords = point12.flatCoords)) := by
  have hex : ∀ x ∈ [f0, f1, f2, f100], ExactToken ParseFloat FormatFloat x := by
    intro x hx
    simp only [List.mem_cons, List.mem_singleton, List.not_mem_nil, or_false] at hx
    rcases hx with rfl | rfl | rfl | rfl <;> exact ⟨by decide, by decide, by rfl⟩
  have hU : Unmarshal ParseFloat "LINESTRING (0 0, 1 1, 2 2)" = .ok (.LineString line012) := by
    rfl
  refine ⟨⟨rfl, rfl, fun x hx => hex x (by revert x; decide), by rfl, by rfl, hU, ?_, ?_⟩,
    ⟨rfl, rfl, fun x hx => hex x (by revert x; decide), by rfl, by rfl, by rfl, by decide, ?_⟩⟩
  · intro p h
    rw [hU] at h
    cases h
  · rintro decode ⟨⟨p, hp⟩, ⟨q, hq⟩⟩
    rw [hp] at hq
    cases hq
  · rintro decode ⟨⟨p, hp, hpf⟩, ⟨q, hq, hqf⟩⟩
    rw [hp] at hq
    cases hq
    rw [hpf] at hqf
    exact absurd hqf (by decide)

theorem wordsOK_append (ok : List Char → Prop) (a b : List Token) (ha : WordsOK ok a)
    (hb : WordsOK ok b) : WordsOK ok (a ++ b) := by
  intro w hw
  rcases List.mem_append.mp hw with h | h
  · exact ha w h
  · exact hb w h

theorem openText_empty (ok : List Char → Prop) : OpenText ok "" :=
  ⟨[], tokCl_nil, fun w hw => by simp at hw⟩

theorem pending_of_open (ok : List Char → Prop) (s : String) (h : OpenText ok s) :
    PendingText ok s := by
  obtain ⟨ts, h1, h2⟩ := h
  exact ⟨ts, tokAs_of_tokCl _ _ h1, h2⟩

/-- A separator piece closes the word that was being written. -/
theorem open_sep (ok : List Char → Prop) (s lit : String) (ts : List Token)
    (hl : TokCl lit.data ts) (hw : WordsOK ok ts) (hne : lit.data ≠ [])
    (hs : startsSep lit.data = true) (h : PendingText ok s) : OpenText ok (s ++ lit) := by
  obtain ⟨t1, h1, h2⟩ := h
  refine ⟨t1 ++ ts, ?_, wordsOK_append ok _ _ h2 hw⟩
  rw [String.data_append]
  exact tokAs_tokCl _ _ _ _ h1 hl hne hs

theorem open_lparen (ok : List Char → Prop) (s : String) (h : PendingText ok s) :
    OpenText ok (s ++ "(") :=
  open_sep ok s "(" _ tokCl_lparen (fun w hw => by simp at hw) (by decide) (by decide) h

theorem open_rparen (ok : List Char → Prop) (s : String) (h : PendingText ok s) :
    OpenText ok (s ++ ")") :=
  open_sep ok s ")" _ tokCl_rparen (fun w hw => by simp at hw) (by decide) (by decide) h

theorem open_comma (ok : List Char → Prop) (s : String) (h : PendingText ok s) :
    OpenText ok (s ++ ", ") :=
  open_sep ok s ", " _ tokCl_comma (fun w hw => by simp at hw) (by decide) (by decide) h

theorem open_blank (ok : List Char → Prop) (s : String) (h : PendingText ok s) :
    OpenText ok (s ++ " ") :=
  open_sep ok s " " _ tokCl_blank (fun w hw => by simp at hw) (by decide) (by decide) h

theorem fixedWords_word : ∀ w ∈ fixedWords, w ≠ [] ∧ ∀ c ∈ w, isSep c = false := by
  decide

/-- A fixed word followed by its blank, written at a token boundary. -/
theorem open_fixed (ok : List Char → Prop) (hfix : ∀ w ∈ fixedWords, ok w) (s : String)
    (w : List Char) (hw : w ∈ fixedWords) (h : OpenText ok s) :
    OpenText ok (s ++ ⟨w ++ [' ']⟩) := by
  obtain ⟨t1, h1, h2⟩ := h
  obtain ⟨hne, hsep⟩ := fixedWords_word w hw
  refine ⟨t1 ++ [.word w], ?_, wordsOK_append ok _ _ h2 ?_⟩
  · rw [String.data_append]
    exact tokCl_append _ _ _ _ h1 (tokCl_word_blank w hne hsep)
  · intro v hv
    simp only [List.mem_singleton, Token.word.injEq] at hv
    subst hv
    exact hfix _ hw

theorem pending_EMPTY (ok : List Char → Prop) (hfix : ∀ w ∈ fixedWords, ok w) (s : String)
    (h : OpenText ok s) : PendingText ok (writeEMPTY s).1 := by
  obtain ⟨t1, h1, h2⟩ := h
  refine ⟨t1 ++ [.word "EMPTY".data], ?_, wordsOK_append ok _ _ h2 ?_⟩
  · simp only [writeEMPTY, tEmpty, String.data_append]
    exact tokCl_tokAs _ _ _ _ h1 (tokAs_word _ (by decide) (by decide))
  · intro v hv
    simp only [List.mem_singleton, Token.word.injEq] at hv
    subst hv
    exact hfix _ (by decide)

/-- The text of a coordinate, written at a token boundary. -/
theorem pending_coord (ok : List Char → Prop) (s t : String) (ht : CoordText ok t)
    (h : OpenText ok s) : PendingText ok (s ++ t) := by
  obtain ⟨t1, h1, h2⟩ := h
  obtain ⟨hsep, hemp | hok⟩ := ht
  · have : t = "" := by
      cases t with
      | mk d => simp only at hemp; subst hemp; rfl
    subst this
    rw [String.append_empty]
    exact ⟨t1, tokAs_of_tokCl _ _ h1, h2⟩
  · by_cases hne : t.data = []
    · have : t = "" := by
        cases t with
        | mk d => simp only at hne; subst hne; rfl
      subst this
      rw [String.append_empty]
      exact ⟨t1, tokAs_of_tokCl _ _ h1, h2⟩
    · refine ⟨t1 ++ [.word t.data], ?_, wordsOK_append ok _ _ h2 ?_⟩
      · rw [String.data_append]
        exact tokCl_tokAs _ _ _ _ h1 (tokAs_word _ hne hsep)
      · intro v hv
        simp only [List.mem_singleton, Token.word.injEq] at hv
        subst hv
        exact hok

theorem writeCoordLoop_tokens (ok : List Char → Prop) (fmt : Formatter) (n : Int)
    (xs : List Float64) (htok : ∀ x ∈ xs, CoordText ok (coordStr fmt x n)) :
    ∀ (sb : Builder) (i : Nat), PendingText ok sb → (i = 0 → OpenText ok sb) →
      PendingText ok (writeCoordLoop fmt n sb i xs) := by
  induction xs with
  | nil => intro sb i h _; exact h
  | cons x rest ih =>
    intro sb i h h0
    simp only [writeCoordLoop]
    apply ih (fun y hy => htok y (List.mem_cons_of_mem _ hy))
    · apply pending_coord ok _ _ (htok x (List.mem_cons_self _ _))
      split
      · exact open_blank ok _ h
      · rename_i hi
        exact h0 (by simpa using hi)
    · intro hi
      omega

theorem writeCoord_tokens (ok : List Char → Prop) (fmt : Formatter) (n : Int) (c : Slice)
    (htok : ∀ x ∈ c.arr, CoordText ok (coordStr fmt x n)) (sb : Builder)
    (h : OpenText ok sb) :
    PendingText ok (writeCoord fmt sb c n).1 ∧ (writeCoord fmt sb c n).2 = .nil ∧
      (c.len = 0 → (writeCoord fmt sb c n).1 = sb) := by
  simp only [writeCoord, true_and]
  refine ⟨writeCoordLoop_tokens ok fmt n _
    (fun x hx => htok x (List.mem_of_mem_take hx)) _ _ (pending_of_open ok _ h) (fun _ => h), ?_⟩
  intro h0
  simp [Slice.elems, h0, writeCoordLoop]

theorem writeFlatCoords0_tokens (ok : List Char → Prop) (fmt : Formatter) (n k : Int)
    (s : Slice) (htok : ∀ x ∈ s.arr, CoordText ok (coordStr fmt x n)) (sb : Builder)
    (h : PendingText ok sb) : PendingText ok (writeFlatCoords0 fmt sb s k n).1 := by
  unfold writeFlatCoords0
  have hopen := open_lparen ok sb h
  cases hr : s.reslice 0 k with
  | none => exact pending_of_open ok _ hopen
  | some c =>
    simp only []
    obtain ⟨h1, h2, _⟩ := writeCoord_tokens ok fmt n c
      (fun x hx => htok x (reslice_mem s c _ _ hr x hx)) _ hopen
    rcases hw : writeCoord fmt (sb ++ "(") c n with ⟨t, o⟩
    rw [hw] at h1 h2
    simp only at h2
    subst h2
    exact pending_of_open ok _ (open_rparen ok _ h1)

theorem reslice_len_zero (s c : Slice) (i k : Int) (h : s.reslice i (i + k) = some c)
    (hz : i + k = 0) : i = 0 ∧ c.len = 0 := by
  unfold Slice.reslice at h
  split at h
  · rename_i hc
    injection h with h
    subst h
    constructor
    · omega
    · simp only
      omega
  · cases h

theorem writeFlatCoords1Loop_tokens (ok : List Char → Prop) (fmt : Formatter) (n k : Int)
    (s : Slice) (htok : ∀ x ∈ s.arr, CoordText ok (coordStr fmt x n)) (fuel : Nat) :
    ∀ (sb : Builder) (i : Int), PendingText ok sb → (i = 0 → OpenText ok sb) →
      PendingText ok (writeFlatCoords1Loop fmt s k n fuel sb i).1 := by
  induction fuel with
  | zero =>
    intro sb i h _
    simp only [writeFlatCoords1Loop]
    split <;> exact h
  | succ fuel ih =>
    intro sb i h h0
    simp only [writeFlatCoords1Loop]
    split
    · have hsep : OpenText ok (if i ≠ 0 then sb ++ ", " else sb) := by
        split
        · exact open_comma ok _ h
        · rename_i hi
          exact h0 (by simpa using hi)
      cases hr : s.reslice i (i + k) with
      | none => exact pending_of_open ok _ hsep
      | some c =>
        simp only []
        obtain ⟨h1, h2, h3⟩ := writeCoord_tokens ok fmt n c
          (fun x hx => htok x (reslice_mem s c _ _ hr x hx)) _ hsep
        rcases hw : writeCoord fmt (if i ≠ 0 then sb ++ ", " else sb) c n with ⟨t, o⟩
        rw [hw] at h1 h2 h3
        simp only at h2 h3
        subst h2
        apply ih _ _ h1
        intro hz
        obtain ⟨hi, hc⟩ := reslice_len_zero s c i k hr hz
        rw [h3 hc]
        exact hsep
    · exact h

theorem writeFlatCoords1_tokens (ok : List Char → Prop) (fmt : Formatter) (n k : Int)
    (s : Slice) (htok : ∀ x ∈ s.arr, CoordText ok (coordStr fmt x n)) (sb : Builder)
    (h : PendingText ok sb) : PendingText ok (writeFlatCoords1 fmt sb s k n).1 := by
  unfold writeFlatCoords1
  simp only []
  have hopen := open_lparen ok sb h
  have h1 := writeFlatCoords1Loop_tokens ok fmt n k s htok s.len (sb ++ "(") 0
    (pending_of_open ok _ hopen) (fun _ => hopen)
  rcases hw : writeFlatCoords1Loop fmt s k n s.len (sb ++ "(") 0 with ⟨t, o⟩
  rw [hw] at h1
  cases o
  · exact pending_of_open ok _ (open_rparen ok _ h1)
  all_goals exact h1

theorem writeFlatCoords2Loop_tokens (ok : List Char → Prop) (fmt : Formatter) (n k : Int)
    (s : Slice) (htok : ∀ x ∈ s.arr, CoordText ok (coordStr fmt x n)) (ends : List Int) :
    ∀ (sb : Builder) (i : Nat) (start : Int), PendingText ok sb →
      PendingText ok (writeFlatCoords2Loop fmt s k n sb i start ends).1 := by
  induction ends with
  | nil => intro sb i start h; exact h
  | cons e rest ih =>
    intro sb i start h
    simp only [writeFlatCoords2Loop]
    have hsep : PendingText ok (if i ≠ 0 then sb ++ ", " else sb) := by
      split
      · exact pending_of_open ok _ (open_comma ok _ h)
      · exact h
    cases hr : s.reslice start e with
    | none => exact hsep
    | some c =>
      simp only []
      have h1 := writeFlatCoords1_tokens ok fmt n k c
        (fun x hx => htok x (reslice_mem s c _ _ hr x hx)) _ hsep
      rcases hw : writeFlatCoords1 fmt (if i ≠ 0 then sb ++ ", " else sb) c k n with ⟨t, o⟩
      rw [hw] at h1
      cases o
      · exact ih _ _ _ h1
      all_goals exact h1

theorem writeFlatCoords2_tokens (ok : List Char → Prop) (fmt : Formatter) (n k : Int)
    (s : Slice) (htok : ∀ x ∈ s.arr, CoordText ok (coordStr fmt x n)) (start : Int)
    (ends : List Int) (sb : Builder) (h : PendingText ok sb) :
    PendingText ok (writeFlatCoords2 fmt sb s start ends k n).1 := by
  unfold writeFlatCoords2
  simp only []
  have h1 := writeFlatCoords2Loop_tokens ok fmt n k s htok ends (sb ++ "(") 0 start
    (pending_of_open ok _ (open_lparen ok sb h))
  rcases hw : writeFlatCoords2Loop fmt s k n (sb ++ "(") 0 start ends with ⟨t, o⟩
  rw [hw] at h1
  cases o
  · exact pending_of_open ok _ (open_rparen ok _ h1)
  all_goals exact h1

theorem writeFlatCoords3Loop_tokens (ok : List Char → Prop) (fmt : Formatter) (n k : Int)
    (s : Slice) (htok : ∀ x ∈ s.arr, CoordText ok (coordStr fmt x n))
    (endss : List (List Int)) :
    ∀ (sb : Builder) (i : Nat) (start : Int), PendingText ok sb →
      PendingText ok (writeFlatCoords3Loop fmt s k n sb i start endss).1 := by
  induction endss with
  | nil => intro sb i start h; exact h
  | cons ends rest ih =>
    intro sb i start h
    simp only [writeFlatCoords3Loop]
    have hsep : PendingText ok (if i ≠ 0 then sb ++ ", " else sb) := by
      split
      · exact pending_of_open ok _ (open_comma ok _ h)
      · exact h
    have h1 := writeFlatCoords2_tokens ok fmt n k s htok start ends _ hsep
    rcases hw : writeFlatCoords2 fmt (if i ≠ 0 then sb ++ ", " else sb) s start ends k n
      with ⟨t, o⟩
    rw [hw] at h1
    cases o
    · simp only []
      cases ends.getLast? with
      | none => exact h1
      | some last => exact ih _ _ _ h1
    all_goals exact h1

theorem writeFlatCoords3_tokens (ok : List Char → Prop) (fmt : Formatter) (n k : Int)
    (s : Slice) (htok : ∀ x ∈ s.arr, CoordText ok (coordStr fmt x n))
    (endss : List (List Int)) (sb : Builder) (h : PendingText ok sb) :
    PendingText ok (writeFlatCoords3 fmt sb s endss k n).1 := by
  unfold writeFlatCoords3
  simp only []
  have h1 := writeFlatCoords3Loop_tokens ok fmt n k s htok endss (sb ++ "(") 0 0
    (pending_of_open ok _ (open_lparen ok sb h))
  rcases hw : writeFlatCoords3Loop fmt s k n (sb ++ "(") 0 0 endss with ⟨t, o⟩
  rw [hw] at h1
  cases o
  · exact pending_of_open ok _ (open_rparen ok _ h1)
  all_goals exact h1

theorem typeKeyword_fixed (g : T) (kw : String) (hk : typeKeyword g = some kw) :
    ∃ w ∈ fixedWords, kw = ⟨w ++ [' ']⟩ := by
  cases g <;> simp only [typeKeyword, Option.some.injEq, reduceCtorEq] at hk <;> subst hk
  · exact ⟨"POINT".data, by decide, rfl⟩
  · exact ⟨"LINESTRING".data, by decide, rfl⟩
  · exact ⟨"LINESTRING".data, by decide, rfl⟩
  · exact ⟨"POLYGON".data, by decide, rfl⟩
  · exact ⟨"MULTIPOINT".data, by decide, rfl⟩
  · exact ⟨"MULTILINESTRING".data, by decide, rfl⟩
  · exact ⟨"MULTIPOLYGON".data, by decide, rfl⟩
  · exact ⟨"GEOMETRYCOLLECTION".data, by decide, rfl⟩

theorem header_tokens (ok : List Char → Prop) (hfix : ∀ w ∈ fixedWords, ok w) (g : T)
    (kw h : String) (hk : typeKeyword g = some kw) (hsw : layoutSwitch g kw = .ok h)
    (sb : Builder) (hsb : OpenText ok sb) : OpenText ok (sb ++ h) := by
  obtain ⟨w, hw, rfl⟩ := typeKeyword_fixed g kw hk
  have h1 := open_fixed ok hfix sb w hw hsb
  rcases layoutSwitch_ok_cases g _ h hsw with rfl | rfl | rfl | rfl
  · exact h1
  · rw [← String.append_assoc]
    exact open_fixed ok hfix _ "Z".data (by decide) h1
  · rw [← String.append_assoc]
    exact open_fixed ok hfix _ "M".data (by decide) h1
  · rw [← String.append_assoc]
    exact open_fixed ok hfix _ "ZM".data (by decide) h1

mutual
theorem write_tokens (ok : List Char → Prop) (hfix : ∀ w ∈ fixedWords, ok w) (fmt : Formatter)
    (n : Int) (g : T) (htok : ∀ x ∈ coordsOf g, CoordText ok (coordStr fmt x n))
    (sb : Builder) (hsb : OpenText ok sb) : PendingText ok (write fmt sb g n).1 := by
  have hp := pending_of_open ok sb hsb
  cases g with
  | other l e => simpa [write, typeKeyword] using hp
  | Point p =>
    rw [write]
    simp only [typeKeyword]
    cases hsw : layoutSwitch (T.Point p) tPoint with
    | error e => exact hp
    | ok h =>
      have hh := header_tokens ok hfix (T.Point p) tPoint h rfl hsw sb hsb
      simp only []
      rcases Point.Empty p with _ | _ | _
      · exact pending_of_open ok _ hh
      · exact writeFlatCoords0_tokens ok fmt n _ _ htok _ (pending_of_open ok _ hh)
      · exact pending_EMPTY ok hfix _ hh
  | LineString p =>
    rw [write]
    simp only [typeKeyword]
    cases hsw : layoutSwitch (T.LineString p) tLineString with
    | error e => exact hp
    | ok h =>
      have hh := header_tokens ok hfix (T.LineString p) tLineString h rfl hsw sb hsb
      simp only []
      split
      · exact pending_EMPTY ok hfix _ hh
      · exact writeFlatCoords1_tokens ok fmt n _ _ htok _ (pending_of_open ok _ hh)
  | LinearRing p =>
    rw [write]
    simp only [typeKeyword]
    cases hsw : layoutSwitch (T.LinearRing p) tLineString with
    | error e => exact hp
    | ok h =>
      have hh := header_tokens ok hfix (T.LinearRing p) tLineString h rfl hsw sb hsb
      simp only []
      split
      · exact pending_EMPTY ok hfix _ hh
      · exact writeFlatCoords1_tokens ok fmt n _ _ htok _ (pending_of_open ok _ hh)
  | MultiPoint p =>
    rw [write]
    simp only [typeKeyword]
    cases hsw : layoutSwitch (T.MultiPoint p) tMultiPoint with
    | error e => exact hp
    | ok h =>
      have hh := header_tokens ok hfix (T.MultiPoint p) tMultiPoint h rfl hsw sb hsb
      simp only []
      split
      · exact pending_EMPTY ok hfix _ hh
      · exact writeFlatCoords1_tokens ok fmt n _ _ htok _ (pending_of_open ok _ hh)
  | Polygon p =>
    rw [write]
    simp only [typeKeyword]
    cases hsw : layoutSwitch (T.Polygon p) tPolygon with
    | error e => exact hp
    | ok h =>
      have hh := header_tokens ok hfix (T.Polygon p) tPolygon h rfl hsw sb hsb
      simp only []
      split
      · exact pending_EMPTY ok hfix _ hh
      · exact writeFlatCoords2_tokens ok fmt n _ _ htok _ _ _ (pending_of_open ok _ hh)
  | MultiLineString p =>
    rw [write]
    simp only [typeKeyword]
    cases hsw : layoutSwitch (T.MultiLineString p) tMultiLineString with
    | error e => exact hp
    | ok h =>
      have hh := header_tokens ok hfix (T.MultiLineString p) tMultiLineString h rfl hsw sb hsb
      simp only []
      split
      · exact pending_EMPTY ok hfix _ hh
      · exact writeFlatCoords2_tokens ok fmt n _ _ htok _ _ _ (pending_of_open ok _ hh)
  | MultiPolygon p =>
    rw [write]
    simp only [typeKeyword]
    cases hsw : layoutSwitch (T.MultiPolygon p) tMultiPolygon with
    | error e => exact hp
    | ok h =>
      have hh := header_tokens ok hfix (T.MultiPolygon p) tMultiPolygon h rfl hsw sb hsb
      simp only []
      split
      · exact pending_EMPTY ok hfix _ hh
      · exact writeFlatCoords3_tokens ok fmt n _ _ htok _ _ (pending_of_open ok _ hh)
  | GeometryCollection l geoms srid =>
    rw [write]
    simp only [typeKeyword]
    cases hsw : layoutSwitch (T.GeometryCollection l geoms srid) tGeometryCollection with
    | error e => exact hp
    | ok h =>
      have hh := header_tokens ok hfix (T.GeometryCollection l geoms srid)
        tGeometryCollection h rfl hsw sb hsb
      simp only []
      split
      · exact pending_EMPTY ok hfix _ hh
      · have hopen := open_lparen ok _ (pending_of_open ok _ hh)
        have h1 := writeGeoms_tokens ok hfix fmt n geoms htok (sb ++ h ++ "(") 0
          (pending_of_open ok _ hopen) (fun _ => hopen)
        rcases hw : writeGeoms fmt (sb ++ h ++ "(") 0 geoms n with ⟨t, o⟩
        rw [hw] at h1
        cases o
        · exact pending_of_open ok _ (open_rparen ok _ h1)
        all_goals exact h1
theorem writeGeoms_tokens (ok : List Char → Prop) (hfix : ∀ w ∈ fixedWords, ok w)
    (fmt : Formatter) (n : Int) (geoms : List T)
    (htok : ∀ x ∈ coordsOfAll geoms, CoordText ok (coordStr fmt x n)) (sb : Builder)
    (i : Nat) (hsb : PendingText ok sb) (h0 : i = 0 → OpenText ok sb) :
    PendingText ok (writeGeoms fmt sb i geoms n).1 := by
  cases geoms with
  | nil => simpa [writeGeoms] using hsb
  | cons g rest =>
    rw [writeGeoms]
    have hsep : OpenText ok (if i ≠ 0 then sb ++ ", " else sb) := by
      split
      · exact open_comma ok _ hsb
      · rename_i hi
        exact h0 (by simpa using hi)
    have h1 := write_tokens ok hfix fmt n g
      (fun x hx => htok x (by simp only [coordsOfAll]; exact List.mem_append_left _ hx)) _ hsep
    rcases hw : write fmt (if i ≠ 0 then sb ++ ", " else sb) g n with ⟨t, o⟩
    rw [hw] at h1
    cases o
    · exact writeGeoms_tokens ok hfix fmt n rest
        (fun x hx => htok x (by simp only [coordsOfAll]; exact List.mem_append_right _ hx))
        _ _ h1 (fun hi => by omega)
    all_goals exact h1
end

theorem coordStr_mem (fmt : Formatter) (x : Float64) (n : Int) :
    ∀ c ∈ (coordStr fmt x n).data, c ∈ (fmt x n).data := by
  unfold coordStr
  simp only []
  split
  · intro c hc
    simp only [TrimRight] at hc
    obtain ⟨r1, h1, _⟩ := rdropWhile_split (fun c => (".": String).data.contains c)
      ((fmt x n).data.rdropWhile (fun c => ("0" : String).data.contains c))
    obtain ⟨r0, h0, _⟩ := rdropWhile_split (fun c => ("0" : String).data.contains c)
      (fmt x n).data
    rw [h0, h1]
    exact List.mem_append_left _ (List.mem_append_left _ hc)
  · intro c hc
    exact hc

theorem fixedWords_token : ∀ w ∈ fixedWords,
    fracLen w = 0 ∧ w.getLast? ≠ some '.' ∧ ('.' ∈ w → w.getLast? ≠ some '0') := by
  decide

/-- C10: when `encode g n` succeeds for some `n ≥ 0`, the text is put together from
the fixed pieces of the writers and from the texts written for the coordinates of
`g`; and, the renderings of the coordinates being free of whitespace, parentheses
and commas, every token of the text (a maximal run of characters other than
whitespace, parentheses and commas) has at most `n` digits after its decimal
point, does not end with `.`, does not end with `0` when it has a decimal point,
and is a keyword, a dimensionality suffix, `EMPTY`, or the text written for a
coordinate of `g`. The renderings `FormatFloat(x, 'f', n, 64)` of the coordinates
are taken to have the fixed-point shape: at most one decimal point, with at most
`n` characters after it. -/
theorem C10_tokens (fmt : Formatter) (g : T) (n : Nat) (s : String)
    (hshape : ∀ x ∈ coordsOf g, FixedShape n (fmt x n))
    (h : encode fmt g n = .ret s none) :
    Assembled (fun t => ∃ x ∈ coordsOf g, t = coordStr fmt x n ∧ TokenOK n t) s ∧
    ((∀ x ∈ coordsOf g, ∀ c ∈ (fmt x n).data, isSep c = false) →
      ∀ w, Token.word w ∈ tokenize s →
        TokenOK n ⟨w⟩ ∧
          (w ∈ fixedWords ∨ ∃ x ∈ coordsOf g, w = (coordStr fmt x n).data)) := by
  have hw := write_of_encode fmt g n s h
  constructor
  · have := write_assembled (fun t => ∃ x ∈ coordsOf g, t = coordStr fmt x n ∧ TokenOK n t)
      fmt n g (fun x hx => ⟨x, hx, rfl, coordStr_token fmt x n (hshape x hx)⟩) ""
      Assembled.empty
    rw [hw] at this
    exact this
  · intro hsep
    have := write_tokens
      (fun w => TokenOK n ⟨w⟩ ∧
        (w ∈ fixedWords ∨ ∃ x ∈ coordsOf g, w = (coordStr fmt x n).data))
      (fun w hwf => ⟨by
        obtain ⟨h1, h2, h3⟩ := fixedWords_token w hwf
        exact ⟨by show fracLen w ≤ n; omega, h2, h3⟩, Or.inl hwf⟩)
      fmt n g
      (fun x hx => ⟨fun c hc => hsep x hx c (coordStr_mem fmt x n c hc),
        Or.inr ⟨coordStr_token fmt x n (hshape x hx), Or.inr ⟨x, hx, rfl⟩⟩⟩)
      "" (openText_empty _)
    rw [hw] at this
    obtain ⟨ts, h1, h2⟩ := this
    rw [tokAs_nil_eq s ts h1]
    exact h2

/-- Instance of C10 at the point (1.2, 100) with three decimal digits, reference
formatter: the tokens of `POINT (1.2 100)` are `POINT`, `1.2` and `100`. -/
theorem C10_tokens_witness :
    ((∀ x ∈ coordsOf (.Point point1_2), FixedShape 3 (FormatFloat x 3)) ∧
      encode FormatFloat (.Point point1_2) 3 = .ret "POINT (1.2 100)" none) ∧
    (∀ x ∈ coordsOf (.Point point1_2), ∀ c ∈ (FormatFloat x 3).data, isSep c = false) ∧
    tokenize "POINT (1.2 100)" =
      [.word "POINT".data, .lparen, .word "1.2".data, .word "100".data, .rparen] ∧
    Assembled (fun t => ∃ x ∈ coordsOf (.Point point1_2),
      t = coordStr FormatFloat x 3 ∧ TokenOK 3 t) "POINT (1.2 100)" ∧
    ∀ w, Token.word w ∈ tokenize "POINT (1.2 100)" →
      TokenOK 3 ⟨w⟩ ∧
        (w ∈ fixedWords ∨
          ∃ x ∈ coordsOf (.Point point1_2), w = (coordStr FormatFloat x 3).data) :=
  have hc := C10_tokens FormatFloat (.Point point1_2) 3 "POINT (1.2 100)" (by decide) (by rfl)
  ⟨⟨by decide, by rfl⟩, by decide, by decide, hc.1, hc.2 (by decide)⟩

end wkt
